import Mathlib

/-! A verification development for the `ccache` package.

Shallow embedding of `src/ccache` (the flat `Cache`, the `LayeredCache`, their
worker and their collector) together with theorems about it.

Conventions of the embedding

* Go pointers to `Item` are item identifiers (`ItemId`); the heap of items is the
  field `items` of a cache, and `nextItem` is the next identifier to allocate.
* `item.element` is non-nil exactly when the field `element` is `true`.  The only
  place that creates a list element is `item.element = c.list.PushFront(item)`, so
  an element and the item it carries determine each other and the recency list is
  the sequence of the item identifiers of its linked elements, head first.  An
  element whose `list` field is not the cache's list (it was removed, or the list
  was replaced) is an identifier that does not occur in that sequence.
* The slice `buckets` of shards is a function from the shard index to the shard;
  `ItemCount` ranges over the `config.buckets` allocated shards.
* A Go channel is a bounded FIFO queue.  A send on a full channel blocks; an
  operation that blocks yields `none`.
* `time.Now().UnixNano()` is an explicit argument `now`.
* `int64` arithmetic on the size counter wraps (`wrap64`).
* An invocation of the `onDelete` callback appends the item to `onDeleteCalls`.
-/

namespace CCache

/-! ## Machine integers, channels, `container/list`, `hash/fnv` -/

/-- Two's complement wrap-around of a signed 64 bit integer. -/
def wrap64 (x : Int) : Int := (x + 2 ^ 63) % 2 ^ 64 - 2 ^ 63

abbrev ItemId := Nat

/-- Send on a buffered channel of capacity `cap` holding `q`: `none` when the
channel is full (the sender blocks). -/
def send (cap : Nat) (q : List ItemId) (x : ItemId) : Option (List ItemId) :=
  if q.length < cap then some (q ++ [x]) else none

/-- Go's `(*List).Remove(e)`: unlinks `e` when it belongs to the list, otherwise
does nothing. -/
def listRemove (l : List ItemId) (e : ItemId) : List ItemId := l.erase e

/-- Go's `(*List).MoveToFront(e)`: does nothing when `e` is not an element of the
list (or is already its head). -/
def listMoveToFront (l : List ItemId) (e : ItemId) : List ItemId :=
  if e ∈ l then e :: l.erase e else l

/-- Go's `(*List).PushFront(v)`. -/
def listPushFront (l : List ItemId) (e : ItemId) : List ItemId := e :: l

/-- The bytes of a Go string: the UTF-8 encoding of its characters. -/
def bytes (key : String) : List UInt8 := key.data.flatMap String.utf8EncodeChar

/-- One round of 32 bit FNV-1: multiply by the prime, then xor the byte. -/
def fnv1Step (h : Nat) (b : UInt8) : Nat := Nat.xor ((h * 16777619) % 2 ^ 32) b.toNat

/-- One round of 32 bit FNV-1a: xor the byte, then multiply by the prime. -/
def fnv1aStep (h : Nat) (b : UInt8) : Nat := ((Nat.xor h b.toNat) * 16777619) % 2 ^ 32

/-- The value of `h := fnv.New32(); h.Write([]byte(key)); h.Sum32()`. -/
def fnv32 (key : String) : Nat := (bytes key).foldl fnv1Step 2166136261

/-- The value of `h := fnv.New32a(); h.Write([]byte(key)); h.Sum32()`. -/
def fnv32a (key : String) : Nat := (bytes key).foldl fnv1aStep 2166136261

/-! ## Configuration (`configration.go`) -/

/-- The struct `Configuration`; `onDelete` records whether a callback is set. -/
structure Configuration where
  maxSize : Int
  buckets : Nat
  itemsToPrune : Nat
  deleteBuffer : Nat
  promoteBuffer : Nat
  getsPerPromote : Int
  tracking : Bool
  onDelete : Bool
deriving DecidableEq, Repr

def Configure : Configuration :=
  { buckets := 16
    itemsToPrune := 500
    deleteBuffer := 1024
    getsPerPromote := 3
    promoteBuffer := 1024
    maxSize := 5000
    tracking := false
    onDelete := false }

def Configuration.MaxSize (c : Configuration) (max : Int) : Configuration :=
  { c with maxSize := max }

def Configuration.ItemsToPrune (c : Configuration) (count : Nat) : Configuration :=
  { c with itemsToPrune := count % 2 ^ 32 }

def Configuration.PromoteBuffer (c : Configuration) (size : Nat) : Configuration :=
  { c with promoteBuffer := size % 2 ^ 32 }

def Configuration.DeleteBuffer (c : Configuration) (size : Nat) : Configuration :=
  { c with deleteBuffer := size % 2 ^ 32 }

def Configuration.GetsPerPromote (c : Configuration) (count : Int) : Configuration :=
  { c with getsPerPromote := count }

def Configuration.Track (c : Configuration) : Configuration :=
  { c with tracking := true }

def Configuration.OnDelete (c : Configuration) : Configuration :=
  { c with onDelete := true }

/-! ## Items and buckets (`item.go` and `bucket.go` are not among the sources) -/

/-- A cached value (Go's `interface{}`): a payload and, optionally, its own cost. -/
structure Value where
  data : Nat
  cost : Option Int
deriving DecidableEq, Repr

/-- The struct `Item`, with the fields the sources read and write. -/
structure Item where
  key : String
  group : String
  value : Value
  expires : Int
  size : Int
  promotions : Int
  refCount : Int
  element : Bool
deriving DecidableEq, Repr

/-- Modelled from the spec: `newItem` of `item.go` is missing.  An Item is created
on `set` with its key, value and expiry, a size that is "a signed integer cost unit,
default 1 per item", a zero promotion counter and reference count, and no
recency-list position. -/
def newItem (key : String) (value : Value) (expires : Int) : Item :=
  { key := key
    group := ""
    value := value
    expires := expires
    size := value.cost.getD 1
    promotions := 0
    refCount := 0
    element := false }

/-- Modelled from the spec: `Item.shouldPromote` of `item.go` is missing.  "An Item
already on the recency list is moved to the head only after it has accumulated at
least getsPerPromote accesses since its last promotion (a counter compared against
the threshold)": the counter is incremented and compared with the threshold. -/
def Item.shouldPromote (i : Item) (getsPerPromote : Int) : Item × Bool :=
  ({ i with promotions := i.promotions + 1 }, decide (getsPerPromote ≤ i.promotions + 1))

/-- Modelled from the spec: `Item.Expired` of `item.go` is missing.  `Get` enqueues
a promotion "if the Item is not yet expired", which the source tests as
`item.expires > now`; an Item is expired when that test fails. -/
def Item.Expired (i : Item) (now : Int) : Bool := decide (i.expires ≤ now)

/-- Modelled from the spec: `Item.TTL` of `item.go` is missing: the time left until
the expiry (negative once it has passed). -/
def Item.TTL (i : Item) (now : Int) : Int := i.expires - now

/-- Modelled from the spec: the struct `bucket` of `bucket.go` is missing: "a
mapping from key to Item", here an association list with at most one entry per
key. -/
structure bucket where
  lookup : List (String × ItemId)
deriving DecidableEq, Repr

/-- Modelled from the spec: `bucket.get` is missing: the Item stored under the key. -/
def bucket.get (b : bucket) (key : String) : Option ItemId :=
  (b.lookup.find? (fun e => e.1 = key)).map Prod.snd

/-- Modelled from the spec: `bucket.set` is missing: it "replaces an existing Item
atomically and returns both the new and the evicted Item".  The new Item is the
freshly allocated `item`. -/
def bucket.set (b : bucket) (key : String) (item : ItemId) : bucket × Option ItemId :=
  ({ lookup := (key, item) :: b.lookup.filter (fun e => e.1 ≠ key) }, b.get key)

/-- Modelled from the spec: `bucket.delete` is missing: it removes the entry of the
key and returns the Item that was stored there. -/
def bucket.delete (b : bucket) (key : String) : bucket × Option ItemId :=
  ({ lookup := b.lookup.filter (fun e => e.1 ≠ key) }, b.get key)

/-- Modelled from the spec: `bucket.itemCount` is missing: the number of entries. -/
def bucket.itemCount (b : bucket) : Nat := b.lookup.length

/-- Modelled from the spec: `bucket.clear` is missing: it resets the shard to
empty. -/
def bucket.clear (_b : bucket) : bucket := { lookup := [] }

/-! ## The flat cache (`ccache.go`) -/

/-- The struct `Cache`.  `workers` counts the worker goroutines that were started,
`promotablesClosed`, `deletablesClosed` and `donec` record which channels are
closed. -/
structure Cache where
  config : Configuration
  items : ItemId → Item
  nextItem : ItemId
  list : List ItemId
  size : Int
  buckets : Nat → bucket
  bucketMask : Nat
  deletables : List ItemId
  promotables : List ItemId
  promotablesClosed : Bool
  deletablesClosed : Bool
  donec : Bool
  workers : Nat
  onDeleteCalls : List ItemId

/-- The method `restart`: fresh channels; the line starting the worker is commented
out in the source. -/
def Cache.restart (c : Cache) : Cache :=
  { c with
    deletables := []
    promotables := []
    promotablesClosed := false
    deletablesClosed := false
    donec := false }

/-- The constructor `New`. -/
def New (config : Configuration) : Cache :=
  Cache.restart
    { config := config
      items := fun _ => newItem "" ⟨0, none⟩ 0
      nextItem := 0
      list := []
      size := 0
      buckets := fun _ => { lookup := [] }
      bucketMask := (config.buckets % 2 ^ 32 + (2 ^ 32 - 1)) % 2 ^ 32
      deletables := []
      promotables := []
      promotablesClosed := false
      deletablesClosed := false
      donec := false
      workers := 0
      onDeleteCalls := [] }

/-- The index of the shard of a key: `h.Sum32() & c.bucketMask`. -/
def Cache.bucket (c : Cache) (key : String) : Nat := Nat.land (fnv32 key) c.bucketMask

/-- The method `promote`: a send on the promotion channel. -/
def Cache.promote (c : Cache) (item : ItemId) : Option Cache :=
  (send c.config.promoteBuffer c.promotables item).map
    (fun q => { c with promotables := q })

/-- The method `set`.  The expiry is `now + duration`. -/
def Cache.set (c : Cache) (key : String) (value : Value) (duration now : Int) :
    Option (Cache × ItemId) :=
  let item := c.nextItem
  let r := (c.buckets (c.bucket key)).set key item
  let c1 : Cache :=
    { c with
      items := Function.update c.items item (newItem key value (now + duration))
      nextItem := item + 1
      buckets := Function.update c.buckets (c.bucket key) r.1 }
  let c2 : Option Cache :=
    match r.2 with
    | some existing =>
      (send c1.config.deleteBuffer c1.deletables existing).map
        (fun q => { c1 with deletables := q })
    | none => some c1
  c2.bind (fun c3 => (c3.promote item).map (fun c4 => (c4, item)))

/-- The method `doDelete`. -/
def Cache.doDelete (c : Cache) (item : ItemId) : Cache :=
  if (c.items item).element = false then
    { c with items := Function.update c.items item { c.items item with promotions := -2 } }
  else
    { c with
      size := wrap64 (c.size - (c.items item).size)
      onDeleteCalls := if c.config.onDelete then c.onDeleteCalls ++ [item] else c.onDeleteCalls
      list := listRemove c.list item }

/-- The method `doPromote`. -/
def Cache.doPromote (c : Cache) (item : ItemId) : Cache × Bool :=
  if (c.items item).promotions = -2 then (c, false)
  else if (c.items item).element then
    let r := (c.items item).shouldPromote c.config.getsPerPromote
    if r.2 then
      ({ c with
          list := listMoveToFront c.list item
          items := Function.update c.items item { r.1 with promotions := 0 } }, false)
    else ({ c with items := Function.update c.items item r.1 }, false)
  else
    ({ c with
        size := wrap64 (c.size + (c.items item).size)
        list := listPushFront c.list item
        items := Function.update c.items item { c.items item with element := true } }, true)

/-- The body of the branch of `gc` that evicts `element`; `rest` is the list
without that element. -/
def Cache.evict (c : Cache) (element : ItemId) (rest : List ItemId) : Cache :=
  let item := c.items element
  { c with
    buckets :=
      Function.update c.buckets (c.bucket item.key) ((c.buckets (c.bucket item.key)).delete item.key).1
    size := wrap64 (c.size - item.size)
    list := rest
    onDeleteCalls := if c.config.onDelete then c.onDeleteCalls ++ [element] else c.onDeleteCalls
    items := Function.update c.items element { item with promotions := -2 } }

/-- The loop of `gc`.  The first argument is what is left of `itemsToPrune`; `pending`
holds the cursor `element` followed by `element.Prev()`, and so on up to the head;
`kept` holds the elements already visited and left in place, in list order. -/
def Cache.gcLoop : Nat → List ItemId → List ItemId → Cache → Cache
  | 0, _, _, c => c
  | _ + 1, [], _, c => c
  | n + 1, element :: prev, kept, c =>
    if c.config.tracking = false ∨ (c.items element).refCount = 0 then
      Cache.gcLoop n prev kept (c.evict element (prev.reverse ++ kept))
    else
      Cache.gcLoop n prev (element :: kept) c

/-- The method `gc`: the walk starts at `c.list.Back()`. -/
def Cache.gc (c : Cache) : Cache := c.gcLoop c.config.itemsToPrune c.list.reverse []

/-- The evictions of the loop of `gc` in the order they happen: the evicted item
and the value of `c.size` just before its eviction. -/
def Cache.gcTrace : Nat → List ItemId → List ItemId → Cache → List (ItemId × Int)
  | 0, _, _, _ => []
  | _ + 1, [], _, _ => []
  | n + 1, element :: prev, kept, c =>
    if c.config.tracking = false ∨ (c.items element).refCount = 0 then
      (element, c.size) :: Cache.gcTrace n prev kept (c.evict element (prev.reverse ++ kept))
    else
      Cache.gcTrace n prev (element :: kept) c

/-- The evictions of one run of `gc`. -/
def Cache.gcEvictions (c : Cache) : List (ItemId × Int) :=
  c.gcTrace c.config.itemsToPrune c.list.reverse []

/-- One iteration of the first loop of `worker` that receives from `promotables`;
`none` when no promotion is queued. -/
def Cache.workerPromote (c : Cache) : Option Cache :=
  match c.promotables with
  | [] => none
  | item :: rest =>
    let r := Cache.doPromote { c with promotables := rest } item
    if r.2 = true ∧ r.1.size > r.1.config.maxSize then some r.1.gc else some r.1

/-- One iteration of the first loop of `worker` that receives from `deletables`;
`none` when no deletion is queued. -/
def Cache.workerDelete (c : Cache) : Option Cache :=
  match c.deletables with
  | [] => none
  | item :: rest => some (Cache.doDelete { c with deletables := rest } item)

/-- The method `ItemCount`. -/
def Cache.ItemCount (c : Cache) : Nat :=
  ((List.range c.config.buckets).map (fun i => (c.buckets i).itemCount)).sum

/-- The method `Get`: the cache afterwards and the item found. -/
def Cache.Get (c : Cache) (key : String) (now : Int) : Option (Cache × Option ItemId) :=
  match (c.buckets (c.bucket key)).get key with
  | none => some (c, none)
  | some item =>
    if (c.items item).expires > now then
      (c.promote item).map (fun c1 => (c1, some item))
    else some (c, some item)

/-- The method `Set`. -/
def Cache.Set (c : Cache) (key : String) (value : Value) (duration now : Int) : Option Cache :=
  (c.set key value duration now).map Prod.fst

/-- The outcome of `Fetch`: the returned item, the returned error and the number of
times the producer was invoked. -/
structure FetchResult where
  item : Option ItemId
  err : Option String
  calls : Nat
deriving DecidableEq, Repr

/-- The method `Fetch`.  The producer is `fetch`; `now`, `now1` and `now2` are the
clock readings of `Get`, of `Expired` and of `set`. -/
def Cache.Fetch (c : Cache) (key : String) (duration : Int) (fetch : Unit → Except String Value)
    (now now1 now2 : Int) : Option (Cache × FetchResult) :=
  (c.Get key now).bind (fun r =>
    let proceed : Option (Cache × FetchResult) :=
      match fetch () with
      | Except.error e => some (r.1, { item := none, err := some e, calls := 1 })
      | Except.ok value =>
        (r.1.set key value duration now2).map
          (fun r2 => (r2.1, { item := some r2.2, err := none, calls := 1 }))
    match r.2 with
    | some item =>
      if (r.1.items item).Expired now1 = false then
        some (r.1, { item := some item, err := none, calls := 0 })
      else proceed
    | none => proceed)

/-- The method `Delete`. -/
def Cache.Delete (c : Cache) (key : String) : Option (Cache × Bool) :=
  let r := (c.buckets (c.bucket key)).delete key
  let c1 : Cache := { c with buckets := Function.update c.buckets (c.bucket key) r.1 }
  match r.2 with
  | some item =>
    (send c1.config.deleteBuffer c1.deletables item).map
      (fun q => ({ c1 with deletables := q }, true))
  | none => some (c1, false)

/-! ## The layered bucket (`layeredbucket.go`) -/

/-- The struct `layeredBucket`: the map from a primary key to its bucket. -/
structure layeredBucket where
  buckets : List (String × bucket)
deriving DecidableEq, Repr

/-- The method `getSecondaryBucket`. -/
def layeredBucket.getSecondaryBucket (b : layeredBucket) (primary : String) : Option bucket :=
  (b.buckets.find? (fun e => e.1 = primary)).map Prod.snd

/-- The assignment `b.buckets[primary] = bkt`, also the effect on the map of a
change made to the bucket stored under `primary`. -/
def layeredBucket.store (b : layeredBucket) (primary : String) (bkt : bucket) : layeredBucket :=
  { buckets := (primary, bkt) :: b.buckets.filter (fun e => e.1 ≠ primary) }

def layeredBucket.itemCount (b : layeredBucket) : Nat :=
  (b.buckets.map (fun e => e.2.itemCount)).sum

def layeredBucket.get (b : layeredBucket) (primary secondary : String) : Option ItemId :=
  match b.getSecondaryBucket primary with
  | none => none
  | some bucket => bucket.get secondary

/-- The method `set`; the caller writes `item.group = primary` into the heap. -/
def layeredBucket.set (b : layeredBucket) (primary secondary : String) (item : ItemId) :
    layeredBucket × Option ItemId :=
  let bkt : bucket :=
    match b.getSecondaryBucket primary with
    | some bkt => bkt
    | none => { lookup := [] }
  let r := bkt.set secondary item
  (b.store primary r.1, r.2)

def layeredBucket.delete (b : layeredBucket) (primary secondary : String) :
    layeredBucket × Option ItemId :=
  match b.getSecondaryBucket primary with
  | none => (b, none)
  | some bucket =>
    let r := bucket.delete secondary
    (b.store primary r.1, r.2)

/-! ## The layered cache (`layercache.go`) -/

/-- The struct `LayeredCache`, with the same bookkeeping fields as `Cache`. -/
structure LayeredCache where
  config : Configuration
  items : ItemId → Item
  nextItem : ItemId
  list : List ItemId
  size : Int
  buckets : Nat → layeredBucket
  bucketMask : Nat
  deletables : List ItemId
  promotables : List ItemId
  promotablesClosed : Bool
  deletablesClosed : Bool
  donec : Bool
  workers : Nat
  onDeleteCalls : List ItemId

/-- The method `restart`: a fresh promotion channel, and a worker is started. -/
def LayeredCache.restart (c : LayeredCache) : LayeredCache :=
  { c with
    promotables := []
    promotablesClosed := false
    donec := false
    workers := c.workers + 1 }

/-- The constructor `Layered`. -/
def Layered (config : Configuration) : LayeredCache :=
  LayeredCache.restart
    { config := config
      items := fun _ => newItem "" ⟨0, none⟩ 0
      nextItem := 0
      list := []
      size := 0
      buckets := fun _ => { buckets := [] }
      bucketMask := (config.buckets % 2 ^ 32 + (2 ^ 32 - 1)) % 2 ^ 32
      deletables := []
      promotables := []
      promotablesClosed := false
      deletablesClosed := false
      donec := false
      workers := 0
      onDeleteCalls := [] }

/-- The index of the shard of a primary key: `h.Sum32() & c.bucketMask`. -/
def LayeredCache.bucket (c : LayeredCache) (key : String) : Nat :=
  Nat.land (fnv32a key) c.bucketMask

def LayeredCache.ItemCount (c : LayeredCache) : Nat :=
  ((List.range c.config.buckets).map (fun i => (c.buckets i).itemCount)).sum

/-- The method `promote`: a send on the promotion channel. -/
def LayeredCache.promote (c : LayeredCache) (item : ItemId) : Option LayeredCache :=
  (send c.config.promoteBuffer c.promotables item).map
    (fun q => { c with promotables := q })

def LayeredCache.Get (c : LayeredCache) (primary secondary : String) (now : Int) :
    Option (LayeredCache × Option ItemId) :=
  match (c.buckets (c.bucket primary)).get primary secondary with
  | none => some (c, none)
  | some item =>
    if (c.items item).expires > now then
      (c.promote item).map (fun c1 => (c1, some item))
    else some (c, some item)

/-- The method `set`.  The expiry is `now + duration`. -/
def LayeredCache.set (c : LayeredCache) (primary secondary : String) (value : Value)
    (duration now : Int) : Option (LayeredCache × ItemId) :=
  let item := c.nextItem
  let r := (c.buckets (c.bucket primary)).set primary secondary item
  let c1 : LayeredCache :=
    { c with
      items :=
        Function.update c.items item
          { newItem secondary value (now + duration) with group := primary }
      nextItem := item + 1
      buckets := Function.update c.buckets (c.bucket primary) r.1 }
  let c2 : Option LayeredCache :=
    match r.2 with
    | some existing =>
      (send c1.config.deleteBuffer c1.deletables existing).map
        (fun q => { c1 with deletables := q })
    | none => some c1
  c2.bind (fun c3 => (c3.promote item).map (fun c4 => (c4, item)))

def LayeredCache.Set (c : LayeredCache) (primary secondary : String) (value : Value)
    (duration now : Int) : Option LayeredCache :=
  (c.set primary secondary value duration now).map Prod.fst

/-- The method `Fetch`.  The producer is `fetch`; `now` and `now2` are the clock
readings of `Get` and of `set`. -/
def LayeredCache.Fetch (c : LayeredCache) (primary secondary : String) (duration : Int)
    (fetch : Unit → Except String Value) (now now2 : Int) :
    Option (LayeredCache × FetchResult) :=
  (c.Get primary secondary now).bind (fun r =>
    match r.2 with
    | some item => some (r.1, { item := some item, err := none, calls := 0 })
    | none =>
      match fetch () with
      | Except.error e => some (r.1, { item := none, err := some e, calls := 1 })
      | Except.ok value =>
        (r.1.set primary secondary value duration now2).map
          (fun r2 => (r2.1, { item := some r2.2, err := none, calls := 1 })))

def LayeredCache.Delete (c : LayeredCache) (primary secondary : String) :
    Option (LayeredCache × Bool) :=
  let r := (c.buckets (c.bucket primary)).delete primary secondary
  let c1 : LayeredCache := { c with buckets := Function.update c.buckets (c.bucket primary) r.1 }
  match r.2 with
  | some item =>
    (send c1.config.deleteBuffer c1.deletables item).map
      (fun q => ({ c1 with deletables := q }, true))
  | none => some (c1, false)

/-- The method `doPromote`. -/
def LayeredCache.doPromote (c : LayeredCache) (item : ItemId) : LayeredCache × Bool :=
  if (c.items item).promotions = -2 then (c, false)
  else if (c.items item).element then
    let r := (c.items item).shouldPromote c.config.getsPerPromote
    if r.2 then
      ({ c with
          list := listMoveToFront c.list item
          items := Function.update c.items item { r.1 with promotions := 0 } }, false)
    else ({ c with items := Function.update c.items item r.1 }, false)
  else
    ({ c with
        size := wrap64 (c.size + (c.items item).size)
        list := listPushFront c.list item
        items := Function.update c.items item { c.items item with element := true } }, true)

/-- The body of the branch of `gc` that evicts `element`; `rest` is the list
without that element. -/
def LayeredCache.evict (c : LayeredCache) (element : ItemId) (rest : List ItemId) :
    LayeredCache :=
  let item := c.items element
  { c with
    buckets :=
      Function.update c.buckets (c.bucket item.group)
        ((c.buckets (c.bucket item.group)).delete item.group item.key).1
    size := wrap64 (c.size - item.size)
    list := rest
    items := Function.update c.items element { item with promotions := -2 } }

/-- The loop of `gc`, with the arguments of `Cache.gcLoop`. -/
def LayeredCache.gcLoop : Nat → List ItemId → List ItemId → LayeredCache → LayeredCache
  | 0, _, _, c => c
  | _ + 1, [], _, c => c
  | n + 1, element :: prev, kept, c =>
    if c.config.tracking = false ∨ (c.items element).refCount = 0 then
      LayeredCache.gcLoop n prev kept (c.evict element (prev.reverse ++ kept))
    else
      LayeredCache.gcLoop n prev (element :: kept) c

/-- The method `gc`: the walk starts at `c.list.Back()`. -/
def LayeredCache.gc (c : LayeredCache) : LayeredCache :=
  c.gcLoop c.config.itemsToPrune c.list.reverse []

/-- The evictions of the loop of `gc` in the order they happen: the evicted item
and the value of `c.size` just before its eviction. -/
def LayeredCache.gcTrace : Nat → List ItemId → List ItemId → LayeredCache → List (ItemId × Int)
  | 0, _, _, _ => []
  | _ + 1, [], _, _ => []
  | n + 1, element :: prev, kept, c =>
    if c.config.tracking = false ∨ (c.items element).refCount = 0 then
      (element, c.size) ::
        LayeredCache.gcTrace n prev kept (c.evict element (prev.reverse ++ kept))
    else
      LayeredCache.gcTrace n prev (element :: kept) c

/-- The evictions of one run of `gc`. -/
def LayeredCache.gcEvictions (c : LayeredCache) : List (ItemId × Int) :=
  c.gcTrace c.config.itemsToPrune c.list.reverse []

/-- One iteration of the loop of `worker` that receives from `promotables`; `none`
when no promotion is queued. -/
def LayeredCache.workerPromote (c : LayeredCache) : Option LayeredCache :=
  match c.promotables with
  | [] => none
  | item :: rest =>
    let r := LayeredCache.doPromote { c with promotables := rest } item
    if r.2 = true ∧ r.1.size > r.1.config.maxSize then some r.1.gc else some r.1

/-- One iteration of the loop of `worker` that receives from `deletables`; `none`
when no deletion is queued. -/
def LayeredCache.workerDelete (c : LayeredCache) : Option LayeredCache :=
  match c.deletables with
  | [] => none
  | item :: rest =>
    let c1 : LayeredCache := { c with deletables := rest }
    if (c1.items item).element = false then
      some { c1 with
        items := Function.update c1.items item { c1.items item with promotions := -2 } }
    else
      some { c1 with
        size := wrap64 (c1.size - (c1.items item).size)
        onDeleteCalls :=
          if c1.config.onDelete then c1.onDeleteCalls ++ [item] else c1.onDeleteCalls
        list := listRemove c1.list item }

/-! ## Auxiliary definitions used in the statements -/

/-- The cache after a `set` that does not block. -/
def Cache.afterSet (c : Cache) (key : String) (value : Value) (duration now : Int) : Cache :=
  { c with
    items := Function.update c.items c.nextItem (newItem key value (now + duration))
    nextItem := c.nextItem + 1
    buckets := Function.update c.buckets (c.bucket key)
      ((c.buckets (c.bucket key)).set key c.nextItem).1
    deletables :=
      match (c.buckets (c.bucket key)).get key with
      | some existing => c.deletables ++ [existing]
      | none => c.deletables
    promotables := c.promotables ++ [c.nextItem] }

/-- The layered cache after a `set` that does not block. -/
def LayeredCache.afterSet (c : LayeredCache) (primary secondary : String) (value : Value)
    (duration now : Int) : LayeredCache :=
  { c with
    items := Function.update c.items c.nextItem
      { newItem secondary value (now + duration) with group := primary }
    nextItem := c.nextItem + 1
    buckets := Function.update c.buckets (c.bucket primary)
      ((c.buckets (c.bucket primary)).set primary secondary c.nextItem).1
    deletables :=
      match (c.buckets (c.bucket primary)).get primary secondary with
      | some existing => c.deletables ++ [existing]
      | none => c.deletables
    promotables := c.promotables ++ [c.nextItem] }

/-- The test of `gc` on a candidate: reference tracking is off, or the reference
count of the item is zero. -/
def Cache.canEvict (c : Cache) (e : ItemId) : Bool :=
  decide (c.config.tracking = false ∨ (c.items e).refCount = 0)

/-- The candidates one run of `gc` visits, in the order it visits them: at most
`itemsToPrune` elements, starting at the tail. -/
def Cache.gcVisited (c : Cache) : List ItemId := c.list.reverse.take c.config.itemsToPrune

/-- The total size after the sizes `sizes` have been subtracted from it one after
the other, as `c.size -= item.size` does. -/
def debit (size : Int) (sizes : List Int) : Int :=
  sizes.foldl (fun s x => wrap64 (s - x)) size

/-- The test of `gc` on a candidate: reference tracking is off, or the reference
count of the item is zero. -/
def LayeredCache.canEvict (c : LayeredCache) (e : ItemId) : Bool :=
  decide (c.config.tracking = false ∨ (c.items e).refCount = 0)

/-- The candidates one run of `gc` visits, in the order it visits them: at most
`itemsToPrune` elements, starting at the tail. -/
def LayeredCache.gcVisited (c : LayeredCache) : List ItemId :=
  c.list.reverse.take c.config.itemsToPrune

/-- A value that fits a signed 64 bit integer. -/
def isInt64 (x : Int) : Prop := -2 ^ 63 ≤ x ∧ x < 2 ^ 63

instance (x : Int) : Decidable (isInt64 x) := by
  unfold isInt64; infer_instance

/-! ## The scenario of four keys in a cache of size three -/

/-- Max size 3 and 10 items to prune, otherwise the defaults. -/
def scenarioConfig : Configuration := (Configure.MaxSize 3).ItemsToPrune 10

/-- The flat cache after `Set` of "a", "b", "c" and "d", each of (default) size 1,
with a ttl of 60 at clock reading 0, and no reads. -/
def scenarioSets : Option Cache :=
  ((((New scenarioConfig).Set "a" ⟨1, none⟩ 60 0).bind
    (fun c => c.Set "b" ⟨2, none⟩ 60 0)).bind
    (fun c => c.Set "c" ⟨3, none⟩ 60 0)).bind
    (fun c => c.Set "d" ⟨4, none⟩ 60 0)

/-- The cache of the scenario after the worker has received the first three
promotions. -/
def scenarioThree : Option Cache :=
  ((scenarioSets.bind Cache.workerPromote).bind Cache.workerPromote).bind Cache.workerPromote

/-- The cache of the scenario after the worker has received all four promotions. -/
def scenarioDone : Option Cache := scenarioThree.bind Cache.workerPromote

/-- The cache on which the worker calls `gc` in the scenario: the fourth promotion
has been received and `doPromote` has pushed item 3. -/
def scenarioOver : Cache :=
  (scenarioThree.map
    (fun c => (Cache.doPromote { c with promotables := c.promotables.tail } 3).1)).getD
    (New scenarioConfig)

/-- The same four keys under the primary key "p" in a layered cache. -/
def layeredSets : Option LayeredCache :=
  ((((Layered scenarioConfig).Set "p" "a" ⟨1, none⟩ 60 0).bind
    (fun c => c.Set "p" "b" ⟨2, none⟩ 60 0)).bind
    (fun c => c.Set "p" "c" ⟨3, none⟩ 60 0)).bind
    (fun c => c.Set "p" "d" ⟨4, none⟩ 60 0)

/-- The layered cache on which the worker calls `gc` after these four insertions. -/
def layeredOver : LayeredCache :=
  ((((layeredSets.bind LayeredCache.workerPromote).bind LayeredCache.workerPromote).bind
    LayeredCache.workerPromote).map
    (fun c => (LayeredCache.doPromote { c with promotables := c.promotables.tail } 3).1)).getD
    (Layered scenarioConfig)

/-! ## Tracking -/

/-- Modelled from the spec: `Item.track` of `item.go` is missing: `TrackingGet`
"increments the Item's reference count". -/
def Item.track (i : Item) : Item := { i with refCount := i.refCount + 1 }

/-- The method `TrackingGet` of the flat cache; `none` in the result stands for
`NilTracked`. -/
def Cache.TrackingGet (c : Cache) (key : String) (now : Int) : Option (Cache × Option ItemId) :=
  (c.Get key now).map (fun r =>
    match r.2 with
    | none => (r.1, none)
    | some item =>
      ({ r.1 with items := Function.update r.1.items item (r.1.items item).track }, some item))

/-- The method `TrackingGet` of the layered cache. -/
def LayeredCache.TrackingGet (c : LayeredCache) (primary secondary : String) (now : Int) :
    Option (LayeredCache × Option ItemId) :=
  (c.Get primary secondary now).map (fun r =>
    match r.2 with
    | none => (r.1, none)
    | some item =>
      ({ r.1 with items := Function.update r.1.items item (r.1.items item).track }, some item))

/-! ## The same scenario with reference tracking -/

/-- The four keys set in a flat cache with tracking enabled. -/
def trackedSets : Option Cache :=
  ((((New scenarioConfig.Track).Set "a" ⟨1, none⟩ 60 0).bind
    (fun c => c.Set "b" ⟨2, none⟩ 60 0)).bind
    (fun c => c.Set "c" ⟨3, none⟩ 60 0)).bind
    (fun c => c.Set "d" ⟨4, none⟩ 60 0)

/-- Three promotions are processed, then a caller takes "a" through `TrackingGet`. -/
def trackedHeld : Option (Cache × Option ItemId) :=
  (((trackedSets.bind Cache.workerPromote).bind Cache.workerPromote).bind
    Cache.workerPromote).bind (fun c => c.TrackingGet "a" 0)

/-- The flat cache on which the worker then calls `gc`: the promotion of "d" has
been received and `doPromote` has pushed item 3. -/
def trackedOver : Cache :=
  (trackedHeld.map
    (fun r => (Cache.doPromote { r.1 with promotables := r.1.promotables.tail } 3).1)).getD
    (New scenarioConfig.Track)

/-- The four keys set under the primary key "p" in a layered cache with tracking
enabled. -/
def layeredTrackedSets : Option LayeredCache :=
  ((((Layered scenarioConfig.Track).Set "p" "a" ⟨1, none⟩ 60 0).bind
    (fun c => c.Set "p" "b" ⟨2, none⟩ 60 0)).bind
    (fun c => c.Set "p" "c" ⟨3, none⟩ 60 0)).bind
    (fun c => c.Set "p" "d" ⟨4, none⟩ 60 0)

/-- Three promotions are processed, then a caller takes ("p", "a") through
`TrackingGet`. -/
def layeredTrackedHeld : Option (LayeredCache × Option ItemId) :=
  (((layeredTrackedSets.bind LayeredCache.workerPromote).bind LayeredCache.workerPromote).bind
    LayeredCache.workerPromote).bind (fun c => c.TrackingGet "p" "a" 0)

/-- The layered cache on which the worker then calls `gc`. -/
def layeredTrackedOver : LayeredCache :=
  (layeredTrackedHeld.map
    (fun r =>
      (LayeredCache.doPromote { r.1 with promotables := r.1.promotables.tail } 3).1)).getD
    (Layered scenarioConfig.Track)

/-! ## The same scenario with a deletion callback -/

/-- The four keys set in a flat cache with a deletion callback, and three promotions
processed. -/
def callbackThree : Option Cache :=
  (((((((New scenarioConfig.OnDelete).Set "a" ⟨1, none⟩ 60 0).bind
    (fun c => c.Set "b" ⟨2, none⟩ 60 0)).bind
    (fun c => c.Set "c" ⟨3, none⟩ 60 0)).bind
    (fun c => c.Set "d" ⟨4, none⟩ 60 0)).bind Cache.workerPromote).bind
    Cache.workerPromote).bind Cache.workerPromote

/-- The flat cache on which the worker then calls `gc`. -/
def callbackOver : Cache :=
  (callbackThree.map
    (fun c => (Cache.doPromote { c with promotables := c.promotables.tail } 3).1)).getD
    (New scenarioConfig.OnDelete)

/-- The four keys set under the primary key "p" in a layered cache with a deletion
callback, and three promotions processed. -/
def layeredCallbackThree : Option LayeredCache :=
  (((((((Layered scenarioConfig.OnDelete).Set "p" "a" ⟨1, none⟩ 60 0).bind
    (fun c => c.Set "p" "b" ⟨2, none⟩ 60 0)).bind
    (fun c => c.Set "p" "c" ⟨3, none⟩ 60 0)).bind
    (fun c => c.Set "p" "d" ⟨4, none⟩ 60 0)).bind LayeredCache.workerPromote).bind
    LayeredCache.workerPromote).bind LayeredCache.workerPromote

/-- The layered cache on which the worker then calls `gc`. -/
def layeredCallbackOver : LayeredCache :=
  (layeredCallbackThree.map
    (fun c => (LayeredCache.doPromote { c with promotables := c.promotables.tail } 3).1)).getD
    (Layered scenarioConfig.OnDelete)

/-! ## An entry that has expired -/

/-- A flat cache holding "x" with a ttl of -1 set at clock reading 0. -/
def staleFlat : Option Cache := (New Configure).Set "x" ⟨1, none⟩ (-1) 0

/-- A layered cache holding ("p", "x") with a ttl of -1 set at clock reading 0. -/
def staleLayered : Option LayeredCache := (Layered Configure).Set "p" "x" ⟨1, none⟩ (-1) 0

/-- A producer that succeeds with the value 2. -/
def produceTwo : Unit → Except String Value := fun _ => Except.ok ⟨2, none⟩

/-! ## Runs of the worker -/

/-- The channel the `select` of the worker receives from in one iteration. -/
inductive WorkerEvent where
  | promotion
  | deletion
deriving DecidableEq, Repr

/-- One iteration of the loop of `Cache.worker`. -/
def Cache.workerStep (c : Cache) : WorkerEvent → Option Cache
  | WorkerEvent.promotion => c.workerPromote
  | WorkerEvent.deletion => c.workerDelete

/-- Successive iterations of the loop of `Cache.worker`, receiving from the channels
in the given order. -/
def Cache.workerRun (c : Cache) : List WorkerEvent → Option Cache
  | [] => some c
  | e :: es => (c.workerStep e).bind (fun c1 => Cache.workerRun c1 es)

/-- One iteration of the loop of `LayeredCache.worker`. -/
def LayeredCache.workerStep (c : LayeredCache) : WorkerEvent → Option LayeredCache
  | WorkerEvent.promotion => c.workerPromote
  | WorkerEvent.deletion => c.workerDelete

/-- Successive iterations of the loop of `LayeredCache.worker`. -/
def LayeredCache.workerRun (c : LayeredCache) : List WorkerEvent → Option LayeredCache
  | [] => some c
  | e :: es => (c.workerStep e).bind (fun c1 => LayeredCache.workerRun c1 es)

/-! ## A replaced item that is evicted before its deletion is processed -/

/-- Max size 1, one item to prune per pass, and a deletion callback. -/
def tightConfig : Configuration := ((Configure.MaxSize 1).ItemsToPrune 1).OnDelete

/-- A fresh flat cache: `Set("a", 1)`, the worker processes the promotion; then
`Set("a", 2)`, which queues the deletion of the first item and the promotion of the
second. -/
def replacedFlat : Option Cache :=
  (((New tightConfig).Set "a" ⟨1, none⟩ 60 0).bind
    (fun c => c.workerRun [WorkerEvent.promotion])).bind
    (fun c => c.Set "a" ⟨2, none⟩ 60 0)

/-- The same on a layered cache, with the key ("p", "a"). -/
def replacedLayered : Option LayeredCache :=
  (((Layered tightConfig).Set "p" "a" ⟨1, none⟩ 60 0).bind
    (fun c => c.workerRun [WorkerEvent.promotion])).bind
    (fun c => c.Set "p" "a" ⟨2, none⟩ 60 0)

/-! ## A key that is set twice -/

/-- A fresh flat cache after `Set(k, v1, ttl)` immediately followed by
`Set(k, v2, ttl)`. -/
def twoSets (config : Configuration) (k : String) (v1 v2 : Value) (ttl now : Int) : Option Cache :=
  ((New config).Set k v1 ttl now).bind (fun c => c.Set k v2 ttl now)

/-- The orders in which the worker may receive the two promotions and the deletion
that are then pending. -/
def replaceOrders : List (List WorkerEvent) :=
  [[WorkerEvent.promotion, WorkerEvent.promotion, WorkerEvent.deletion],
   [WorkerEvent.promotion, WorkerEvent.deletion, WorkerEvent.promotion],
   [WorkerEvent.deletion, WorkerEvent.promotion, WorkerEvent.promotion]]

/-! ## `Replace`, `DeleteAll` and `Clear` -/

/-- The method `Replace` of the flat cache: the cache afterwards and the returned
boolean.  `now` is the clock reading of `item.TTL()`, `now2` the one of `Set`. -/
def Cache.Replace (c : Cache) (key : String) (value : Value) (now now2 : Int) :
    Option (Cache × Bool) :=
  match (c.buckets (c.bucket key)).get key with
  | none => some (c, false)
  | some item => (c.Set key value ((c.items item).TTL now) now2).map (fun c1 => (c1, true))

/-- The method `Replace` of the layered cache. -/
def LayeredCache.Replace (c : LayeredCache) (primary secondary : String) (value : Value)
    (now now2 : Int) : Option (LayeredCache × Bool) :=
  match (c.buckets (c.bucket primary)).get primary secondary with
  | none => some (c, false)
  | some item =>
    (c.Set primary secondary value ((c.items item).TTL now) now2).map (fun c1 => (c1, true))

/-- The loop of `layeredBucket.deleteAll` over the entries of the bucket: each entry
is deleted from the bucket and its item sent on the deletion channel of capacity
`cap`.  The entries are taken in the order of the association list (Go leaves the
order of a `range` over a map unspecified). -/
def deleteAllLoop (cap : Nat) : List (String × ItemId) → bucket → List ItemId →
    Option (bucket × List ItemId)
  | [], bkt, q => some (bkt, q)
  | (key, item) :: rest, bkt, q =>
    (send cap q item).bind (fun q1 => deleteAllLoop cap rest (bkt.delete key).1 q1)

/-- The method `deleteAll` of `layeredBucket`: the bucket map, the deletion channel
and the returned boolean. -/
def layeredBucket.deleteAll (b : layeredBucket) (primary : String) (cap : Nat)
    (deletables : List ItemId) : Option (layeredBucket × List ItemId × Bool) :=
  match b.getSecondaryBucket primary with
  | none => some (b, deletables, false)
  | some bucket =>
    if bucket.lookup.length = 0 then some (b, deletables, false)
    else
      (deleteAllLoop cap bucket.lookup bucket deletables).map
        (fun r => (b.store primary r.1, r.2, true))

/-- The method `DeleteAll` of the layered cache. -/
def LayeredCache.DeleteAll (c : LayeredCache) (primary : String) :
    Option (LayeredCache × Bool) :=
  ((c.buckets (c.bucket primary)).deleteAll primary c.config.deleteBuffer c.deletables).map
    (fun r =>
      ({ c with
          buckets := Function.update c.buckets (c.bucket primary) r.1
          deletables := r.2.1 }, r.2.2))

/-- The method `Clear` of the flat cache. -/
def Cache.Clear (c : Cache) : Cache :=
  { c with
    buckets := fun i => (c.buckets i).clear
    size := 0
    list := [] }

/-- The method `clear` of `layeredBucket`. -/
def layeredBucket.clear (_b : layeredBucket) : layeredBucket := { buckets := [] }

/-- The method `Clear` of the layered cache. -/
def LayeredCache.Clear (c : LayeredCache) : LayeredCache :=
  { c with
    buckets := fun i => (c.buckets i).clear
    size := 0
    list := [] }

/-! ## A producer that fails -/

/-- A producer that fails with the error "boom". -/
def produceError : Unit → Except String Value := fun _ => Except.error "boom"

/-- A flat cache holding "x", set at clock reading 0 with a ttl of 3. -/
def shortLived : Option Cache := (New Configure).Set "x" ⟨1, none⟩ 3 0

/-! ## Caches holding one entry -/

/-- A fresh flat cache after `Set("x", 1, 60)` at clock reading 0. -/
def heldFlat : Cache := (New Configure).afterSet "x" ⟨1, none⟩ 60 0

/-- A fresh layered cache after `Set("p", "x", 1, 60)` at clock reading 0. -/
def heldLayered : LayeredCache := (Layered Configure).afterSet "p" "x" ⟨1, none⟩ 60 0

/-- The entries stored under a primary key of the layered cache: the secondary keys
with their items. -/
def LayeredCache.entriesOf (c : LayeredCache) (primary : String) : List (String × ItemId) :=
  match (c.buckets (c.bucket primary)).getSecondaryBucket primary with
  | none => []
  | some bucket => bucket.lookup

/-- A fresh layered cache after `Set` of ("p", "a"), ("p", "b") and ("p", "c"). -/
def layeredThreeKeys : LayeredCache :=
  (((Layered Configure).afterSet "p" "a" ⟨1, none⟩ 60 0).afterSet "p" "b" ⟨2, none⟩ 60 0).afterSet
    "p" "c" ⟨3, none⟩ 60 0

/-! ## The RPC server (`rpc/rpc/server.go`) -/

namespace Rpc

/-- The struct `methodType`, reduced to the name of the registered method. -/
structure methodType where
  name : String
deriving DecidableEq, Repr

/-- The struct `service`: its name and the map of its registered methods. -/
structure service where
  name : String
  method : List (String × methodType)
deriving DecidableEq, Repr

/-- The struct `Server`: the map from service names to services. -/
structure Server where
  serviceMap : List (String × service)
deriving DecidableEq, Repr

/-- The struct `Request`. -/
structure Request where
  ServiceMethod : String
  Seq : Nat
deriving DecidableEq, Repr

/-- The errors `codec.ReadRequestHeader` can return. -/
inductive CodecError where
  | eof
  | unexpectedEOF
  | other (msg : String)
deriving DecidableEq, Repr

/-- The five results of `readRequestHeader`; `err` holds the message of the returned
error, or the codec error that is returned as it is. -/
structure HeaderResult where
  svc : Option service
  mtype : Option methodType
  req : Option Request
  keepReading : Bool
  err : Option (CodecError ⊕ String)
deriving DecidableEq, Repr

/-- Go's `strings.LastIndex(s, ".")` on the characters of `s`; `none` stands for
-1.  The dot is one byte in UTF-8 and does not occur inside the encoding of another
character, so cutting the bytes of the string at the byte index cuts its characters
at this character index. -/
def lastIndexDot : List Char → Option Nat
  | [] => none
  | x :: xs =>
    match lastIndexDot xs with
    | some i => some (i + 1)
    | none => if x = '.' then some 0 else none

/-- The lookup `server.serviceMap.Load(name)`. -/
def Server.load (server : Server) (name : String) : Option service :=
  (server.serviceMap.find? (fun e => e.1 = name)).map Prod.snd

/-- The lookup `svc.method[name]`. -/
def service.lookup (svc : service) (name : String) : Option methodType :=
  (svc.method.find? (fun e => e.1 = name)).map Prod.snd

/-- The method `readRequestHeader`; `header` is what `codec.ReadRequestHeader`
decodes. -/
def Server.readRequestHeader (server : Server) (header : Except CodecError Request) :
    HeaderResult :=
  match header with
  | Except.error CodecError.eof =>
    { svc := none, mtype := none, req := none, keepReading := false,
      err := some (Sum.inl CodecError.eof) }
  | Except.error CodecError.unexpectedEOF =>
    { svc := none, mtype := none, req := none, keepReading := false,
      err := some (Sum.inl CodecError.unexpectedEOF) }
  | Except.error (CodecError.other msg) =>
    { svc := none, mtype := none, req := none, keepReading := false,
      err := some (Sum.inr ("rpc: server cannot decode request: " ++ msg)) }
  | Except.ok req =>
    match lastIndexDot req.ServiceMethod.data with
    | none =>
      { svc := none, mtype := none, req := some req, keepReading := true,
        err := some (Sum.inr ("roc : service/method request ill-formed: " ++ req.ServiceMethod)) }
    | some dot =>
      let serviceName := String.mk (req.ServiceMethod.data.take dot)
      let methodName := String.mk (req.ServiceMethod.data.drop dot)
      match server.load serviceName with
      | none =>
        { svc := none, mtype := none, req := some req, keepReading := true,
          err := some (Sum.inr ("rpc: can\x27t find service " ++ req.ServiceMethod)) }
      | some svc =>
        match svc.lookup methodName with
        | none =>
          { svc := some svc, mtype := none, req := some req, keepReading := true,
            err := some (Sum.inr ("rpc: can\x27t find method " ++ req.ServiceMethod)) }
        | some mtype =>
          { svc := some svc, mtype := some mtype, req := some req, keepReading := true,
            err := none }

/-- A server on which the service "Arith" is registered with the methods "Add" and
"Mul". -/
def arithServer : Server :=
  { serviceMap :=
      [("Arith", { name := "Arith", method := [("Add", ⟨"Add"⟩), ("Mul", ⟨"Mul"⟩)] })] }

end Rpc

/-! ## The bucket count of a configuration -/

/-- The method `Buckets`; `count` is a `uint32`, and `^count + 1` wraps at 32 bits. -/
def Configuration.Buckets (c : Configuration) (count : Nat) : Configuration :=
  let count := count % 2 ^ 32
  if count = 0 ∨ ¬ (Nat.land count ((2 ^ 32 - 1 - count + 1) % 2 ^ 32) = count) then
    { c with buckets := 16 }
  else
    { c with buckets := count }

/-! ## Executions of a cache -/

/-- The operations of an execution of the flat cache: the calls of the callers and
the steps of the worker (an iteration of its loop, a `gc` pass). -/
inductive CacheOp where
  | set (key : String) (value : Value) (duration now : Int)
  | get (key : String) (now : Int)
  | trackingGet (key : String) (now : Int)
  | replace (key : String) (value : Value) (now now2 : Int)
  | delete (key : String)
  | worker (e : WorkerEvent)
  | gc
  | clear

/-- The cache after one operation; `none` when the operation blocks. -/
def Cache.step (c : Cache) : CacheOp → Option Cache
  | CacheOp.set key value duration now => c.Set key value duration now
  | CacheOp.get key now => (c.Get key now).map Prod.fst
  | CacheOp.trackingGet key now => (c.TrackingGet key now).map Prod.fst
  | CacheOp.replace key value now now2 => (c.Replace key value now now2).map Prod.fst
  | CacheOp.delete key => (c.Delete key).map Prod.fst
  | CacheOp.worker e => c.workerStep e
  | CacheOp.gc => some c.gc
  | CacheOp.clear => some c.Clear

/-- The cache after a sequence of operations. -/
def Cache.run (c : Cache) : List CacheOp → Option Cache
  | [] => some c
  | op :: ops => (c.step op).bind (fun c1 => Cache.run c1 ops)

/-- The operations of an execution of the layered cache. -/
inductive LayeredOp where
  | set (primary secondary : String) (value : Value) (duration now : Int)
  | get (primary secondary : String) (now : Int)
  | trackingGet (primary secondary : String) (now : Int)
  | replace (primary secondary : String) (value : Value) (now now2 : Int)
  | delete (primary secondary : String)
  | deleteAll (primary : String)
  | worker (e : WorkerEvent)
  | gc
  | clear

/-- The layered cache after one operation; `none` when the operation blocks. -/
def LayeredCache.step (c : LayeredCache) : LayeredOp → Option LayeredCache
  | LayeredOp.set primary secondary value duration now =>
    c.Set primary secondary value duration now
  | LayeredOp.get primary secondary now => (c.Get primary secondary now).map Prod.fst
  | LayeredOp.trackingGet primary secondary now =>
    (c.TrackingGet primary secondary now).map Prod.fst
  | LayeredOp.replace primary secondary value now now2 =>
    (c.Replace primary secondary value now now2).map Prod.fst
  | LayeredOp.delete primary secondary => (c.Delete primary secondary).map Prod.fst
  | LayeredOp.deleteAll primary => (c.DeleteAll primary).map Prod.fst
  | LayeredOp.worker e => c.workerStep e
  | LayeredOp.gc => some c.gc
  | LayeredOp.clear => some c.Clear

/-- The layered cache after a sequence of operations. -/
def LayeredCache.run (c : LayeredCache) : List LayeredOp → Option LayeredCache
  | [] => some c
  | op :: ops => (c.step op).bind (fun c1 => LayeredCache.run c1 ops)

/-- The invariant of the executions of the flat cache: no item is linked twice, a
linked item has a list position, and the items that are linked, queued for promotion
or stored in a shard have been allocated. -/
def Cache.Linked (c : Cache) : Prop :=
  c.list.Nodup ∧
  (∀ x ∈ c.list, (c.items x).element = true ∧ x < c.nextItem) ∧
  (∀ x ∈ c.promotables, x < c.nextItem) ∧
  (∀ i, ∀ e ∈ (c.buckets i).lookup, e.2 < c.nextItem)

/-- The invariant of the executions of the layered cache. -/
def LayeredCache.Linked (c : LayeredCache) : Prop :=
  c.list.Nodup ∧
  (∀ x ∈ c.list, (c.items x).element = true ∧ x < c.nextItem) ∧
  (∀ x ∈ c.promotables, x < c.nextItem) ∧
  (∀ i, ∀ pb ∈ (c.buckets i).buckets, ∀ e ∈ pb.2.lookup, e.2 < c.nextItem)

/-! ## Items that were deleted -/

/-- The flat cache holding one entry whose deletion is queued before the worker has
processed anything: `Set("x")`, then `Delete("x")`. -/
def deletedFlat : Cache := ((heldFlat.Delete "x").map Prod.fst).getD heldFlat

/-- The layered cache in the same situation. -/
def deletedLayered : LayeredCache :=
  ((heldLayered.Delete "p" "x").map Prod.fst).getD heldLayered

/-- A fresh flat cache: `Set("x")`, the worker processes the promotion, `Delete("x")`,
the worker processes the deletion. -/
def unlinkedFlat : Option Cache :=
  (New Configure).run
    [CacheOp.set "x" ⟨1, none⟩ 60 0, CacheOp.worker WorkerEvent.promotion,
      CacheOp.delete "x", CacheOp.worker WorkerEvent.deletion]

/-- The same on a layered cache. -/
def unlinkedLayered : Option LayeredCache :=
  (Layered Configure).run
    [LayeredOp.set "p" "x" ⟨1, none⟩ 60 0, LayeredOp.worker WorkerEvent.promotion,
      LayeredOp.delete "p" "x", LayeredOp.worker WorkerEvent.deletion]

/-- Every item stored under some primary key of the layered bucket is below `n`. -/
def layeredBucket.Below (b : layeredBucket) (n : Nat) : Prop :=
  ∀ pb ∈ b.buckets, ∀ e ∈ pb.2.lookup, e.2 < n

/-- An allocated item that is not linked and that `doPromote` does not link: it is
marked with the sentinel, or it still carries the list position it had. -/
def Cache.Gone (c : Cache) (x : ItemId) : Prop :=
  x ∉ c.list ∧ x < c.nextItem ∧ ((c.items x).promotions = -2 ∨ (c.items x).element = true)

/-- The same on the layered cache. -/
def LayeredCache.Gone (c : LayeredCache) (x : ItemId) : Prop :=
  x ∉ c.list ∧ x < c.nextItem ∧ ((c.items x).promotions = -2 ∨ (c.items x).element = true)

/-! ## A deleted item whose promotion is still queued -/

/-- The operations that set "a" and "b", let the worker process both promotions, read
"a" (which queues a promotion of its item) and delete "a". -/
def linkedOps : List CacheOp :=
  [CacheOp.set "a" ⟨1, none⟩ 60 0, CacheOp.set "b" ⟨1, none⟩ 60 0,
    CacheOp.worker WorkerEvent.promotion, CacheOp.worker WorkerEvent.promotion,
    CacheOp.get "a" 0, CacheOp.delete "a"]

/-- The flat cache after `linkedOps`: items 1 and 0 are linked, the promotion and the
deletion of item 0 are queued. -/
def linkedFlat : Cache := ((New Configure).run linkedOps).getD (New Configure)

/-- The flat cache after the worker has then processed the deletion of item 0 and the
promotion of item 0. -/
def relinkedFlat : Cache :=
  ((linkedFlat.doDelete 0).run [CacheOp.worker WorkerEvent.promotion]).getD linkedFlat

/-- The same operations on the layered cache, under the primary key "p". -/
def linkedLayeredOps : List LayeredOp :=
  [LayeredOp.set "p" "a" ⟨1, none⟩ 60 0, LayeredOp.set "p" "b" ⟨1, none⟩ 60 0,
    LayeredOp.worker WorkerEvent.promotion, LayeredOp.worker WorkerEvent.promotion,
    LayeredOp.get "p" "a" 0, LayeredOp.delete "p" "a"]

/-- The layered cache after `linkedLayeredOps`. -/
def linkedLayered : LayeredCache :=
  ((Layered Configure).run linkedLayeredOps).getD (Layered Configure)

/-- The layered cache after the worker has then processed the deletion of item 0. -/
def unlinkedAgain : LayeredCache := linkedLayered.workerDelete.getD linkedLayered

/-- The layered cache after the worker has then processed the promotion of item 0. -/
def relinkedLayered : LayeredCache :=
  (unlinkedAgain.run [LayeredOp.worker WorkerEvent.promotion]).getD linkedLayered

/-! ## The termination of the worker -/

/-- The statement `close(c.promotables)` of `Stop`. -/
def Cache.closePromotables (c : Cache) : Cache := { c with promotablesClosed := true }

/-- The loop at the label `drain` of `Cache.worker`, over the deletions that are
queued: each one is received and handed to `doDelete`. -/
def Cache.drainLoop : List ItemId → Cache → Cache
  | [], c => c
  | item :: rest, c => Cache.drainLoop rest (Cache.doDelete { c with deletables := rest } item)

/-- The way out of `Cache.worker`: the receive from `promotables` reports `ok == false`,
which a channel does once it is closed and holds nothing; the worker jumps to `drain`,
empties the deletion channel, closes it and returns, and the deferred call closes
`donec`.  The result is `none` when that receive is not enabled. -/
def Cache.workerExit (c : Cache) : Option Cache :=
  if c.promotablesClosed = true ∧ c.promotables = [] then
    some { Cache.drainLoop c.deletables c with deletablesClosed := true, donec := true }
  else none

/-- The statement `close(c.promotables)` of `Stop` of the layered cache. -/
def LayeredCache.closePromotables (c : LayeredCache) : LayeredCache :=
  { c with promotablesClosed := true }

/-- The way out of `LayeredCache.worker`: the receive from `promotables` reports
`ok == false` and the worker returns; the deferred call closes `donec`. -/
def LayeredCache.workerExit (c : LayeredCache) : Option LayeredCache :=
  if c.promotablesClosed = true ∧ c.promotables = [] then some { c with donec := true }
  else none

/-- A fresh flat cache: `Set("x")`, the worker processes the promotion, `Delete("x")`
queues the deletion; then `Stop` closes the promotion channel and the worker takes
the way out. -/
def stoppedFlat : Option Cache :=
  ((New Configure).run
    [CacheOp.set "x" ⟨1, none⟩ 60 0, CacheOp.worker WorkerEvent.promotion,
      CacheOp.delete "x"]).bind (fun c => c.closePromotables.workerExit)

/-- The same on a layered cache. -/
def stoppedLayered : Option LayeredCache :=
  ((Layered Configure).run
    [LayeredOp.set "p" "x" ⟨1, none⟩ 60 0, LayeredOp.worker WorkerEvent.promotion,
      LayeredOp.delete "p" "x"]).bind (fun c => c.closePromotables.workerExit)

/-! ## A full promotion channel -/

/-- A fresh flat cache with a promotion channel of capacity 1, after `Set("a", 1, 60)`
at clock reading 0: the promotion of item 0 is queued and the channel is full. -/
def fullFlat : Option Cache := (New (Configure.PromoteBuffer 1)).Set "a" ⟨1, none⟩ 60 0

/-- The same on a layered cache, with the key ("p", "a"). -/
def fullLayered : Option LayeredCache :=
  (Layered (Configure.PromoteBuffer 1)).Set "p" "a" ⟨1, none⟩ 60 0

/-! ## `Stop` -/

/-- The method `Stop` of the flat cache: `close(c.promotables)`, then the receive
`<-c.donec`, which returns once `donec` is closed; only a worker closes it, on its way
out.  While `Stop` waits, a running worker receives the events `es` that are still
queued and then takes its way out; without a worker nothing happens.  The result is
`none` when the receive never returns. -/
def Cache.Stop (c : Cache) (es : List WorkerEvent) : Option Cache :=
  let c1 := c.closePromotables
  let c2 : Option Cache :=
    if c1.workers = 0 then some c1 else (c1.workerRun es).bind Cache.workerExit
  c2.bind (fun c3 => if c3.donec = true then some c3 else none)

/-- The method `Stop` of the layered cache. -/
def LayeredCache.Stop (c : LayeredCache) (es : List WorkerEvent) : Option LayeredCache :=
  let c1 := c.closePromotables
  let c2 : Option LayeredCache :=
    if c1.workers = 0 then some c1 else (c1.workerRun es).bind LayeredCache.workerExit
  c2.bind (fun c3 => if c3.donec = true then some c3 else none)

/-! ## Secondary caches -/

/-- The struct `SecondaryCache` as `GetOrCreateSecondaryCache` builds it: the bucket
it is bound to (`pCache` is the cache the call was made on). -/
structure SecondaryCache where
  bucket : bucket
deriving DecidableEq, Repr

/-- The method `GetOrCreateSecondaryCache`: the cache afterwards and the secondary
cache returned. -/
def LayeredCache.GetOrCreateSecondaryCache (c : LayeredCache) (primary : String) :
    LayeredCache × SecondaryCache :=
  let primaryBkt := c.buckets (c.bucket primary)
  match primaryBkt.getSecondaryBucket primary with
  | some bkt => (c, { bucket := bkt })
  | none =>
    let bkt : CCache.bucket := { lookup := [] }
    ({ c with
        buckets := Function.update c.buckets (c.bucket primary) (primaryBkt.store primary bkt) },
      { bucket := bkt })

/-! ## The methods a service registers (`rpc/rpc/server.go`) -/

namespace Rpc

/-- A `reflect.Type` as far as `suitableMethods` inspects it: a pointer type with its
element type, or another type with its `Name()` and `PkgPath()`. -/
inductive RType where
  | named (name pkgPath : String)
  | ptr (elem : RType)
deriving DecidableEq, Repr

/-- The range table `unicode.Upper` of Go's package `unicode`: the code points of the
category Lu (here of Unicode 14.0), each entry being the code points from `lo` to `hi`
taken with a stride. -/
def Upper : List (Nat × Nat × Nat) :=
  [(65, 90, 1), (192, 214, 1), (216, 222, 1), (256, 310, 2), (313, 327, 2), (330, 376, 2),
    (377, 381, 2), (385, 386, 1), (388, 388, 1), (390, 391, 1), (393, 395, 1), (398, 401, 1),
    (403, 404, 1), (406, 408, 1), (412, 413, 1), (415, 416, 1), (418, 422, 2), (423, 423, 1),
    (425, 425, 1), (428, 428, 1), (430, 431, 1), (433, 435, 1), (437, 437, 1), (439, 440, 1),
    (444, 444, 1), (452, 461, 3), (463, 475, 2), (478, 494, 2), (497, 497, 1), (500, 500, 1),
    (502, 504, 1), (506, 562, 2), (570, 571, 1), (573, 574, 1), (577, 577, 1), (579, 582, 1),
    (584, 590, 2), (880, 880, 1), (882, 882, 1), (886, 886, 1), (895, 895, 1), (902, 902, 1),
    (904, 906, 1), (908, 908, 1), (910, 911, 1), (913, 929, 1), (931, 939, 1), (975, 975, 1),
    (978, 980, 1), (984, 1006, 2), (1012, 1012, 1), (1015, 1015, 1), (1017, 1018, 1),
    (1021, 1071, 1), (1120, 1152, 2), (1162, 1216, 2), (1217, 1229, 2), (1232, 1326, 2),
    (1329, 1366, 1), (4256, 4293, 1), (4295, 4295, 1), (4301, 4301, 1), (5024, 5109, 1),
    (7312, 7354, 1), (7357, 7359, 1), (7680, 7828, 2), (7838, 7934, 2), (7944, 7951, 1),
    (7960, 7965, 1), (7976, 7983, 1), (7992, 7999, 1), (8008, 8013, 1), (8025, 8031, 2),
    (8040, 8047, 1), (8120, 8123, 1), (8136, 8139, 1), (8152, 8155, 1), (8168, 8172, 1),
    (8184, 8187, 1), (8450, 8450, 1), (8455, 8455, 1), (8459, 8461, 1), (8464, 8466, 1),
    (8469, 8469, 1), (8473, 8477, 1), (8484, 8490, 2), (8491, 8493, 1), (8496, 8499, 1),
    (8510, 8511, 1), (8517, 8517, 1), (8579, 8579, 1), (11264, 11311, 1), (11360, 11360, 1),
    (11362, 11364, 1), (11367, 11373, 2), (11374, 11376, 1), (11378, 11378, 1),
    (11381, 11381, 1), (11390, 11392, 1), (11394, 11490, 2), (11499, 11499, 1),
    (11501, 11501, 1), (11506, 11506, 1), (42560, 42604, 2), (42624, 42650, 2),
    (42786, 42798, 2), (42802, 42862, 2), (42873, 42877, 2), (42878, 42886, 2),
    (42891, 42891, 1), (42893, 42893, 1), (42896, 42896, 1), (42898, 42898, 1),
    (42902, 42922, 2), (42923, 42926, 1), (42928, 42932, 1), (42934, 42948, 2),
    (42949, 42951, 1), (42953, 42953, 1), (42960, 42960, 1), (42966, 42966, 1),
    (42968, 42968, 1), (42997, 42997, 1), (65313, 65338, 1), (66560, 66599, 1),
    (66736, 66771, 1), (66928, 66938, 1), (66940, 66954, 1), (66956, 66962, 1),
    (66964, 66965, 1), (68736, 68786, 1), (71840, 71871, 1), (93760, 93791, 1),
    (119808, 119833, 1), (119860, 119885, 1), (119912, 119937, 1), (119964, 119964, 1),
    (119966, 119967, 1), (119970, 119970, 1), (119973, 119974, 1), (119977, 119980, 1),
    (119982, 119989, 1), (120016, 120041, 1), (120068, 120069, 1), (120071, 120074, 1),
    (120077, 120084, 1), (120086, 120092, 1), (120120, 120121, 1), (120123, 120126, 1),
    (120128, 120132, 1), (120134, 120134, 1), (120138, 120144, 1), (120172, 120197, 1),
    (120224, 120249, 1), (120276, 120301, 1), (120328, 120353, 1), (120380, 120405, 1),
    (120432, 120457, 1), (120488, 120512, 1), (120546, 120570, 1), (120604, 120628, 1),
    (120662, 120686, 1), (120720, 120744, 1), (120778, 120778, 1), (125184, 125217, 1)]

/-- The function `unicode.IsUpper`: the rune is in the table `Upper`. -/
def IsUpper (r : Char) : Bool :=
  Upper.any (fun e => decide (e.1 ≤ r.toNat ∧ r.toNat ≤ e.2.1 ∧ (r.toNat - e.1) % e.2.2 = 0))

/-- The function `isExported`: the first rune of the name, as `utf8.DecodeRuneInString`
gives it, is an upper case letter; the empty name decodes to the error rune U+FFFD,
which is not one. -/
def isExported (name : String) : Bool :=
  match name.data with
  | [] => false
  | r :: _ => IsUpper r

/-- The function `isExportedOrBuiltinType`: the loop strips the pointers. -/
def isExportedOrBuiltinType : RType → Bool
  | RType.ptr elem => isExportedOrBuiltinType elem
  | RType.named name pkgPath => isExported name || decide (pkgPath = "")

/-- The test `t.Kind() == reflect.Ptr`. -/
def RType.isPtr : RType → Bool
  | RType.ptr _ => true
  | RType.named _ _ => false

/-- The variable `typeOfError`: the interface type `error`. -/
def typeOfError : RType := RType.named "error" ""

/-- A `reflect.Method`: its name, its `PkgPath` (empty for an exported method), and
the input types (the receiver first) and output types of its function type. -/
structure Method where
  Name : String
  PkgPath : String
  ins : List RType
  outs : List RType
deriving DecidableEq, Repr

/-- The body of the loop of `suitableMethods` for one method: the entry it stores in
`methods`, or `none` when it reaches a `continue`. -/
def suitableMethod (method : Method) : Option (String × methodType) :=
  if method.PkgPath ≠ "" then none
  else
    match method.ins with
    | [_, argType, replyType] =>
      if !isExportedOrBuiltinType argType then none
      else if !isExportedOrBuiltinType argType then none
      else if !replyType.isPtr then none
      else
        match method.outs with
        | [returnType] =>
          if returnType ≠ typeOfError then none
          else some (method.Name, { name := method.Name })
        | _ => none
    | _ => none

/-- The function `suitableMethods` on the methods of the type, in the order of
`typ.Method(m)`. -/
def suitableMethods (methods : List Method) : List (String × methodType) :=
  methods.foldl
    (fun acc method =>
      match suitableMethod method with
      | some e => e :: acc.filter (fun x => x.1 ≠ e.1)
      | none => acc)
    []

/-- The receiver type `*Arith` of package main. -/
def arithReceiver : RType := RType.ptr (RType.named "Arith" "main")

/-- The method `func (t *Arith) Add(args Args, reply *result) error` of package main:
exported, with an exported argument type and a reply type that is a pointer to the
unexported type `result`. -/
def addMethod : Method :=
  { Name := "Add"
    PkgPath := ""
    ins := [arithReceiver, RType.named "Args" "main", RType.ptr (RType.named "result" "main")]
    outs := [typeOfError] }

/-- The method `func (t *Arith) Mul(args args, reply *Result) error`: the argument
type is unexported. -/
def mulMethod : Method :=
  { Name := "Mul"
    PkgPath := ""
    ins := [arithReceiver, RType.named "args" "main", RType.ptr (RType.named "Result" "main")]
    outs := [typeOfError] }

end Rpc

/-! ## Promotions of a linked item and of a new item -/

/-- The worker state reached from a fresh flat cache by `linkedOps` and the deletion
event of item 0: item 1 is linked, the promotion of item 0 is queued. -/
def promotedOld : Cache := Cache.doDelete linkedFlat 0

/-- A fresh flat cache after `Set("a")`: item 0 is new, its promotion is queued. -/
def promotedNew : Cache := (New Configure).afterSet "a" ⟨1, none⟩ 60 0

/-- A fresh layered cache after `Set("p", "a")`. -/
def layeredPromotedNew : LayeredCache := (Layered Configure).afterSet "p" "a" ⟨1, none⟩ 60 0

/-! ## The total size and the linked items -/

/-- The predicate "the total size is the sum of the sizes of the items linked in the
recency list (in int64 arithmetic), and an item without a list position is not on the
list", the latter stated on the items of the list: each has a list position. -/
def Cache.Sized (c : Cache) : Prop :=
  c.size = wrap64 ((c.list.map (fun x => (c.items x).size)).sum) ∧
  ∀ x ∈ c.list, (c.items x).element = true

instance (c : Cache) : Decidable c.Sized := by
  unfold Cache.Sized
  exact inferInstance

/-- The same predicate on the layered cache. -/
def LayeredCache.Sized (c : LayeredCache) : Prop :=
  c.size = wrap64 ((c.list.map (fun x => (c.items x).size)).sum) ∧
  ∀ x ∈ c.list, (c.items x).element = true

instance (c : LayeredCache) : Decidable c.Sized := by
  unfold LayeredCache.Sized
  exact inferInstance

/-! ## A `gc` pass after a key was set again -/

/-- The flat cache on which the worker calls `gc` after `replacedFlat`: the promotion
of the second item of "a" has been received and `doPromote` has pushed it, while the
first item of "a" is still on the list. -/
def replacedOver : Cache :=
  (replacedFlat.map
    (fun c => (Cache.doPromote { c with promotables := c.promotables.tail } 1).1)).getD
    (New tightConfig)

/-- The layered cache in the same situation, after `replacedLayered`. -/
def layeredReplacedOver : LayeredCache :=
  (replacedLayered.map
    (fun c => (LayeredCache.doPromote { c with promotables := c.promotables.tail } 1).1)).getD
    (Layered tightConfig)

/-! ## Configurations and shard indices -/

/-- The configuration obtained from `Configure()` by successive calls of `Buckets`
with the given counts. -/
def configured (counts : List Nat) : Configuration :=
  counts.foldl Configuration.Buckets Configure

/-! ## A promotion channel of capacity 2 -/

/-- A fresh flat cache with a promotion channel of capacity 2, after `Set("x", 1, 60)`
at clock reading 0: the promotion of item 0 is queued, one place is left. -/
def narrowFlat : Option Cache := (New (Configure.PromoteBuffer 2)).Set "x" ⟨1, none⟩ 60 0

/-- The same on a layered cache, with the key ("p", "x"). -/
def narrowLayered : Option LayeredCache :=
  (Layered (Configure.PromoteBuffer 2)).Set "p" "x" ⟨1, none⟩ 60 0

/-! # Theorems -/

/-! ## Buckets -/

theorem find_filter_ne_self (l : List (String × ItemId)) (key : String) :
    (l.filter (fun e => e.1 ≠ key)).find? (fun e => e.1 = key) = none := by
  induction l with
  | nil => rfl
  | cons a l ih =>
    by_cases h : a.1 = key
    · simp [List.filter_cons, h, ih]
    · simp [List.filter_cons, h, List.find?_cons, ih]

theorem find_filter_ne_other (l : List (String × ItemId)) (key k : String) (hk : k ≠ key) :
    (l.filter (fun e => e.1 ≠ key)).find? (fun e => e.1 = k) = l.find? (fun e => e.1 = k) := by
  rw [List.find?_filter]
  congr 1
  funext a
  by_cases h : a.1 = k
  · have h2 : ¬ a.1 = key := fun h3 => hk (h ▸ h3)
    simp [h, h2, hk]
  · simp [h]

theorem bucket_get_set_self (b : bucket) (key : String) (item : ItemId) :
    (b.set key item).1.get key = some item := by
  simp [bucket.set, bucket.get]

theorem bucket_get_set_other (b : bucket) (key k : String) (item : ItemId) (hk : k ≠ key) :
    (b.set key item).1.get k = b.get k := by
  have h2 : ¬ key = k := fun h => hk h.symm
  simp only [bucket.set, bucket.get, List.find?_cons, h2, decide_False,
    find_filter_ne_other _ _ _ hk]

theorem bucket_get_delete_self (b : bucket) (key : String) :
    (b.delete key).1.get key = none := by
  simp [bucket.delete, bucket.get, find_filter_ne_self]

theorem bucket_get_delete_other (b : bucket) (key k : String) (hk : k ≠ key) :
    (b.delete key).1.get k = b.get k := by
  simp only [bucket.delete, bucket.get, find_filter_ne_other _ _ _ hk]

theorem bucket_get_delete_none (b : bucket) (key k : String) (h : b.get k = none) :
    (b.delete key).1.get k = none := by
  by_cases hk : k = key
  · subst hk; exact bucket_get_delete_self b k
  · rw [bucket_get_delete_other b key k hk]; exact h

/-! ## `set` and `Get` on the flat cache -/

theorem Cache.set_eq_some (c : Cache) (k : String) (v : Value) (d now : Int)
    (hd : c.deletables.length < c.config.deleteBuffer)
    (hp : c.promotables.length < c.config.promoteBuffer) :
    c.set k v d now = some (c.afterSet k v d now, c.nextItem) := by
  unfold Cache.set Cache.afterSet
  cases h : (c.buckets (c.bucket k)).get k with
  | none => simp [bucket.set, h, send, Cache.promote, hp]
  | some e => simp [bucket.set, h, send, Cache.promote, hp, hd]

theorem Cache.Get_of_fresh (c : Cache) (k : String) (now : Int) (item : ItemId)
    (h : (c.buckets (c.bucket k)).get k = some item) (he : (c.items item).expires > now)
    (hp : c.promotables.length < c.config.promoteBuffer) :
    c.Get k now = some ({ c with promotables := c.promotables ++ [item] }, some item) := by
  simp [Cache.Get, h, he, Cache.promote, send, hp]

theorem Cache.Get_of_stale (c : Cache) (k : String) (now : Int) (item : ItemId)
    (h : (c.buckets (c.bucket k)).get k = some item) (he : (c.items item).expires ≤ now) :
    c.Get k now = some (c, some item) := by
  have : ¬ (c.items item).expires > now := by omega
  simp [Cache.Get, h, this]

theorem Cache.Get_of_absent (c : Cache) (k : String) (now : Int)
    (h : (c.buckets (c.bucket k)).get k = none) : c.Get k now = some (c, none) := by
  simp [Cache.Get, h]

theorem Cache.afterSet_lookup (c : Cache) (k : String) (v : Value) (d now : Int) :
    ((c.afterSet k v d now).buckets ((c.afterSet k v d now).bucket k)).get k = some c.nextItem := by
  simp [Cache.afterSet, Cache.bucket, bucket_get_set_self]

theorem Cache.set_get (c : Cache) (k : String) (v : Value) (ttl now : Int) (httl : 0 < ttl)
    (hd : c.deletables.length < c.config.deleteBuffer)
    (hp : c.promotables.length + 2 ≤ c.config.promoteBuffer) :
    ∃ c1 c2 item, c.Set k v ttl now = some c1 ∧ c1.Get k now = some (c2, some item) ∧
      (c2.items item).value = v ∧ (c2.items item).expires > now := by
  refine ⟨c.afterSet k v ttl now, _, c.nextItem, ?_, Cache.Get_of_fresh _ k now c.nextItem
    (Cache.afterSet_lookup c k v ttl now) ?_ ?_, ?_, ?_⟩
  · rw [Cache.Set, Cache.set_eq_some c k v ttl now hd (by omega)]; rfl
  · simp [Cache.afterSet, newItem, httl]
  · simp [Cache.afterSet]; omega
  · simp [Cache.afterSet, newItem]
  · simp [Cache.afterSet, newItem, httl]

/-! ## `set` and `Get` on the layered cache -/

theorem layeredBucket_store_same (b : layeredBucket) (p : String) (bkt : bucket) :
    (b.store p bkt).getSecondaryBucket p = some bkt := by
  simp [layeredBucket.store, layeredBucket.getSecondaryBucket]

theorem layeredBucket_get_set_self (b : layeredBucket) (p s : String) (item : ItemId) :
    (b.set p s item).1.get p s = some item := by
  simp only [layeredBucket.set, layeredBucket.get, layeredBucket_store_same, bucket_get_set_self]

theorem layeredBucket_set_snd (b : layeredBucket) (p s : String) (item : ItemId) :
    (b.set p s item).2 = b.get p s := by
  unfold layeredBucket.set layeredBucket.get
  cases h : b.getSecondaryBucket p with
  | none => simp [bucket.set, bucket.get]
  | some bkt => simp [bucket.set]

theorem LayeredCache.layered_set_eq_some (c : LayeredCache) (p s : String) (v : Value) (d now : Int)
    (hd : c.deletables.length < c.config.deleteBuffer)
    (hp : c.promotables.length < c.config.promoteBuffer) :
    c.set p s v d now = some (c.afterSet p s v d now, c.nextItem) := by
  unfold LayeredCache.set LayeredCache.afterSet
  simp only [layeredBucket_set_snd]
  cases h : (c.buckets (c.bucket p)).get p s with
  | none => simp [send, LayeredCache.promote, hp]
  | some e => simp [send, LayeredCache.promote, hp, hd]

theorem LayeredCache.layered_Get_of_fresh (c : LayeredCache) (p s : String) (now : Int) (item : ItemId)
    (h : (c.buckets (c.bucket p)).get p s = some item) (he : (c.items item).expires > now)
    (hp : c.promotables.length < c.config.promoteBuffer) :
    c.Get p s now = some ({ c with promotables := c.promotables ++ [item] }, some item) := by
  simp [LayeredCache.Get, h, he, LayeredCache.promote, send, hp]

theorem LayeredCache.layered_Get_of_stale (c : LayeredCache) (p s : String) (now : Int) (item : ItemId)
    (h : (c.buckets (c.bucket p)).get p s = some item) (he : (c.items item).expires ≤ now) :
    c.Get p s now = some (c, some item) := by
  have : ¬ (c.items item).expires > now := by omega
  simp [LayeredCache.Get, h, this]

theorem LayeredCache.layered_Get_of_absent (c : LayeredCache) (p s : String) (now : Int)
    (h : (c.buckets (c.bucket p)).get p s = none) : c.Get p s now = some (c, none) := by
  simp [LayeredCache.Get, h]

theorem LayeredCache.layered_afterSet_lookup (c : LayeredCache) (p s : String) (v : Value) (d now : Int) :
    ((c.afterSet p s v d now).buckets ((c.afterSet p s v d now).bucket p)).get p s =
      some c.nextItem := by
  simp [LayeredCache.afterSet, LayeredCache.bucket, layeredBucket_get_set_self]

theorem LayeredCache.layered_set_get (c : LayeredCache) (p s : String) (v : Value) (ttl now : Int)
    (httl : 0 < ttl)
    (hd : c.deletables.length < c.config.deleteBuffer)
    (hp : c.promotables.length + 2 ≤ c.config.promoteBuffer) :
    ∃ c1 c2 item, c.Set p s v ttl now = some c1 ∧ c1.Get p s now = some (c2, some item) ∧
      (c2.items item).value = v ∧ (c2.items item).expires > now := by
  refine ⟨c.afterSet p s v ttl now, _, c.nextItem, ?_, LayeredCache.layered_Get_of_fresh _ p s now c.nextItem
    (LayeredCache.layered_afterSet_lookup c p s v ttl now) ?_ ?_, ?_, ?_⟩
  · rw [LayeredCache.Set, LayeredCache.layered_set_eq_some c p s v ttl now hd (by omega)]; rfl
  · simp [LayeredCache.afterSet, newItem, httl]
  · simp [LayeredCache.afterSet]; omega
  · simp [LayeredCache.afterSet, newItem]
  · simp [LayeredCache.afterSet, newItem, httl]

/-- With room in the channels, `Set` followed by `Get`: on the flat cache and on the
layered cache, when the deletion channel has room for the replaced item and the
promotion channel for two more events, `Set` with a positive ttl returns and a `Get`
of the same key at the same clock reading returns a non-nil item whose value is the
value just set and whose expiry is strictly later than that clock reading. -/
theorem set_then_get_with_room (c : Cache) (lc : LayeredCache) (k primary secondary : String)
    (v : Value) (ttl now : Int) (httl : 0 < ttl)
    (hd : c.deletables.length < c.config.deleteBuffer)
    (hp : c.promotables.length + 2 ≤ c.config.promoteBuffer)
    (hld : lc.deletables.length < lc.config.deleteBuffer)
    (hlp : lc.promotables.length + 2 ≤ lc.config.promoteBuffer) :
    (∃ c1 c2 item, c.Set k v ttl now = some c1 ∧ c1.Get k now = some (c2, some item) ∧
      (c2.items item).value = v ∧ (c2.items item).expires > now) ∧
    (∃ c1 c2 item, lc.Set primary secondary v ttl now = some c1 ∧
      c1.Get primary secondary now = some (c2, some item) ∧
      (c2.items item).value = v ∧ (c2.items item).expires > now) :=
  ⟨Cache.set_get c k v ttl now httl hd hp, LayeredCache.layered_set_get lc primary secondary v ttl now httl hld hlp⟩

/-! ## The collector of the flat cache -/

theorem wrap64_idem (x : Int) : wrap64 (wrap64 x) = wrap64 x := by
  unfold wrap64; omega

theorem wrap64_sub_wrap (x y : Int) : wrap64 (wrap64 x - y) = wrap64 (x - y) := by
  unfold wrap64; omega

theorem wrap64_add_wrap (x y : Int) : wrap64 (wrap64 x + y) = wrap64 (x + y) := by
  unfold wrap64; omega

theorem wrap64_of_range (x : Int) (h1 : -2 ^ 63 ≤ x) (h2 : x < 2 ^ 63) : wrap64 x = x := by
  unfold wrap64; omega

theorem debit_wrap (s : Int) (l : List Int) : debit (wrap64 s) l = wrap64 (s - l.sum) := by
  induction l generalizing s with
  | nil => simp [debit]
  | cons a l ih =>
    have := ih (s - a)
    simp only [debit, List.foldl_cons, List.sum_cons] at this ⊢
    rw [wrap64_sub_wrap, this]
    congr 1; omega

theorem debit_eq (s : Int) (l : List Int) (hs : wrap64 s = s) :
    debit s l = wrap64 (s - l.sum) := by
  rw [← debit_wrap, hs]

theorem Cache.canEvict_evict (c : Cache) (e : ItemId) (r : List ItemId) :
    (c.evict e r).canEvict = c.canEvict := by
  funext x
  by_cases h : x = e
  · subst h; simp [Cache.canEvict, Cache.evict]
  · simp [Cache.canEvict, Cache.evict, Function.update_noteq h]

theorem Cache.size_evict (c : Cache) (e : ItemId) (r : List ItemId) (x : ItemId) :
    ((c.evict e r).items x).size = (c.items x).size := by
  by_cases h : x = e
  · subst h; simp [Cache.evict]
  · simp [Cache.evict, Function.update_noteq h]

theorem Cache.gcLoop_config (n : Nat) (p k : List ItemId) (c : Cache) :
    (Cache.gcLoop n p k c).config = c.config := by
  induction n generalizing p k c with
  | zero => rfl
  | succ n ih =>
    cases p with
    | nil => rfl
    | cons e prev =>
      unfold Cache.gcLoop
      split
      · rw [ih]; rfl
      · rw [ih]

theorem Cache.gcLoop_bucketMask (n : Nat) (p k : List ItemId) (c : Cache) :
    (Cache.gcLoop n p k c).bucketMask = c.bucketMask := by
  induction n generalizing p k c with
  | zero => rfl
  | succ n ih =>
    cases p with
    | nil => rfl
    | cons e prev =>
      unfold Cache.gcLoop
      split
      · rw [ih]; rfl
      · rw [ih]

theorem Cache.gcLoop_list (n : Nat) (p k : List ItemId) (c : Cache)
    (h : c.list = p.reverse ++ k) :
    (Cache.gcLoop n p k c).list =
      (p.drop n).reverse ++ (((p.take n).filter (fun x => !c.canEvict x)).reverse ++ k) := by
  induction n generalizing p k c with
  | zero => simpa [Cache.gcLoop] using h
  | succ n ih =>
    cases p with
    | nil => simpa [Cache.gcLoop] using h
    | cons e prev =>
      unfold Cache.gcLoop
      split
      · rename_i hc
        have he : c.canEvict e = true := by simpa [Cache.canEvict] using hc
        rw [ih prev k (c.evict e (prev.reverse ++ k)) rfl, Cache.canEvict_evict]
        simp [List.filter_cons, he]
      · rename_i hc
        have he : c.canEvict e = false := by simpa [Cache.canEvict] using hc
        rw [ih prev (e :: k) c (by simpa using h)]
        simp [List.filter_cons, he]

theorem Cache.gcTrace_ids (n : Nat) (p k : List ItemId) (c : Cache) :
    (Cache.gcTrace n p k c).map Prod.fst = (p.take n).filter c.canEvict := by
  induction n generalizing p k c with
  | zero => simp [Cache.gcTrace]
  | succ n ih =>
    cases p with
    | nil => simp [Cache.gcTrace]
    | cons e prev =>
      unfold Cache.gcTrace
      split
      · rename_i hc
        have he : c.canEvict e = true := by simpa [Cache.canEvict] using hc
        simp [ih, Cache.canEvict_evict, List.filter_cons, he]
      · rename_i hc
        have he : c.canEvict e = false := by simpa [Cache.canEvict] using hc
        simp [ih, List.filter_cons, he]

theorem Cache.gcLoop_size (n : Nat) (p k : List ItemId) (c : Cache) :
    (Cache.gcLoop n p k c).size =
      debit c.size (((p.take n).filter c.canEvict).map (fun x => (c.items x).size)) := by
  induction n generalizing p k c with
  | zero => simp [Cache.gcLoop, debit]
  | succ n ih =>
    cases p with
    | nil => simp [Cache.gcLoop, debit]
    | cons e prev =>
      unfold Cache.gcLoop
      split
      · rename_i hc
        have he : c.canEvict e = true := by simpa [Cache.canEvict] using hc
        rw [ih, Cache.canEvict_evict]
        simp only [Cache.size_evict, List.take_succ_cons, List.filter_cons, he, if_true,
          List.map_cons, debit, List.foldl_cons]
        rfl
      · rename_i hc
        have he : c.canEvict e = false := by simpa [Cache.canEvict] using hc
        rw [ih]
        simp [List.filter_cons, he]

theorem Cache.gcLoop_calls (n : Nat) (p k : List ItemId) (c : Cache) :
    (Cache.gcLoop n p k c).onDeleteCalls =
      c.onDeleteCalls ++ (if c.config.onDelete then (p.take n).filter c.canEvict else []) := by
  induction n generalizing p k c with
  | zero => simp [Cache.gcLoop]
  | succ n ih =>
    cases p with
    | nil => simp [Cache.gcLoop]
    | cons e prev =>
      unfold Cache.gcLoop
      split
      · rename_i hc
        have he : c.canEvict e = true := by simpa [Cache.canEvict] using hc
        rw [ih, Cache.canEvict_evict]
        cases hod : c.config.onDelete <;> simp [Cache.evict, hod, List.filter_cons, he]
      · rename_i hc
        have he : c.canEvict e = false := by simpa [Cache.canEvict] using hc
        rw [ih]
        simp [List.filter_cons, he]

theorem Cache.gcLoop_items (n : Nat) (p k : List ItemId) (c : Cache) (x : ItemId) :
    (Cache.gcLoop n p k c).items x =
      if x ∈ (p.take n).filter c.canEvict then { c.items x with promotions := -2 }
      else c.items x := by
  induction n generalizing p k c with
  | zero => simp [Cache.gcLoop]
  | succ n ih =>
    cases p with
    | nil => simp [Cache.gcLoop]
    | cons e prev =>
      unfold Cache.gcLoop
      split
      · rename_i hc
        have he : c.canEvict e = true := by simpa [Cache.canEvict] using hc
        rw [ih, Cache.canEvict_evict]
        by_cases hx : x = e
        · subst hx
          simp [Cache.evict, List.filter_cons, he]
        · simp [Cache.evict, List.filter_cons, he, hx, Function.update_noteq hx]
      · rename_i hc
        have he : c.canEvict e = false := by simpa [Cache.canEvict] using hc
        rw [ih]
        simp [List.filter_cons, he]

/-! ## The collector of the layered cache -/

theorem LayeredCache.layered_canEvict_evict (c : LayeredCache) (e : ItemId) (r : List ItemId) :
    (c.evict e r).canEvict = c.canEvict := by
  funext x
  by_cases h : x = e
  · subst h; simp [LayeredCache.canEvict, LayeredCache.evict]
  · simp [LayeredCache.canEvict, LayeredCache.evict, Function.update_noteq h]

theorem LayeredCache.layered_size_evict (c : LayeredCache) (e : ItemId) (r : List ItemId) (x : ItemId) :
    ((c.evict e r).items x).size = (c.items x).size := by
  by_cases h : x = e
  · subst h; simp [LayeredCache.evict]
  · simp [LayeredCache.evict, Function.update_noteq h]

theorem LayeredCache.layered_gcLoop_config (n : Nat) (p k : List ItemId) (c : LayeredCache) :
    (LayeredCache.gcLoop n p k c).config = c.config := by
  induction n generalizing p k c with
  | zero => rfl
  | succ n ih =>
    cases p with
    | nil => rfl
    | cons e prev =>
      unfold LayeredCache.gcLoop
      split
      · rw [ih]; rfl
      · rw [ih]

theorem LayeredCache.layered_gcLoop_bucketMask (n : Nat) (p k : List ItemId) (c : LayeredCache) :
    (LayeredCache.gcLoop n p k c).bucketMask = c.bucketMask := by
  induction n generalizing p k c with
  | zero => rfl
  | succ n ih =>
    cases p with
    | nil => rfl
    | cons e prev =>
      unfold LayeredCache.gcLoop
      split
      · rw [ih]; rfl
      · rw [ih]

theorem LayeredCache.layered_gcLoop_list (n : Nat) (p k : List ItemId) (c : LayeredCache)
    (h : c.list = p.reverse ++ k) :
    (LayeredCache.gcLoop n p k c).list =
      (p.drop n).reverse ++ (((p.take n).filter (fun x => !c.canEvict x)).reverse ++ k) := by
  induction n generalizing p k c with
  | zero => simpa [LayeredCache.gcLoop] using h
  | succ n ih =>
    cases p with
    | nil => simpa [LayeredCache.gcLoop] using h
    | cons e prev =>
      unfold LayeredCache.gcLoop
      split
      · rename_i hc
        have he : c.canEvict e = true := by simpa [LayeredCache.canEvict] using hc
        rw [ih prev k (c.evict e (prev.reverse ++ k)) rfl, LayeredCache.layered_canEvict_evict]
        simp [List.filter_cons, he]
      · rename_i hc
        have he : c.canEvict e = false := by simpa [LayeredCache.canEvict] using hc
        rw [ih prev (e :: k) c (by simpa using h)]
        simp [List.filter_cons, he]

theorem LayeredCache.layered_gcTrace_ids (n : Nat) (p k : List ItemId) (c : LayeredCache) :
    (LayeredCache.gcTrace n p k c).map Prod.fst = (p.take n).filter c.canEvict := by
  induction n generalizing p k c with
  | zero => simp [LayeredCache.gcTrace]
  | succ n ih =>
    cases p with
    | nil => simp [LayeredCache.gcTrace]
    | cons e prev =>
      unfold LayeredCache.gcTrace
      split
      · rename_i hc
        have he : c.canEvict e = true := by simpa [LayeredCache.canEvict] using hc
        simp [ih, LayeredCache.layered_canEvict_evict, List.filter_cons, he]
      · rename_i hc
        have he : c.canEvict e = false := by simpa [LayeredCache.canEvict] using hc
        simp [ih, List.filter_cons, he]

theorem LayeredCache.layered_gcLoop_size (n : Nat) (p k : List ItemId) (c : LayeredCache) :
    (LayeredCache.gcLoop n p k c).size =
      debit c.size (((p.take n).filter c.canEvict).map (fun x => (c.items x).size)) := by
  induction n generalizing p k c with
  | zero => simp [LayeredCache.gcLoop, debit]
  | succ n ih =>
    cases p with
    | nil => simp [LayeredCache.gcLoop, debit]
    | cons e prev =>
      unfold LayeredCache.gcLoop
      split
      · rename_i hc
        have he : c.canEvict e = true := by simpa [LayeredCache.canEvict] using hc
        rw [ih, LayeredCache.layered_canEvict_evict]
        simp only [LayeredCache.layered_size_evict, List.take_succ_cons, List.filter_cons, he, if_true,
          List.map_cons, debit, List.foldl_cons]
        rfl
      · rename_i hc
        have he : c.canEvict e = false := by simpa [LayeredCache.canEvict] using hc
        rw [ih]
        simp [List.filter_cons, he]

theorem LayeredCache.layered_gcLoop_calls (n : Nat) (p k : List ItemId) (c : LayeredCache) :
    (LayeredCache.gcLoop n p k c).onDeleteCalls = c.onDeleteCalls := by
  induction n generalizing p k c with
  | zero => rfl
  | succ n ih =>
    cases p with
    | nil => rfl
    | cons e prev =>
      unfold LayeredCache.gcLoop
      split
      · rw [ih]; rfl
      · rw [ih]

theorem LayeredCache.layered_gcLoop_items (n : Nat) (p k : List ItemId) (c : LayeredCache) (x : ItemId) :
    (LayeredCache.gcLoop n p k c).items x =
      if x ∈ (p.take n).filter c.canEvict then { c.items x with promotions := -2 }
      else c.items x := by
  induction n generalizing p k c with
  | zero => simp [LayeredCache.gcLoop]
  | succ n ih =>
    cases p with
    | nil => simp [LayeredCache.gcLoop]
    | cons e prev =>
      unfold LayeredCache.gcLoop
      split
      · rename_i hc
        have he : c.canEvict e = true := by simpa [LayeredCache.canEvict] using hc
        rw [ih, LayeredCache.layered_canEvict_evict]
        by_cases hx : x = e
        · subst hx
          simp [LayeredCache.evict, List.filter_cons, he]
        · simp [LayeredCache.evict, List.filter_cons, he, hx, Function.update_noteq hx]
      · rename_i hc
        have he : c.canEvict e = false := by simpa [LayeredCache.canEvict] using hc
        rw [ih]
        simp [List.filter_cons, he]

/-! ## One run of `gc` -/

theorem Cache.gcVisited_eq (c : Cache) :
    c.gcVisited = (c.list.drop (c.list.length - c.config.itemsToPrune)).reverse := by
  simp [Cache.gcVisited, List.take_reverse]

theorem Cache.gcVisited_length (c : Cache) :
    c.gcVisited.length = min c.config.itemsToPrune c.list.length := by
  simp [Cache.gcVisited]

theorem Cache.gc_list (c : Cache) :
    c.gc.list = c.list.take (c.list.length - c.config.itemsToPrune) ++
      (c.list.drop (c.list.length - c.config.itemsToPrune)).filter (fun x => !c.canEvict x) := by
  rw [Cache.gc, Cache.gcLoop_list _ _ _ _ (by simp)]
  simp [List.drop_reverse, List.take_reverse]

theorem Cache.gcEvictions_ids (c : Cache) :
    c.gcEvictions.map Prod.fst = c.gcVisited.filter c.canEvict := by
  simp [Cache.gcEvictions, Cache.gcTrace_ids, Cache.gcVisited]

theorem Cache.gc_size (c : Cache) :
    c.gc.size = debit c.size ((c.gcEvictions.map Prod.fst).map (fun x => (c.items x).size)) := by
  rw [Cache.gcEvictions_ids, Cache.gc, Cache.gcLoop_size]; rfl

theorem Cache.gc_calls (c : Cache) :
    c.gc.onDeleteCalls =
      c.onDeleteCalls ++ (if c.config.onDelete then c.gcEvictions.map Prod.fst else []) := by
  rw [Cache.gcEvictions_ids, Cache.gc, Cache.gcLoop_calls]; rfl

theorem Cache.gc_items (c : Cache) (x : ItemId) :
    c.gc.items x =
      if x ∈ c.gcEvictions.map Prod.fst then { c.items x with promotions := -2 }
      else c.items x := by
  rw [Cache.gcEvictions_ids, Cache.gc, Cache.gcLoop_items]; rfl

theorem Cache.canEvict_of_untracked (c : Cache) (h : c.config.tracking = false) (x : ItemId) :
    c.canEvict x = true := by
  simp [Cache.canEvict, h]

theorem LayeredCache.layered_gcVisited_eq (c : LayeredCache) :
    c.gcVisited = (c.list.drop (c.list.length - c.config.itemsToPrune)).reverse := by
  simp [LayeredCache.gcVisited, List.take_reverse]

theorem LayeredCache.layered_gcVisited_length (c : LayeredCache) :
    c.gcVisited.length = min c.config.itemsToPrune c.list.length := by
  simp [LayeredCache.gcVisited]

theorem LayeredCache.layered_gc_list (c : LayeredCache) :
    c.gc.list = c.list.take (c.list.length - c.config.itemsToPrune) ++
      (c.list.drop (c.list.length - c.config.itemsToPrune)).filter (fun x => !c.canEvict x) := by
  rw [LayeredCache.gc, LayeredCache.layered_gcLoop_list _ _ _ _ (by simp)]
  simp [List.drop_reverse, List.take_reverse]

theorem LayeredCache.layered_gcEvictions_ids (c : LayeredCache) :
    c.gcEvictions.map Prod.fst = c.gcVisited.filter c.canEvict := by
  simp [LayeredCache.gcEvictions, LayeredCache.layered_gcTrace_ids, LayeredCache.gcVisited]

theorem LayeredCache.layered_gc_size (c : LayeredCache) :
    c.gc.size = debit c.size ((c.gcEvictions.map Prod.fst).map (fun x => (c.items x).size)) := by
  rw [LayeredCache.layered_gcEvictions_ids, LayeredCache.gc, LayeredCache.layered_gcLoop_size]; rfl

theorem LayeredCache.layered_gc_calls (c : LayeredCache) : c.gc.onDeleteCalls = c.onDeleteCalls := by
  rw [LayeredCache.gc, LayeredCache.layered_gcLoop_calls]

theorem LayeredCache.layered_gc_items (c : LayeredCache) (x : ItemId) :
    c.gc.items x =
      if x ∈ c.gcEvictions.map Prod.fst then { c.items x with promotions := -2 }
      else c.items x := by
  rw [LayeredCache.layered_gcEvictions_ids, LayeredCache.gc, LayeredCache.layered_gcLoop_items]; rfl

theorem LayeredCache.layered_canEvict_of_untracked (c : LayeredCache) (h : c.config.tracking = false) (x : ItemId) :
    c.canEvict x = true := by
  simp [LayeredCache.canEvict, h]

/-! ## Claims on the collector -/

/-- C2, as stated, fails: in the scenario (max size 3, 10 items to prune, `Set` of
"a", "b", "c", "d" and the four promotions processed in order) it is not the case
that `ItemCount()` is 3, `Get("a")` is absent and `Get` of "b", "c" and "d" return
their items. -/
theorem scenario_not_three_left :
    ¬ (scenarioDone.map Cache.ItemCount = some 3 ∧
      scenarioDone.bind (fun c => (c.Get "a" 0).map Prod.snd) = some none ∧
      scenarioDone.bind (fun c => (c.Get "b" 0).map Prod.snd) = some (some 1) ∧
      scenarioDone.bind (fun c => (c.Get "c" 0).map Prod.snd) = some (some 2) ∧
      scenarioDone.bind (fun c => (c.Get "d" 0).map Prod.snd) = some (some 3)) := by
  decide

/-- C2, amended: in the scenario the three first promotions leave the four items in
place (`ItemCount()` is 4 and every `Get` returns its item); the fourth promotion
brings the size to 4, the worker runs `gc`, which evicts up to 10 items from the
tail, here all four: afterwards `ItemCount()` is 0, the total size is 0, the list is
empty and `Get` of "a", "b", "c" and "d" is absent. -/
theorem scenario_all_evicted :
    (scenarioThree.map Cache.ItemCount = some 4 ∧
      scenarioThree.bind (fun c => (c.Get "a" 0).map Prod.snd) = some (some 0) ∧
      scenarioThree.bind (fun c => (c.Get "b" 0).map Prod.snd) = some (some 1) ∧
      scenarioThree.bind (fun c => (c.Get "c" 0).map Prod.snd) = some (some 2) ∧
      scenarioThree.bind (fun c => (c.Get "d" 0).map Prod.snd) = some (some 3)) ∧
    (scenarioDone.map Cache.ItemCount = some 0 ∧
      scenarioDone.map (fun c => c.size) = some 0 ∧
      scenarioDone.map (fun c => c.list) = some [] ∧
      scenarioDone.bind (fun c => (c.Get "a" 0).map Prod.snd) = some none ∧
      scenarioDone.bind (fun c => (c.Get "b" 0).map Prod.snd) = some none ∧
      scenarioDone.bind (fun c => (c.Get "c" 0).map Prod.snd) = some none ∧
      scenarioDone.bind (fun c => (c.Get "d" 0).map Prod.snd) = some none) := by
  decide!

/-- C3, as stated, fails: it is not the case that every eviction of every run of
`gc` (flat and layered) happens at a total size above `maxSize`.  On the cache of
the scenario (size 4, max size 3) `gc` evicts item 1 at size 3, item 2 at size 2 and
item 3 at size 1. -/
theorem gc_evicts_within_budget :
    ¬ ((∀ c : Cache, ∀ e ∈ c.gcEvictions, c.config.maxSize < e.2) ∧
      (∀ c : LayeredCache, ∀ e ∈ c.gcEvictions, c.config.maxSize < e.2)) := by
  intro h
  exact absurd (h.1 scenarioOver) (by decide)

/-- C3, amended: one run of `gc` (flat and layered) visits the last
`min itemsToPrune (length list)` elements of the list, starting at the tail, and
evicts every visited candidate that passes the reference test (tracking is off or
its reference count is zero), whatever the total size is: the evicted items are
the visited candidates passing the test, and the list keeps the elements that were
not visited followed by the visited ones that fail the test. -/
theorem gc_stops_on_count_only (c : Cache) (lc : LayeredCache) :
    (c.gcVisited = (c.list.drop (c.list.length - c.config.itemsToPrune)).reverse ∧
      c.gcVisited.length = min c.config.itemsToPrune c.list.length ∧
      c.gcEvictions.map Prod.fst = c.gcVisited.filter c.canEvict ∧
      c.gc.list = c.list.take (c.list.length - c.config.itemsToPrune) ++
        (c.list.drop (c.list.length - c.config.itemsToPrune)).filter
          (fun x => !c.canEvict x)) ∧
    (lc.gcVisited = (lc.list.drop (lc.list.length - lc.config.itemsToPrune)).reverse ∧
      lc.gcVisited.length = min lc.config.itemsToPrune lc.list.length ∧
      lc.gcEvictions.map Prod.fst = lc.gcVisited.filter lc.canEvict ∧
      lc.gc.list = lc.list.take (lc.list.length - lc.config.itemsToPrune) ++
        (lc.list.drop (lc.list.length - lc.config.itemsToPrune)).filter
          (fun x => !lc.canEvict x)) :=
  ⟨⟨c.gcVisited_eq, c.gcVisited_length, c.gcEvictions_ids, c.gc_list⟩,
    ⟨lc.layered_gcVisited_eq, lc.layered_gcVisited_length, lc.layered_gcEvictions_ids, lc.layered_gc_list⟩⟩

theorem isInt64_wrap (x : Int) (h : isInt64 x) : wrap64 x = x :=
  wrap64_of_range x h.1 h.2

theorem Cache.gc_untracked (c : Cache) (ht : c.config.tracking = false) (hs : isInt64 c.size) :
    c.gcEvictions.map Prod.fst =
        (c.list.drop (c.list.length - c.config.itemsToPrune)).reverse ∧
      (c.gcEvictions.map Prod.fst).length = min c.config.itemsToPrune c.list.length ∧
      c.gc.list = c.list.take (c.list.length - c.config.itemsToPrune) ∧
      (c.config.itemsToPrune < c.list.length → c.gc.list.head? = c.list.head?) ∧
      c.gc.size =
        wrap64 (c.size - ((c.gcEvictions.map Prod.fst).map (fun x => (c.items x).size)).sum) := by
  have hall : c.gcEvictions.map Prod.fst = c.gcVisited := by
    rw [Cache.gcEvictions_ids]
    exact List.filter_eq_self.mpr (fun x _ => c.canEvict_of_untracked ht x)
  have hlist : c.gc.list = c.list.take (c.list.length - c.config.itemsToPrune) := by
    rw [Cache.gc_list]
    have : (c.list.drop (c.list.length - c.config.itemsToPrune)).filter
        (fun x => !c.canEvict x) = [] :=
      List.filter_eq_nil_iff.mpr (fun x _ => by simp [c.canEvict_of_untracked ht x])
    rw [this, List.append_nil]
  refine ⟨by rw [hall, Cache.gcVisited_eq], by rw [hall, Cache.gcVisited_length], hlist, ?_, ?_⟩
  · intro hn
    rw [hlist]
    cases hl : c.list with
    | nil => simp
    | cons a l =>
      rw [hl] at hn
      have : (a :: l).length - c.config.itemsToPrune = (l.length - c.config.itemsToPrune) + 1 := by
        simp only [List.length_cons] at hn ⊢; omega
      rw [this]; rfl
  · rw [Cache.gc_size, debit_eq _ _ (isInt64_wrap _ hs)]

theorem LayeredCache.layered_gc_untracked (c : LayeredCache) (ht : c.config.tracking = false) (hs : isInt64 c.size) :
    c.gcEvictions.map Prod.fst =
        (c.list.drop (c.list.length - c.config.itemsToPrune)).reverse ∧
      (c.gcEvictions.map Prod.fst).length = min c.config.itemsToPrune c.list.length ∧
      c.gc.list = c.list.take (c.list.length - c.config.itemsToPrune) ∧
      (c.config.itemsToPrune < c.list.length → c.gc.list.head? = c.list.head?) ∧
      c.gc.size =
        wrap64 (c.size - ((c.gcEvictions.map Prod.fst).map (fun x => (c.items x).size)).sum) := by
  have hall : c.gcEvictions.map Prod.fst = c.gcVisited := by
    rw [LayeredCache.layered_gcEvictions_ids]
    exact List.filter_eq_self.mpr (fun x _ => c.layered_canEvict_of_untracked ht x)
  have hlist : c.gc.list = c.list.take (c.list.length - c.config.itemsToPrune) := by
    rw [LayeredCache.layered_gc_list]
    have : (c.list.drop (c.list.length - c.config.itemsToPrune)).filter
        (fun x => !c.canEvict x) = [] :=
      List.filter_eq_nil_iff.mpr (fun x _ => by simp [c.layered_canEvict_of_untracked ht x])
    rw [this, List.append_nil]
  refine ⟨by rw [hall, LayeredCache.layered_gcVisited_eq], by rw [hall, LayeredCache.layered_gcVisited_length], hlist, ?_, ?_⟩
  · intro hn
    rw [hlist]
    cases hl : c.list with
    | nil => simp
    | cons a l =>
      rw [hl] at hn
      have : (a :: l).length - c.config.itemsToPrune = (l.length - c.config.itemsToPrune) + 1 := by
        simp only [List.length_cons] at hn ⊢; omega
      rw [this]; rfl
  · rw [LayeredCache.layered_gc_size, debit_eq _ _ (isInt64_wrap _ hs)]

/-- C4: with reference tracking disabled, one run of `gc` (flat and layered, on a
cache whose size counter is an int64 value) evicts exactly the last
`min itemsToPrune (length list)` items of the list, the tail first; the list keeps
the remaining items in their order (a front segment of the old list, hence with the
same head when anything remains); and the total size is debited by exactly the sum
of the sizes of the evicted items (in int64 arithmetic). -/
theorem gc_untracked_evicts_tail (c : Cache) (lc : LayeredCache)
    (ht : c.config.tracking = false) (hs : isInt64 c.size)
    (hlt : lc.config.tracking = false) (hls : isInt64 lc.size) :
    (c.gcEvictions.map Prod.fst =
        (c.list.drop (c.list.length - c.config.itemsToPrune)).reverse ∧
      (c.gcEvictions.map Prod.fst).length = min c.config.itemsToPrune c.list.length ∧
      c.gc.list = c.list.take (c.list.length - c.config.itemsToPrune) ∧
      (c.config.itemsToPrune < c.list.length → c.gc.list.head? = c.list.head?) ∧
      c.gc.size =
        wrap64 (c.size - ((c.gcEvictions.map Prod.fst).map (fun x => (c.items x).size)).sum)) ∧
    (lc.gcEvictions.map Prod.fst =
        (lc.list.drop (lc.list.length - lc.config.itemsToPrune)).reverse ∧
      (lc.gcEvictions.map Prod.fst).length = min lc.config.itemsToPrune lc.list.length ∧
      lc.gc.list = lc.list.take (lc.list.length - lc.config.itemsToPrune) ∧
      (lc.config.itemsToPrune < lc.list.length → lc.gc.list.head? = lc.list.head?) ∧
      lc.gc.size =
        wrap64
          (lc.size - ((lc.gcEvictions.map Prod.fst).map (fun x => (lc.items x).size)).sum)) :=
  ⟨c.gc_untracked ht hs, lc.layered_gc_untracked hlt hls⟩

/-- The statement of C4 on the caches of the scenario, where `gc` is called at size 4. -/
theorem gc_untracked_evicts_tail_witness :
    (scenarioOver.config.tracking = false ∧ isInt64 scenarioOver.size ∧
      layeredOver.config.tracking = false ∧ isInt64 layeredOver.size) ∧
    (scenarioOver.gc.list =
        scenarioOver.list.take (scenarioOver.list.length - scenarioOver.config.itemsToPrune) ∧
      layeredOver.gc.list =
        layeredOver.list.take (layeredOver.list.length - layeredOver.config.itemsToPrune)) :=
  have h := gc_untracked_evicts_tail scenarioOver layeredOver (by decide) (by decide)
    (by decide) (by decide)
  ⟨by decide, h.1.2.2.1, h.2.2.2.1⟩

/-! ## Evicted and pinned items -/

theorem Cache.evict_bucket_none (c : Cache) (e : ItemId) (r : List ItemId) (i : Nat)
    (key : String) (h : (c.buckets i).get key = none) :
    ((c.evict e r).buckets i).get key = none := by
  by_cases hi : i = c.bucket (c.items e).key
  · subst hi
    simp only [Cache.evict, Function.update_same]
    exact bucket_get_delete_none _ _ _ h
  · simp only [Cache.evict, Function.update_noteq hi]
    exact h

theorem Cache.gcLoop_bucket_none (n : Nat) (p k : List ItemId) (c : Cache) (i : Nat)
    (key : String) (h : (c.buckets i).get key = none) :
    ((Cache.gcLoop n p k c).buckets i).get key = none := by
  induction n generalizing p k c with
  | zero => exact h
  | succ n ih =>
    cases p with
    | nil => exact h
    | cons e prev =>
      unfold Cache.gcLoop
      split
      · exact ih _ _ _ (Cache.evict_bucket_none c e _ i key h)
      · exact ih _ _ _ h

theorem Cache.key_evict (c : Cache) (e : ItemId) (r : List ItemId) (x : ItemId) :
    ((c.evict e r).items x).key = (c.items x).key := by
  by_cases h : x = e
  · subst h; simp [Cache.evict]
  · simp [Cache.evict, Function.update_noteq h]

theorem Cache.gcLoop_bucket_evicted (n : Nat) (p k : List ItemId) (c : Cache) (x : ItemId)
    (hx : x ∈ (p.take n).filter c.canEvict) :
    ((Cache.gcLoop n p k c).buckets (c.bucket (c.items x).key)).get (c.items x).key = none := by
  induction n generalizing p k c with
  | zero => simp at hx
  | succ n ih =>
    cases p with
    | nil => simp at hx
    | cons e prev =>
      unfold Cache.gcLoop
      split
      · rename_i hc
        have he : c.canEvict e = true := by simpa [Cache.canEvict] using hc
        rw [List.take_succ_cons, List.filter_cons, if_pos he, List.mem_cons] at hx
        by_cases hxe : x = e
        · subst hxe
          apply Cache.gcLoop_bucket_none
          simp only [Cache.evict, Function.update_same]
          exact bucket_get_delete_self _ _
        · have hx2 : x ∈ (prev.take n).filter (c.evict e (prev.reverse ++ k)).canEvict := by
            rw [Cache.canEvict_evict]
            exact hx.resolve_left hxe
          have := ih prev k (c.evict e (prev.reverse ++ k)) hx2
          rw [Cache.key_evict] at this
          exact this
      · rename_i hc
        have he : c.canEvict e = false := by simpa [Cache.canEvict] using hc
        rw [List.take_succ_cons, List.filter_cons, if_neg (by simp [he])] at hx
        exact ih prev (e :: k) c hx

/-- What `Cache.gc` does to an item it evicts, when a deletion callback is
configured and no element is linked twice: the item is absent from its shard map,
unlinked from the list, marked with the sentinel, passed to the callback exactly
once during the pass, and the total size is debited by the sizes of the evicted
items. -/
theorem Cache.gc_evicted_item (c : Cache) (hcb : c.config.onDelete = true) (hnd : c.list.Nodup)
    (x : ItemId) (hx : x ∈ c.gcEvictions.map Prod.fst) :
    (c.gc.buckets (c.gc.bucket (c.items x).key)).get (c.items x).key = none ∧
      x ∉ c.gc.list ∧
      (c.gc.items x).promotions = -2 ∧
      c.gc.onDeleteCalls = c.onDeleteCalls ++ c.gcEvictions.map Prod.fst ∧
      (c.gcEvictions.map Prod.fst).count x = 1 ∧
      c.gc.size =
        debit c.size ((c.gcEvictions.map Prod.fst).map (fun y => (c.items y).size)) := by
  have hx2 := hx
  rw [Cache.gcEvictions_ids] at hx2
  have hcan : c.canEvict x = true := (List.mem_filter.mp hx2).2
  have hvis : x ∈ c.gcVisited := (List.mem_filter.mp hx2).1
  refine ⟨?_, ?_, ?_, ?_, ?_, c.gc_size⟩
  · have hb : c.gc.bucket (c.items x).key = c.bucket (c.items x).key := by
      simp [Cache.bucket, Cache.gc, Cache.gcLoop_bucketMask]
    rw [hb]
    exact Cache.gcLoop_bucket_evicted _ _ _ c x hx2
  · rw [Cache.gc_list]
    rw [Cache.gcVisited_eq, List.mem_reverse] at hvis
    intro hmem
    rcases List.mem_append.mp hmem with h | h
    · have hd : c.list.take (c.list.length - c.config.itemsToPrune) ++
          c.list.drop (c.list.length - c.config.itemsToPrune) = c.list := List.take_append_drop _ _
      have hnd2 := hnd
      rw [← hd] at hnd2
      exact (List.nodup_append.mp hnd2).2.2 h hvis
    · have := (List.mem_filter.mp h).2
      simp [hcan] at this
  · rw [Cache.gc_items, if_pos hx]
  · rw [Cache.gc_calls, if_pos hcb]
  · apply List.count_eq_one_of_mem _ hx
    rw [Cache.gcEvictions_ids]
    apply List.Nodup.filter
    rw [Cache.gcVisited]
    exact (List.nodup_reverse.mpr hnd).sublist (List.take_sublist _ _)

theorem Cache.gc_tracked (c : Cache) (ht : c.config.tracking = true) (x : ItemId)
    (hx : x ∈ c.list) (hr : (c.items x).refCount ≠ 0) :
    c.gc.list = c.list.take (c.list.length - c.config.itemsToPrune) ++
        (c.list.drop (c.list.length - c.config.itemsToPrune)).filter
          (fun y => decide ((c.items y).refCount ≠ 0)) ∧
      c.gc.list.Sublist c.list ∧
      x ∈ c.gc.list ∧
      c.gc.items x = c.items x ∧
      x ∉ c.gcEvictions.map Prod.fst ∧
      c.gc.size =
        debit c.size ((c.gcEvictions.map Prod.fst).map (fun y => (c.items y).size)) := by
  have hfun : (fun y => !c.canEvict y) = fun y => decide ((c.items y).refCount ≠ 0) := by
    funext y; simp [Cache.canEvict, ht]
  have hcan : c.canEvict x = false := by simp [Cache.canEvict, ht, hr]
  have hlist := c.gc_list
  rw [hfun] at hlist
  have hnot : x ∉ c.gcEvictions.map Prod.fst := by
    rw [Cache.gcEvictions_ids]
    intro h
    have := (List.mem_filter.mp h).2
    simp [hcan] at this
  refine ⟨hlist, ?_, ?_, ?_, hnot, c.gc_size⟩
  · rw [hlist]
    conv => rhs; rw [← List.take_append_drop (c.list.length - c.config.itemsToPrune) c.list]
    exact List.Sublist.append (List.Sublist.refl _) (List.filter_sublist _)
  · rw [hlist]
    rw [← List.take_append_drop (c.list.length - c.config.itemsToPrune) c.list] at hx
    rcases List.mem_append.mp hx with h | h
    · exact List.mem_append_left _ h
    · exact List.mem_append_right _ (List.mem_filter.mpr ⟨h, by simpa using hr⟩)
  · rw [Cache.gc_items, if_neg hnot]

theorem LayeredCache.layered_gc_tracked (c : LayeredCache) (ht : c.config.tracking = true) (x : ItemId)
    (hx : x ∈ c.list) (hr : (c.items x).refCount ≠ 0) :
    c.gc.list = c.list.take (c.list.length - c.config.itemsToPrune) ++
        (c.list.drop (c.list.length - c.config.itemsToPrune)).filter
          (fun y => decide ((c.items y).refCount ≠ 0)) ∧
      c.gc.list.Sublist c.list ∧
      x ∈ c.gc.list ∧
      c.gc.items x = c.items x ∧
      x ∉ c.gcEvictions.map Prod.fst ∧
      c.gc.size =
        debit c.size ((c.gcEvictions.map Prod.fst).map (fun y => (c.items y).size)) := by
  have hfun : (fun y => !c.canEvict y) = fun y => decide ((c.items y).refCount ≠ 0) := by
    funext y; simp [LayeredCache.canEvict, ht]
  have hcan : c.canEvict x = false := by simp [LayeredCache.canEvict, ht, hr]
  have hlist := c.layered_gc_list
  rw [hfun] at hlist
  have hnot : x ∉ c.gcEvictions.map Prod.fst := by
    rw [LayeredCache.layered_gcEvictions_ids]
    intro h
    have := (List.mem_filter.mp h).2
    simp [hcan] at this
  refine ⟨hlist, ?_, ?_, ?_, hnot, c.layered_gc_size⟩
  · rw [hlist]
    conv => rhs; rw [← List.take_append_drop (c.list.length - c.config.itemsToPrune) c.list]
    exact List.Sublist.append (List.Sublist.refl _) (List.filter_sublist _)
  · rw [hlist]
    rw [← List.take_append_drop (c.list.length - c.config.itemsToPrune) c.list] at hx
    rcases List.mem_append.mp hx with h | h
    · exact List.mem_append_left _ h
    · exact List.mem_append_right _ (List.mem_filter.mpr ⟨h, by simpa using hr⟩)
  · rw [LayeredCache.layered_gc_items, if_neg hnot]

/-- C7, the code at the failing input: `LayeredCache.gc` never invokes the deletion
callback.  On the layered cache of the scenario, with a callback configured, `gc`
evicts the items 0, 1, 2 and 3 and the callback has not been invoked, whereas
`Cache.gc` on the flat cache in the same situation passes the four items to the
callback, each once. -/
theorem layered_gc_skips_callback :
    (∀ lc : LayeredCache, lc.gc.onDeleteCalls = lc.onDeleteCalls) ∧
    (layeredCallbackOver.config.onDelete = true ∧
      layeredCallbackOver.gcEvictions.map Prod.fst = [0, 1, 2, 3] ∧
      layeredCallbackOver.gc.list = [] ∧
      layeredCallbackOver.gc.onDeleteCalls = []) ∧
    (callbackOver.config.onDelete = true ∧
      callbackOver.gcEvictions.map Prod.fst = [0, 1, 2, 3] ∧
      callbackOver.gc.list = [] ∧
      callbackOver.gc.onDeleteCalls = [0, 1, 2, 3]) :=
  ⟨fun lc => lc.layered_gc_calls, by decide, by decide⟩

/-- C8: with reference tracking enabled, one run of `gc` (flat and layered) leaves
every item of the list whose reference count is not zero in place: the new list is
the old one without the visited items of reference count zero, hence a sublist of
the old list in which the item still occurs; the item's record is unchanged (the
pass does not mark it with the sentinel); it is not among the evicted items, and
the total size is debited by the sizes of the evicted items only. -/
theorem gc_keeps_referenced_items (c : Cache) (lc : LayeredCache) (x y : ItemId)
    (ht : c.config.tracking = true) (hx : x ∈ c.list) (hr : (c.items x).refCount ≠ 0)
    (hlt : lc.config.tracking = true) (hy : y ∈ lc.list) (hlr : (lc.items y).refCount ≠ 0) :
    (c.gc.list = c.list.take (c.list.length - c.config.itemsToPrune) ++
        (c.list.drop (c.list.length - c.config.itemsToPrune)).filter
          (fun z => decide ((c.items z).refCount ≠ 0)) ∧
      c.gc.list.Sublist c.list ∧
      x ∈ c.gc.list ∧
      c.gc.items x = c.items x ∧
      x ∉ c.gcEvictions.map Prod.fst ∧
      c.gc.size =
        debit c.size ((c.gcEvictions.map Prod.fst).map (fun z => (c.items z).size))) ∧
    (lc.gc.list = lc.list.take (lc.list.length - lc.config.itemsToPrune) ++
        (lc.list.drop (lc.list.length - lc.config.itemsToPrune)).filter
          (fun z => decide ((lc.items z).refCount ≠ 0)) ∧
      lc.gc.list.Sublist lc.list ∧
      y ∈ lc.gc.list ∧
      lc.gc.items y = lc.items y ∧
      y ∉ lc.gcEvictions.map Prod.fst ∧
      lc.gc.size =
        debit lc.size ((lc.gcEvictions.map Prod.fst).map (fun z => (lc.items z).size))) :=
  ⟨c.gc_tracked ht x hx hr, lc.layered_gc_tracked hlt y hy hlr⟩

/-- The statement of C8 on the caches of the scenario in which a caller holds item 0. -/
theorem gc_keeps_referenced_items_witness :
    (trackedOver.config.tracking = true ∧ 0 ∈ trackedOver.list ∧
      (trackedOver.items 0).refCount ≠ 0 ∧ layeredTrackedOver.config.tracking = true ∧
      0 ∈ layeredTrackedOver.list ∧ (layeredTrackedOver.items 0).refCount ≠ 0) ∧
    (0 ∈ trackedOver.gc.list ∧ trackedOver.gc.items 0 = trackedOver.items 0) ∧
    (0 ∈ layeredTrackedOver.gc.list ∧
      layeredTrackedOver.gc.items 0 = layeredTrackedOver.items 0) :=
  have h := gc_keeps_referenced_items trackedOver layeredTrackedOver 0 0 (by decide) (by decide)
    (by decide) (by decide) (by decide) (by decide)
  ⟨by decide, ⟨h.1.2.2.1, h.1.2.2.2.1⟩, ⟨h.2.2.2.1, h.2.2.2.2.1⟩⟩

/-! ## `Get` and promotions -/

theorem Cache.set_stale_get (c : Cache) (k : String) (v : Value) (ttl now now' : Int)
    (httl : ttl ≤ 0) (hnow : now ≤ now')
    (hd : c.deletables.length < c.config.deleteBuffer)
    (hp : c.promotables.length < c.config.promoteBuffer) :
    ∃ c1 item, c.Set k v ttl now = some c1 ∧ c1.Get k now' = some (c1, some item) ∧
      (c1.items item).value = v := by
  refine ⟨c.afterSet k v ttl now, c.nextItem, ?_, Cache.Get_of_stale _ k now' c.nextItem
    (Cache.afterSet_lookup c k v ttl now) ?_, ?_⟩
  · rw [Cache.Set, Cache.set_eq_some c k v ttl now hd hp]; rfl
  · simp only [Cache.afterSet, Function.update_same, newItem]; omega
  · simp [Cache.afterSet, newItem]

theorem LayeredCache.layered_set_stale_get (c : LayeredCache) (p s : String) (v : Value)
    (ttl now now' : Int) (httl : ttl ≤ 0) (hnow : now ≤ now')
    (hd : c.deletables.length < c.config.deleteBuffer)
    (hp : c.promotables.length < c.config.promoteBuffer) :
    ∃ c1 item, c.Set p s v ttl now = some c1 ∧ c1.Get p s now' = some (c1, some item) ∧
      (c1.items item).value = v := by
  refine ⟨c.afterSet p s v ttl now, c.nextItem, ?_, LayeredCache.layered_Get_of_stale _ p s now'
    c.nextItem (LayeredCache.layered_afterSet_lookup c p s v ttl now) ?_, ?_⟩
  · rw [LayeredCache.Set, LayeredCache.layered_set_eq_some c p s v ttl now hd hp]; rfl
  · simp only [LayeredCache.afterSet, Function.update_same, newItem]; omega
  · simp [LayeredCache.afterSet, newItem]

/-- With room in the channels, `Get` after `Set`: on the flat and on the layered
cache, after a `Set` with a ttl that has already elapsed (ttl at most 0) a later `Get`
returns the item carrying the value and leaves the whole cache, in particular the
promotion queue, unchanged.  `Get` of a present key returns the item; when the expiry
is strictly later than the clock reading it appends exactly one promotion of that item
to the promotion queue, and when the expiry is at or before the clock reading it
changes nothing. -/
theorem get_promotes_with_room (c : Cache) (lc : LayeredCache) (k p s : String)
    (v : Value) (ttl now later : Int) (httl : ttl ≤ 0) (hnow : now ≤ later)
    (hd : c.deletables.length < c.config.deleteBuffer)
    (hp : c.promotables.length < c.config.promoteBuffer)
    (hld : lc.deletables.length < lc.config.deleteBuffer)
    (hlp : lc.promotables.length < lc.config.promoteBuffer) :
    (∃ c1 item, c.Set k v ttl now = some c1 ∧ c1.Get k later = some (c1, some item) ∧
      (c1.items item).value = v) ∧
    (∃ c1 item, lc.Set p s v ttl now = some c1 ∧ c1.Get p s later = some (c1, some item) ∧
      (c1.items item).value = v) ∧
    (∀ (key : String) (item : ItemId) (t : Int),
      (c.buckets (c.bucket key)).get key = some item →
        ((c.items item).expires > t →
          c.Get key t = some ({ c with promotables := c.promotables ++ [item] }, some item)) ∧
        ((c.items item).expires ≤ t → c.Get key t = some (c, some item))) ∧
    (∀ (primary secondary : String) (item : ItemId) (t : Int),
      (lc.buckets (lc.bucket primary)).get primary secondary = some item →
        ((lc.items item).expires > t →
          lc.Get primary secondary t =
            some ({ lc with promotables := lc.promotables ++ [item] }, some item)) ∧
        ((lc.items item).expires ≤ t → lc.Get primary secondary t = some (lc, some item))) :=
  ⟨c.set_stale_get k v ttl now later httl hnow hd hp,
    lc.layered_set_stale_get p s v ttl now later httl hnow hld hlp,
    fun key item t h =>
      ⟨fun he => c.Get_of_fresh key t item h he hp, fun he => c.Get_of_stale key t item h he⟩,
    fun primary secondary item t h =>
      ⟨fun he => lc.layered_Get_of_fresh primary secondary t item h he hlp,
        fun he => lc.layered_Get_of_stale primary secondary t item h he⟩⟩

/-! ## `Fetch` -/

/-- `Cache.Fetch` on an entry that is present and expired (the expiry is at or before
the clock reading of `Get`, which is not after the one of `Expired`): the producer is
invoked once; its error is returned, or its value is stored by `set` and the new item
returned. -/
theorem Cache.Fetch_stale (c : Cache) (k : String) (d : Int) (fetch : Unit → Except String Value)
    (now now1 now2 : Int) (item : ItemId)
    (h : (c.buckets (c.bucket k)).get k = some item) (he : (c.items item).expires ≤ now)
    (hnow : now ≤ now1) :
    c.Fetch k d fetch now now1 now2 =
      match fetch () with
      | Except.error e => some (c, { item := none, err := some e, calls := 1 })
      | Except.ok value =>
        (c.set k value d now2).map
          (fun r2 => (r2.1, { item := some r2.2, err := none, calls := 1 })) := by
  have hex : (c.items item).Expired now1 = true := by
    simp only [Item.Expired, decide_eq_true_eq]; omega
  simp [Cache.Fetch, Cache.Get_of_stale c k now item h he, hex]

/-- `Cache.Fetch` returns without invoking the producer only if the entry is present
and not expired. -/
theorem Cache.Fetch_without_producer (c c1 : Cache) (k : String) (d : Int)
    (fetch : Unit → Except String Value) (now now1 now2 : Int) (r : FetchResult)
    (h : c.Fetch k d fetch now now1 now2 = some (c1, r)) (hr : r.calls = 0) :
    ∃ item, (c.buckets (c.bucket k)).get k = some item ∧ r.item = some item ∧
      (c1.items item).Expired now1 = false := by
  unfold Cache.Fetch at h
  cases hg : c.Get k now with
  | none => simp [hg] at h
  | some g =>
    obtain ⟨cg, og⟩ := g
    have hitem : og = (c.buckets (c.bucket k)).get k := by
      unfold Cache.Get at hg
      cases hb : (c.buckets (c.bucket k)).get k with
      | none => simp [hb] at hg; exact hg.2.symm
      | some it =>
        simp only [hb] at hg
        split at hg
        · simp only [Option.map_eq_some'] at hg
          obtain ⟨_, _, h2⟩ := hg
          exact (Prod.mk.inj h2).2.symm
        · exact (Prod.mk.inj (Option.some.inj hg)).2.symm
    have hmiss : ∀ (x : Cache × FetchResult),
        (match fetch () with
          | Except.error e => some (cg, ({ item := none, err := some e, calls := 1 } : FetchResult))
          | Except.ok value =>
            (cg.set k value d now2).map
              (fun r2 => (r2.1, ({ item := some r2.2, err := none, calls := 1 } : FetchResult))))
          = some x → x.2.calls = 1 := by
      intro x hx
      cases hf : fetch () with
      | error e => simp [hf] at hx; rw [← hx]
      | ok value =>
        simp only [hf, Option.map_eq_some'] at hx
        obtain ⟨_, _, h2⟩ := hx
        rw [← h2]
    simp only [hg, Option.some_bind] at h
    cases og with
    | none =>
      have := hmiss _ h
      simp only at this
      omega
    | some it =>
      simp only at h
      split at h
      · rename_i hne
        have h2 := Prod.mk.inj (Option.some.inj h)
        refine ⟨it, hitem.symm, ?_, ?_⟩
        · rw [← h2.2]
        · rw [← h2.1]; exact hne
      · have := hmiss _ h
        simp only at this
        omega

/-- `LayeredCache.Fetch` returns every present entry, expired or not, without invoking
the producer. -/
theorem LayeredCache.layered_Fetch_stale (c : LayeredCache) (p s : String) (d : Int)
    (fetch : Unit → Except String Value) (now now2 : Int) (item : ItemId)
    (h : (c.buckets (c.bucket p)).get p s = some item) (he : (c.items item).expires ≤ now) :
    c.Fetch p s d fetch now now2 = some (c, { item := some item, err := none, calls := 0 }) := by
  simp [LayeredCache.Fetch, LayeredCache.layered_Get_of_stale c p s now item h he]

/-- C10, the code at the failing input: the layered cache holds ("p", "x"), set at
clock reading 0 with a ttl of -1; at clock reading 5 the entry is expired, and
`LayeredCache.Fetch` returns that item without invoking the producer and leaves the
stale value 1 in place, whereas `Cache.Fetch` in the same situation invokes the
producer once, stores its value 2 and returns the new item. -/
theorem layered_fetch_returns_expired :
    staleLayered.bind (fun c => (c.Fetch "p" "x" 60 produceTwo 5 5).map
        (fun r => (r.2, (r.1.items 0).Expired 5, (r.1.items 0).value,
          ((r.1.buckets (r.1.bucket "p")).get "p" "x")))) =
      some ({ item := some 0, err := none, calls := 0 }, true, ⟨1, none⟩, some 0) ∧
    staleFlat.bind (fun c => (c.Fetch "x" 60 produceTwo 5 5 5).map
        (fun r => (r.2, (r.1.items 1).Expired 5, (r.1.items 1).value,
          ((r.1.buckets (r.1.bucket "x")).get "x")))) =
      some ({ item := some 1, err := none, calls := 1 }, false, ⟨2, none⟩, some 1) := by
  decide

/-! ## Runs of the worker -/


theorem twoSets_eq (config : Configuration) (k : String) (v1 v2 : Value) (ttl now : Int)
    (hdb : 1 ≤ config.deleteBuffer) (hpb : 2 ≤ config.promoteBuffer) :
    twoSets config k v1 v2 ttl now =
      some (((New config).afterSet k v1 ttl now).afterSet k v2 ttl now) := by
  unfold twoSets Cache.Set
  rw [Cache.set_eq_some _ _ _ _ _ (by simp [New, Cache.restart]; omega)
    (by simp [New, Cache.restart]; omega)]
  simp only [Option.map_some', Option.some_bind]
  rw [Cache.set_eq_some _ _ _ _ _ (by simp [New, Cache.restart, Cache.afterSet, bucket.get]; omega)
    (by simp [New, Cache.restart, Cache.afterSet]; omega)]
  rfl

theorem Cache.workerPromote_new (c : Cache) (item : ItemId) (rest : List ItemId)
    (hq : c.promotables = item :: rest) (hs : (c.items item).promotions ≠ -2)
    (he : (c.items item).element = false)
    (hfit : wrap64 (c.size + (c.items item).size) ≤ c.config.maxSize) :
    c.workerPromote = some
      { c with
        promotables := rest
        size := wrap64 (c.size + (c.items item).size)
        list := item :: c.list
        items := Function.update c.items item { c.items item with element := true } } := by
  have hfit2 : ¬ (c.config.maxSize < wrap64 (c.size + (c.items item).size)) := by omega
  simp [Cache.workerPromote, hq, Cache.doPromote, hs, he, listPushFront, hfit2]

theorem Cache.workerPromote_sentinel (c : Cache) (item : ItemId) (rest : List ItemId)
    (hq : c.promotables = item :: rest) (hs : (c.items item).promotions = -2) :
    c.workerPromote = some { c with promotables := rest } := by
  simp [Cache.workerPromote, hq, Cache.doPromote, hs]

theorem Cache.workerDelete_unlinked (c : Cache) (item : ItemId) (rest : List ItemId)
    (hq : c.deletables = item :: rest) (he : (c.items item).element = false) :
    c.workerDelete = some
      { c with
        deletables := rest
        items := Function.update c.items item { c.items item with promotions := -2 } } := by
  simp [Cache.workerDelete, hq, Cache.doDelete, he]

theorem Cache.workerDelete_linked (c : Cache) (item : ItemId) (rest : List ItemId)
    (hq : c.deletables = item :: rest) (he : (c.items item).element = true) :
    c.workerDelete = some
      { c with
        deletables := rest
        size := wrap64 (c.size - (c.items item).size)
        onDeleteCalls :=
          if c.config.onDelete then c.onDeleteCalls ++ [item] else c.onDeleteCalls
        list := listRemove c.list item } := by
  simp [Cache.workerDelete, hq, Cache.doDelete, he]

/-- C5, the code at the failing input: the item 0 is on the list (size 1), `Set` of
the same key queues its deletion and the promotion of item 1; the worker takes the
promotion first, the size 2 exceeds the max size 1 and `gc` evicts item 0, debiting
its size (total 1, callback invoked with item 0, the deletion still queued); the
worker then takes the deletion of item 0, whose `element` is still non-nil, and
debits its size again: the total size is 0 while item 1, of size 1, is the only
item on the list, and the callback of the flat cache has been invoked twice with
item 0.  The layered worker does the same. -/
theorem evicted_item_debited_twice :
    (replacedFlat.bind (fun c => c.workerRun [WorkerEvent.promotion])).map
        (fun c => (c.size, c.list, c.onDeleteCalls, c.deletables, (c.items 0).element)) =
      some (1, [1], [0], [0], true) ∧
    (replacedFlat.bind
        (fun c => c.workerRun [WorkerEvent.promotion, WorkerEvent.deletion])).map
        (fun c => (c.size, c.list, (c.items 1).size, c.onDeleteCalls)) =
      some (0, [1], 1, [0, 0]) ∧
    (replacedLayered.bind (fun c => c.workerRun [WorkerEvent.promotion])).map
        (fun c => (c.size, c.list, c.deletables, (c.items 0).element)) =
      some (1, [1], [0], true) ∧
    (replacedLayered.bind
        (fun c => c.workerRun [WorkerEvent.promotion, WorkerEvent.deletion])).map
        (fun c => (c.size, c.list, (c.items 1).size)) =
      some (0, [1], 1) :=
  ⟨by decide, by decide, by decide, by decide⟩

/-- C6, as stated, fails: on a fresh cache with a deletion callback, after
`Set("k", 1)` and `Set("k", 2)`, it is not the case that for every order of the
pending events `Get("k")` returns item 1 and the callback has been invoked exactly
once, with item 0: when the worker takes the deletion first, the callback is never
invoked. -/
theorem replaced_item_callback_skipped :
    ¬ (∀ order ∈ replaceOrders,
      ((twoSets Configure.OnDelete "k" ⟨1, none⟩ ⟨2, none⟩ 60 0).bind
        (fun c => c.workerRun order)).map
          (fun c => ((c.Get "k" 0).map Prod.snd, c.onDeleteCalls)) =
        some (some (some 1), [0])) := by
  decide

/-- C6, amended: on a fresh flat cache with a deletion callback, whose channels have
room for the events and whose max size admits both items (so that no `gc` pass
runs), after `Set(k, v1, ttl)` immediately followed by `Set(k, v2, ttl)` and for
every order in which the worker may take the two promotions and the deletion: all
events are processed, `Get(k)` returns the item holding `v2`, and the callback has
been invoked exactly once, with the item that held `v1`, when the worker takes a
promotion first, and not at all when it takes the deletion first. -/
theorem replace_then_callback (config : Configuration) (k : String) (v1 v2 : Value)
    (ttl now later : Int) (hcb : config.onDelete = true) (hdb : 1 ≤ config.deleteBuffer)
    (hpb : 2 ≤ config.promoteBuffer) (h1 : 0 ≤ v1.cost.getD 1) (h2 : 0 ≤ v2.cost.getD 1)
    (hfit : v1.cost.getD 1 + v2.cost.getD 1 ≤ config.maxSize) (hmax : config.maxSize < 2 ^ 63) :
    ∀ order ∈ replaceOrders, ∃ c c2,
      (twoSets config k v1 v2 ttl now).bind (fun c => c.workerRun order) = some c ∧
      c.promotables = [] ∧ c.deletables = [] ∧
      c.Get k later = some (c2, some 1) ∧ (c2.items 1).value = v2 ∧ (c.items 0).value = v1 ∧
      c.onDeleteCalls = if order.head? = some WorkerEvent.deletion then [] else [0] := by
  intro order ho
  rw [twoSets_eq config k v1 v2 ttl now hdb hpb]
  have hw1 : wrap64 (v1.cost.getD 1) = v1.cost.getD 1 := wrap64_of_range _ (by omega) (by omega)
  have hw2 : wrap64 (v2.cost.getD 1) = v2.cost.getD 1 := wrap64_of_range _ (by omega) (by omega)
  have hw3 : wrap64 (v1.cost.getD 1 + v2.cost.getD 1) = v1.cost.getD 1 + v2.cost.getD 1 :=
    wrap64_of_range _ (by omega) (by omega)
  simp only [replaceOrders, List.mem_cons, List.mem_singleton, List.not_mem_nil, or_false] at ho
  rcases ho with rfl | rfl | rfl
  all_goals
    have hn1 : ¬ (config.maxSize < v1.cost.getD 1) := by omega
    have hn2 : ¬ (config.maxSize < v2.cost.getD 1) := by omega
    have hn3 : ¬ (config.maxSize < v1.cost.getD 1 + v2.cost.getD 1) := by omega
    have hpos : 0 < config.promoteBuffer := by omega
    have hw0 : wrap64 0 = 0 := by decide
    by_cases hl : later < now + ttl <;>
    simp [Cache.workerRun, Cache.workerStep, Cache.workerPromote, Cache.workerDelete,
      Cache.doPromote, Cache.doDelete, Cache.afterSet, New, Cache.restart, newItem,
      listPushFront, listRemove, Cache.Get, Cache.bucket, bucket.get, bucket.set,
      Cache.promote, send, hcb, hw1, hw2, hw3, hn1, hn2, hn3, hpos, hl, hw0]

/-- The amended statement of C6 for the default configuration with a callback. -/
theorem replace_then_callback_witness :
    (Configure.OnDelete.onDelete = true ∧ 1 ≤ Configure.OnDelete.deleteBuffer ∧
      2 ≤ Configure.OnDelete.promoteBuffer ∧
      (1 : Int) + 1 ≤ Configure.OnDelete.maxSize ∧ Configure.OnDelete.maxSize < 2 ^ 63) ∧
    ∀ order ∈ replaceOrders, ∃ c c2,
      (twoSets Configure.OnDelete "k" ⟨1, none⟩ ⟨2, none⟩ 60 0).bind
        (fun c => c.workerRun order) = some c ∧
      c.promotables = [] ∧ c.deletables = [] ∧
      c.Get "k" 0 = some (c2, some 1) ∧ (c2.items 1).value = ⟨2, none⟩ ∧
      (c.items 0).value = ⟨1, none⟩ ∧
      c.onDeleteCalls = if order.head? = some WorkerEvent.deletion then [] else [0] :=
  ⟨by decide, replace_then_callback Configure.OnDelete "k" ⟨1, none⟩ ⟨2, none⟩ 60 0 0
    (by decide) (by decide) (by decide) (by decide) (by decide) (by decide) (by decide)⟩

/-! ## `Fetch` with a failing producer -/

theorem Cache.Get_cases (c c1 : Cache) (k : String) (now : Int) (r : Option ItemId)
    (h : c.Get k now = some (c1, r)) :
    r = (c.buckets (c.bucket k)).get k ∧
      (c1 = c ∨ ∃ item, r = some item ∧ (c.items item).expires > now ∧
        c1 = { c with promotables := c.promotables ++ [item] }) := by
  unfold Cache.Get at h
  cases hb : (c.buckets (c.bucket k)).get k with
  | none =>
    simp only [hb, Option.some.injEq, Prod.mk.injEq] at h
    exact ⟨h.2.symm, Or.inl h.1.symm⟩
  | some it =>
    simp only [hb] at h
    split at h
    · rename_i hexp
      simp only [Cache.promote, send, Option.map_eq_some'] at h
      obtain ⟨c2, ⟨q, hq, hc2⟩, h2⟩ := h
      have h3 := Prod.mk.inj h2
      split at hq
      · have hq2 := Option.some.inj hq
        refine ⟨h3.2.symm, Or.inr ⟨it, h3.2.symm, hexp, ?_⟩⟩
        rw [← h3.1, ← hc2, ← hq2]
      · exact absurd hq (by simp)
    · have h3 := Prod.mk.inj (Option.some.inj h)
      exact ⟨h3.2.symm, Or.inl h3.1.symm⟩

theorem Cache.Fetch_error_absent (c : Cache) (k : String) (d : Int)
    (fetch : Unit → Except String Value) (e : String) (now now1 now2 : Int)
    (he : fetch () = Except.error e) (h : (c.buckets (c.bucket k)).get k = none) :
    c.Fetch k d fetch now now1 now2 = some (c, { item := none, err := some e, calls := 1 }) := by
  simp [Cache.Fetch, Cache.Get_of_absent c k now h, he]

theorem Cache.Fetch_error_stale (c : Cache) (k : String) (d : Int)
    (fetch : Unit → Except String Value) (e : String) (now now1 now2 : Int) (item : ItemId)
    (he : fetch () = Except.error e) (h : (c.buckets (c.bucket k)).get k = some item)
    (hexp : (c.items item).expires ≤ now) (hnow : now ≤ now1) :
    c.Fetch k d fetch now now1 now2 = some (c, { item := none, err := some e, calls := 1 }) := by
  rw [Cache.Fetch_stale c k d fetch now now1 now2 item h hexp hnow, he]

theorem Cache.Fetch_error_expiring (c : Cache) (k : String) (d : Int)
    (fetch : Unit → Except String Value) (e : String) (now now1 now2 : Int) (item : ItemId)
    (he : fetch () = Except.error e) (h : (c.buckets (c.bucket k)).get k = some item)
    (h1 : now < (c.items item).expires) (h2 : (c.items item).expires ≤ now1)
    (hp : c.promotables.length < c.config.promoteBuffer) :
    c.Fetch k d fetch now now1 now2 =
      some ({ c with promotables := c.promotables ++ [item] },
        { item := none, err := some e, calls := 1 }) := by
  have hex : (c.items item).Expired now1 = true := by
    simp only [Item.Expired, decide_eq_true_eq]; exact h2
  simp [Cache.Fetch, Cache.Get_of_fresh c k now item h h1 hp, hex, he]

theorem Cache.Fetch_error_back (c c1 : Cache) (k : String) (d : Int)
    (fetch : Unit → Except String Value) (e : String) (now now1 now2 : Int) (r : FetchResult)
    (he : fetch () = Except.error e) (h : c.Fetch k d fetch now now1 now2 = some (c1, r))
    (hr : r.calls ≠ 0) :
    r = { item := none, err := some e, calls := 1 } ∧ c1.buckets = c.buckets ∧
      c1.deletables = c.deletables ∧ c1.items = c.items ∧
      (c1.promotables = c.promotables ∨ ∃ item, (c.buckets (c.bucket k)).get k = some item ∧
        now < (c.items item).expires ∧ (c.items item).expires ≤ now1 ∧
        c1.promotables = c.promotables ++ [item]) := by
  unfold Cache.Fetch at h
  cases hg : c.Get k now with
  | none => simp [hg] at h
  | some g =>
    obtain ⟨cg, og⟩ := g
    obtain ⟨hog, hcg⟩ := Cache.Get_cases c cg k now og hg
    simp only [hg, Option.some_bind, he] at h
    have key : (cg, ({ item := none, err := some e, calls := 1 } : FetchResult)) = (c1, r) →
        (og = none ∨ ∃ it, og = some it ∧ (cg.items it).Expired now1 = true) →
        r = { item := none, err := some e, calls := 1 } ∧ c1.buckets = c.buckets ∧
        c1.deletables = c.deletables ∧ c1.items = c.items ∧
        (c1.promotables = c.promotables ∨ ∃ item, (c.buckets (c.bucket k)).get k = some item ∧
          now < (c.items item).expires ∧ (c.items item).expires ≤ now1 ∧
          c1.promotables = c.promotables ++ [item]) := by
      intro h2 hcase
      have h3 := Prod.mk.inj h2
      rw [← h3.1, ← h3.2]
      rcases hcg with rfl | ⟨item, hit, hexp, rfl⟩
      · exact ⟨rfl, rfl, rfl, rfl, Or.inl rfl⟩
      · refine ⟨rfl, rfl, rfl, rfl, Or.inr ⟨item, ?_, hexp, ?_, rfl⟩⟩
        · rw [← hog, hit]
        · rcases hcase with h4 | ⟨it, h4, h5⟩
          · rw [hit] at h4; exact absurd h4 (by simp)
          · rw [hit] at h4
            have : item = it := Option.some.inj h4
            subst this
            simpa [Item.Expired] using h5
    cases og with
    | none => exact key (Option.some.inj h) (Or.inl rfl)
    | some it =>
      simp only at h
      split at h
      · have h2 := Prod.mk.inj (Option.some.inj h)
        rw [← h2.2] at hr
        exact absurd rfl hr
      · rename_i hne
        exact key (Option.some.inj h) (Or.inr ⟨it, rfl, by simpa using hne⟩)

theorem LayeredCache.layered_Get_none_back (c c1 : LayeredCache) (p s : String) (now : Int)
    (h : c.Get p s now = some (c1, none)) :
    (c.buckets (c.bucket p)).get p s = none ∧ c1 = c := by
  unfold LayeredCache.Get at h
  cases hb : (c.buckets (c.bucket p)).get p s with
  | none =>
    simp only [hb, Option.some.injEq, Prod.mk.injEq] at h
    exact ⟨rfl, h.1.symm⟩
  | some it =>
    simp only [hb] at h
    split at h
    · simp only [Option.map_eq_some'] at h
      obtain ⟨_, _, h2⟩ := h
      exact absurd (Prod.mk.inj h2).2 (by simp)
    · exact absurd (Prod.mk.inj (Option.some.inj h)).2 (by simp)

theorem LayeredCache.layered_Fetch_error_absent (c : LayeredCache) (p s : String) (d : Int)
    (fetch : Unit → Except String Value) (e : String) (now now2 : Int)
    (he : fetch () = Except.error e) (h : (c.buckets (c.bucket p)).get p s = none) :
    c.Fetch p s d fetch now now2 = some (c, { item := none, err := some e, calls := 1 }) := by
  simp [LayeredCache.Fetch, LayeredCache.layered_Get_of_absent c p s now h, he]

theorem LayeredCache.layered_Fetch_error_back (c c1 : LayeredCache) (p s : String) (d : Int)
    (fetch : Unit → Except String Value) (e : String) (now now2 : Int) (r : FetchResult)
    (he : fetch () = Except.error e) (h : c.Fetch p s d fetch now now2 = some (c1, r))
    (hr : r.calls ≠ 0) :
    r = { item := none, err := some e, calls := 1 } ∧ c1 = c := by
  unfold LayeredCache.Fetch at h
  cases hg : c.Get p s now with
  | none => simp [hg] at h
  | some g =>
    obtain ⟨cg, og⟩ := g
    simp only [hg, Option.some_bind, he] at h
    cases og with
    | none =>
      have h2 := Prod.mk.inj (Option.some.inj h)
      exact ⟨h2.2.symm, by rw [← h2.1]; exact (LayeredCache.layered_Get_none_back c cg p s now hg).2⟩
    | some it =>
      have h2 := Prod.mk.inj (Option.some.inj h)
      rw [← h2.2] at hr
      exact absurd rfl hr
/-- C11, as stated, fails: the flat cache holds "x" with expiry 3; `Fetch` reads the
clock at 1 in `Get`, which enqueues a promotion, and at 5 in `Expired`, so the
producer is called; it fails, `Fetch` returns the error unchanged, but the
promotion queue is not as before the call. -/
theorem fetch_error_after_expiry_promotes :
    shortLived.bind (fun c => (c.Fetch "x" 60 produceError 1 5 5).map
        (fun r => (r.2, c.promotables, r.1.promotables))) =
      some ({ item := none, err := some "boom", calls := 1 }, [0], [0, 0]) := by
  decide

/-- C11, amended: when the producer returns an error `e`, `Fetch` returns `(nil, e)`
with `e` unchanged whenever it calls the producer, and the shard maps, the items and
the deletion queue are as before the call.  On the layered cache, and on the flat
cache when the key is absent or its entry had already expired at the clock reading
of `Get`, the whole cache is unchanged; on the flat cache, when the entry expires
between the clock reading of `Get` and the later one of `Expired`, the promotion
queue holds in addition the one promotion that `Get` has enqueued. -/
theorem fetch_error_leaves_entries (c : Cache) (lc : LayeredCache) (k p s : String) (d : Int)
    (fetch : Unit → Except String Value) (e : String) (now now1 now2 : Int)
    (he : fetch () = Except.error e) :
    ((c.buckets (c.bucket k)).get k = none →
        c.Fetch k d fetch now now1 now2 =
          some (c, { item := none, err := some e, calls := 1 })) ∧
    (∀ item, (c.buckets (c.bucket k)).get k = some item →
        (c.items item).expires ≤ now → now ≤ now1 →
        c.Fetch k d fetch now now1 now2 =
          some (c, { item := none, err := some e, calls := 1 })) ∧
    (∀ item, (c.buckets (c.bucket k)).get k = some item →
        now < (c.items item).expires → (c.items item).expires ≤ now1 →
        c.promotables.length < c.config.promoteBuffer →
        c.Fetch k d fetch now now1 now2 =
          some ({ c with promotables := c.promotables ++ [item] },
            { item := none, err := some e, calls := 1 })) ∧
    (∀ c1 r, c.Fetch k d fetch now now1 now2 = some (c1, r) → r.calls ≠ 0 →
        r = { item := none, err := some e, calls := 1 } ∧ c1.buckets = c.buckets ∧
        c1.deletables = c.deletables ∧ c1.items = c.items ∧
        (c1.promotables = c.promotables ∨
          ∃ item, (c.buckets (c.bucket k)).get k = some item ∧
            now < (c.items item).expires ∧ (c.items item).expires ≤ now1 ∧
            c1.promotables = c.promotables ++ [item])) ∧
    ((lc.buckets (lc.bucket p)).get p s = none →
        lc.Fetch p s d fetch now now2 =
          some (lc, { item := none, err := some e, calls := 1 })) ∧
    (∀ c1 r, lc.Fetch p s d fetch now now2 = some (c1, r) → r.calls ≠ 0 →
        r = { item := none, err := some e, calls := 1 } ∧ c1 = lc) :=
  ⟨fun h => c.Fetch_error_absent k d fetch e now now1 now2 he h,
    fun item h h1 h2 => c.Fetch_error_stale k d fetch e now now1 now2 item he h h1 h2,
    fun item h h1 h2 hp => c.Fetch_error_expiring k d fetch e now now1 now2 item he h h1 h2 hp,
    fun c1 r h hr => Cache.Fetch_error_back c c1 k d fetch e now now1 now2 r he h hr,
    fun h => lc.layered_Fetch_error_absent p s d fetch e now now2 he h,
    fun c1 r h hr => LayeredCache.layered_Fetch_error_back lc c1 p s d fetch e now now2 r he h hr⟩

/-- The amended statement of C11 on fresh caches, where the key is absent. -/
theorem fetch_error_leaves_entries_witness :
    produceError () = Except.error "boom" ∧
    (New Configure).Fetch "x" 60 produceError 0 0 0 =
      some (New Configure, { item := none, err := some "boom", calls := 1 }) ∧
    (Layered Configure).Fetch "p" "x" 60 produceError 0 0 =
      some (Layered Configure, { item := none, err := some "boom", calls := 1 }) :=
  have h := fetch_error_leaves_entries (New Configure) (Layered Configure) "x" "p" "x" 60
    produceError "boom" 0 0 0 rfl
  ⟨rfl, h.1 (by decide), h.2.2.2.2.1 (by decide)⟩

/-! ## `Replace` -/

theorem Cache.Replace_absent (c : Cache) (k : String) (v : Value) (now now2 : Int)
    (h : (c.buckets (c.bucket k)).get k = none) : c.Replace k v now now2 = some (c, false) := by
  simp [Cache.Replace, h]

theorem Cache.Replace_present (c : Cache) (k : String) (v : Value) (now t : Int) (item : ItemId)
    (h : (c.buckets (c.bucket k)).get k = some item)
    (hd : c.deletables.length < c.config.deleteBuffer)
    (hp : c.promotables.length + 2 ≤ c.config.promoteBuffer) :
    ∃ c1 c2 new, c.Replace k v now now = some (c1, true) ∧
      c1.Get k t = some (c2, some new) ∧ (c2.items new).value = v ∧
      (c2.items new).expires = (c.items item).expires := by
  have hrep : c.Replace k v now now =
      some (c.afterSet k v ((c.items item).TTL now) now, true) := by
    simp only [Cache.Replace, h, Cache.Set]
    rw [Cache.set_eq_some c k v _ now hd (by omega)]
    rfl
  have hlook := Cache.afterSet_lookup c k v ((c.items item).TTL now) now
  have hexp : ((c.afterSet k v ((c.items item).TTL now) now).items c.nextItem).expires =
      (c.items item).expires := by
    simp only [Cache.afterSet, Function.update_same, newItem, Item.TTL]; omega
  have hval : ((c.afterSet k v ((c.items item).TTL now) now).items c.nextItem).value = v := by
    simp [Cache.afterSet, newItem]
  by_cases hlt : ((c.afterSet k v ((c.items item).TTL now) now).items c.nextItem).expires > t
  · refine ⟨_, _, c.nextItem, hrep, Cache.Get_of_fresh _ k t c.nextItem hlook hlt ?_, hval, hexp⟩
    simp only [Cache.afterSet, List.length_append, List.length_singleton]; omega
  · exact ⟨_, _, c.nextItem, hrep, Cache.Get_of_stale _ k t c.nextItem hlook (by omega),
      hval, hexp⟩

theorem Cache.Replace_true_iff (c c1 : Cache) (k : String) (v : Value) (now now2 : Int) (b : Bool)
    (h : c.Replace k v now now2 = some (c1, b)) :
    b = true ↔ ((c.buckets (c.bucket k)).get k).isSome = true := by
  unfold Cache.Replace at h
  cases hb : (c.buckets (c.bucket k)).get k with
  | none =>
    simp only [hb, Option.some.injEq, Prod.mk.injEq] at h
    simp [← h.2]
  | some it =>
    simp only [hb, Option.map_eq_some'] at h
    obtain ⟨_, _, h2⟩ := h
    simp [← (Prod.mk.inj h2).2]

theorem LayeredCache.layered_Replace_absent (c : LayeredCache) (p s : String) (v : Value)
    (now now2 : Int) (h : (c.buckets (c.bucket p)).get p s = none) :
    c.Replace p s v now now2 = some (c, false) := by
  simp [LayeredCache.Replace, h]

theorem LayeredCache.layered_Replace_present (c : LayeredCache) (p s : String) (v : Value)
    (now t : Int) (item : ItemId)
    (h : (c.buckets (c.bucket p)).get p s = some item)
    (hd : c.deletables.length < c.config.deleteBuffer)
    (hp : c.promotables.length + 2 ≤ c.config.promoteBuffer) :
    ∃ c1 c2 new, c.Replace p s v now now = some (c1, true) ∧
      c1.Get p s t = some (c2, some new) ∧ (c2.items new).value = v ∧
      (c2.items new).expires = (c.items item).expires := by
  have hrep : c.Replace p s v now now =
      some (c.afterSet p s v ((c.items item).TTL now) now, true) := by
    simp only [LayeredCache.Replace, h, LayeredCache.Set]
    rw [LayeredCache.layered_set_eq_some c p s v _ now hd (by omega)]
    rfl
  have hlook := LayeredCache.layered_afterSet_lookup c p s v ((c.items item).TTL now) now
  have hexp : ((c.afterSet p s v ((c.items item).TTL now) now).items c.nextItem).expires =
      (c.items item).expires := by
    simp only [LayeredCache.afterSet, Function.update_same, newItem, Item.TTL]; omega
  have hval : ((c.afterSet p s v ((c.items item).TTL now) now).items c.nextItem).value = v := by
    simp [LayeredCache.afterSet, newItem]
  by_cases hlt : ((c.afterSet p s v ((c.items item).TTL now) now).items c.nextItem).expires > t
  · refine ⟨_, _, c.nextItem, hrep,
      LayeredCache.layered_Get_of_fresh _ p s t c.nextItem hlook hlt ?_, hval, hexp⟩
    simp only [LayeredCache.afterSet, List.length_append, List.length_singleton]; omega
  · exact ⟨_, _, c.nextItem, hrep,
      LayeredCache.layered_Get_of_stale _ p s t c.nextItem hlook (by omega), hval, hexp⟩

theorem LayeredCache.layered_Replace_true_iff (c c1 : LayeredCache) (p s : String) (v : Value)
    (now now2 : Int) (b : Bool) (h : c.Replace p s v now now2 = some (c1, b)) :
    b = true ↔ ((c.buckets (c.bucket p)).get p s).isSome = true := by
  unfold LayeredCache.Replace at h
  cases hb : (c.buckets (c.bucket p)).get p s with
  | none =>
    simp only [hb, Option.some.injEq, Prod.mk.injEq] at h
    simp [← h.2]
  | some it =>
    simp only [hb, Option.map_eq_some'] at h
    obtain ⟨_, _, h2⟩ := h
    simp [← (Prod.mk.inj h2).2]

/-- With room in the channels, `Replace`: on the flat and on the layered cache whose
channels have room for the events of the `Set` that `Replace` performs and of the
following `Get`, `Replace(k, v)` on an absent key returns false and leaves the whole
cache unchanged; on a present key it returns true, and a following `Get(k)` returns an
item with value `v` whose expiry equals the expiry of the replaced entry, the ttl and
the new expiry being computed at the same clock reading; whenever `Replace` returns,
it returns true exactly when the key had an entry. -/
theorem replace_keeps_expiry_with_room (c : Cache) (lc : LayeredCache) (k p s : String) (v : Value)
    (now t : Int)
    (hd : c.deletables.length < c.config.deleteBuffer)
    (hp : c.promotables.length + 2 ≤ c.config.promoteBuffer)
    (hld : lc.deletables.length < lc.config.deleteBuffer)
    (hlp : lc.promotables.length + 2 ≤ lc.config.promoteBuffer) :
    ((c.buckets (c.bucket k)).get k = none → c.Replace k v now now = some (c, false)) ∧
    (∀ item, (c.buckets (c.bucket k)).get k = some item →
      ∃ c1 c2 new, c.Replace k v now now = some (c1, true) ∧
        c1.Get k t = some (c2, some new) ∧ (c2.items new).value = v ∧
        (c2.items new).expires = (c.items item).expires) ∧
    (∀ c1 b, c.Replace k v now now = some (c1, b) →
      (b = true ↔ ((c.buckets (c.bucket k)).get k).isSome = true)) ∧
    ((lc.buckets (lc.bucket p)).get p s = none → lc.Replace p s v now now = some (lc, false)) ∧
    (∀ item, (lc.buckets (lc.bucket p)).get p s = some item →
      ∃ c1 c2 new, lc.Replace p s v now now = some (c1, true) ∧
        c1.Get p s t = some (c2, some new) ∧ (c2.items new).value = v ∧
        (c2.items new).expires = (lc.items item).expires) ∧
    (∀ c1 b, lc.Replace p s v now now = some (c1, b) →
      (b = true ↔ ((lc.buckets (lc.bucket p)).get p s).isSome = true)) :=
  ⟨fun h => c.Replace_absent k v now now h,
    fun item h => c.Replace_present k v now t item h hd hp,
    fun c1 b h => Cache.Replace_true_iff c c1 k v now now b h,
    fun h => lc.layered_Replace_absent p s v now now h,
    fun item h => lc.layered_Replace_present p s v now t item h hld hlp,
    fun c1 b h => LayeredCache.layered_Replace_true_iff lc c1 p s v now now b h⟩
/-! ## `Delete` -/

theorem assoc_find_filter_other {β : Type} (l : List (String × β)) (key k : String)
    (hk : k ≠ key) :
    (l.filter (fun e => e.1 ≠ key)).find? (fun e => e.1 = k) = l.find? (fun e => e.1 = k) := by
  rw [List.find?_filter]
  congr 1
  funext a
  by_cases h : a.1 = k
  · have h2 : ¬ a.1 = key := fun h3 => hk (h ▸ h3)
    simp [h, h2, hk]
  · simp [h]

theorem bucket_delete_absent (b : bucket) (key : String) (h : b.get key = none) :
    (b.delete key).1 = b := by
  have h1 : b.lookup.find? (fun e => e.1 = key) = none := by
    simpa [bucket.get] using h
  have h2 : b.lookup.filter (fun e => e.1 ≠ key) = b.lookup := by
    apply List.filter_eq_self.mpr
    intro a ha
    have := List.find?_eq_none.mp h1 a ha
    simpa using this
  simp only [bucket.delete, h2]

theorem Cache.Delete_absent (c : Cache) (k : String)
    (h : (c.buckets (c.bucket k)).get k = none) : c.Delete k = some (c, false) := by
  simp only [Cache.Delete, bucket.delete, h]
  have h2 := bucket_delete_absent _ k h
  simp only [bucket.delete] at h2
  rw [h2, Function.update_eq_self]

theorem Cache.Delete_present (c : Cache) (k : String) (item : ItemId)
    (h : (c.buckets (c.bucket k)).get k = some item)
    (hd : c.deletables.length < c.config.deleteBuffer) :
    c.Delete k = some
      ({ c with
          buckets := Function.update c.buckets (c.bucket k) ((c.buckets (c.bucket k)).delete k).1
          deletables := c.deletables ++ [item] }, true) := by
  simp [Cache.Delete, bucket.delete, h, send, hd]

theorem Cache.lookup_after_delete (c : Cache) (k k2 : String) (hk : k2 ≠ k) :
    (Function.update c.buckets (c.bucket k) ((c.buckets (c.bucket k)).delete k).1
      (c.bucket k2)).get k2 = (c.buckets (c.bucket k2)).get k2 := by
  by_cases hb : c.bucket k2 = c.bucket k
  · rw [hb, Function.update_same, bucket_get_delete_other _ _ _ hk]
  · rw [Function.update_noteq hb]

theorem Cache.Delete_true_iff (c c1 : Cache) (k : String) (b : Bool)
    (h : c.Delete k = some (c1, b)) :
    b = true ↔ ((c.buckets (c.bucket k)).get k).isSome = true := by
  unfold Cache.Delete at h
  cases hb : (c.buckets (c.bucket k)).get k with
  | none =>
    simp only [bucket.delete, hb, Option.some.injEq, Prod.mk.injEq] at h
    simp [← h.2]
  | some it =>
    simp only [bucket.delete, hb, Option.map_eq_some'] at h
    obtain ⟨_, _, h2⟩ := h
    simp [← (Prod.mk.inj h2).2]

theorem Cache.Delete_spec (c : Cache) (k : String) :
    ((c.buckets (c.bucket k)).get k = none → c.Delete k = some (c, false)) ∧
    (∀ item, (c.buckets (c.bucket k)).get k = some item →
      c.deletables.length < c.config.deleteBuffer →
      ∃ c1, c.Delete k = some (c1, true) ∧ c1.deletables = c.deletables ++ [item] ∧
        c1.promotables = c.promotables ∧ c1.items = c.items ∧
        (∀ t, c1.Get k t = some (c1, none)) ∧
        (∀ k2, k2 ≠ k →
          (c1.buckets (c1.bucket k2)).get k2 = (c.buckets (c.bucket k2)).get k2)) ∧
    (∀ c1 b, c.Delete k = some (c1, b) →
      (b = true ↔ ((c.buckets (c.bucket k)).get k).isSome = true)) := by
  refine ⟨c.Delete_absent k, ?_, fun c1 b h => Cache.Delete_true_iff c c1 k b h⟩
  intro item h hd
  refine ⟨_, c.Delete_present k item h hd, rfl, rfl, rfl, ?_, ?_⟩
  · intro t
    apply Cache.Get_of_absent
    simp only [Cache.bucket, Function.update_same]
    exact bucket_get_delete_self _ _
  · intro k2 hk
    exact c.lookup_after_delete k k2 hk

theorem layeredBucket_store_other (b : layeredBucket) (p p2 : String) (bkt : bucket)
    (hp : p2 ≠ p) : (b.store p bkt).getSecondaryBucket p2 = b.getSecondaryBucket p2 := by
  have h2 : ¬ p = p2 := fun h => hp h.symm
  simp only [layeredBucket.store, layeredBucket.getSecondaryBucket, List.find?_cons, h2,
    decide_False, assoc_find_filter_other _ _ _ hp]

theorem layeredBucket_get_store_same (b : layeredBucket) (p s : String) (bkt : bucket) :
    (b.store p bkt).get p s = bkt.get s := by
  simp only [layeredBucket.get, layeredBucket_store_same]

theorem layeredBucket_get_store_other (b : layeredBucket) (p p2 s : String) (bkt : bucket)
    (hp : p2 ≠ p) : (b.store p bkt).get p2 s = b.get p2 s := by
  simp only [layeredBucket.get, layeredBucket_store_other _ _ _ _ hp]

theorem layeredBucket_delete_snd (b : layeredBucket) (p s : String) :
    (b.delete p s).2 = b.get p s := by
  unfold layeredBucket.delete layeredBucket.get
  cases h : b.getSecondaryBucket p with
  | none => rfl
  | some bkt => simp [bucket.delete]

theorem layeredBucket_get_delete (b : layeredBucket) (p s p2 s2 : String) :
    (b.delete p s).1.get p2 s2 = if p2 = p ∧ s2 = s then none else b.get p2 s2 := by
  unfold layeredBucket.delete
  cases h : b.getSecondaryBucket p with
  | none =>
    simp only
    split
    · rename_i hc
      rw [hc.1, layeredBucket.get, h]
    · rfl
  | some bkt =>
    simp only
    by_cases hp : p2 = p
    · subst hp
      rw [layeredBucket_get_store_same]
      by_cases hs : s2 = s
      · subst hs
        simp [bucket_get_delete_self]
      · simp only [hs, and_false, if_false, layeredBucket.get, h]
        exact bucket_get_delete_other _ _ _ hs
    · simp only [hp, false_and, if_false]
      exact layeredBucket_get_store_other _ _ _ _ _ hp

theorem LayeredCache.layered_lookup_after_delete (c : LayeredCache) (p s p2 s2 : String) :
    (Function.update c.buckets (c.bucket p) ((c.buckets (c.bucket p)).delete p s).1
      (c.bucket p2)).get p2 s2 =
      if p2 = p ∧ s2 = s then none else (c.buckets (c.bucket p2)).get p2 s2 := by
  by_cases hb : c.bucket p2 = c.bucket p
  · rw [hb, Function.update_same, layeredBucket_get_delete]
  · rw [Function.update_noteq hb]
    have : ¬ (p2 = p ∧ s2 = s) := fun h => hb (by rw [h.1])
    simp only [this, if_false]

theorem LayeredCache.layered_Delete_spec (c : LayeredCache) (p s : String) :
    ((c.buckets (c.bucket p)).get p s = none →
      ∃ c1, c.Delete p s = some (c1, false) ∧ c1.deletables = c.deletables ∧
        c1.promotables = c.promotables ∧ c1.items = c.items ∧ c1.list = c.list ∧
        c1.size = c.size ∧
        (∀ p2 s2, (c1.buckets (c1.bucket p2)).get p2 s2 =
          (c.buckets (c.bucket p2)).get p2 s2)) ∧
    (∀ item, (c.buckets (c.bucket p)).get p s = some item →
      c.deletables.length < c.config.deleteBuffer →
      ∃ c1, c.Delete p s = some (c1, true) ∧ c1.deletables = c.deletables ++ [item] ∧
        c1.promotables = c.promotables ∧ c1.items = c.items ∧
        (∀ t, c1.Get p s t = some (c1, none)) ∧
        (∀ p2 s2, ¬ (p2 = p ∧ s2 = s) →
          (c1.buckets (c1.bucket p2)).get p2 s2 =
            (c.buckets (c.bucket p2)).get p2 s2)) ∧
    (∀ c1 b, c.Delete p s = some (c1, b) →
      (b = true ↔ ((c.buckets (c.bucket p)).get p s).isSome = true)) := by
  refine ⟨?_, ?_, ?_⟩
  · intro h
    refine ⟨{ c with
      buckets := Function.update c.buckets (c.bucket p) ((c.buckets (c.bucket p)).delete p s).1 },
      ?_, rfl, rfl, rfl, rfl, rfl, ?_⟩
    · simp only [LayeredCache.Delete, layeredBucket_delete_snd, h]
    · intro p2 s2
      simp only [LayeredCache.bucket]
      have := c.layered_lookup_after_delete p s p2 s2
      simp only [LayeredCache.bucket] at this
      rw [this]
      split
      · rename_i hc
        rw [hc.1, hc.2]
        simpa [LayeredCache.bucket] using h.symm
      · rfl
  · intro item h hd
    refine ⟨{ c with
      buckets := Function.update c.buckets (c.bucket p) ((c.buckets (c.bucket p)).delete p s).1
      deletables := c.deletables ++ [item] }, ?_, rfl, rfl, rfl, ?_, ?_⟩
    · simp only [LayeredCache.Delete, layeredBucket_delete_snd, h, send, hd, if_true,
        Option.map_some']
    · intro t
      apply LayeredCache.layered_Get_of_absent
      have := c.layered_lookup_after_delete p s p s
      simp only [LayeredCache.bucket] at this ⊢
      rw [this]
      simp
    · intro p2 s2 hne
      have := c.layered_lookup_after_delete p s p2 s2
      simp only [LayeredCache.bucket] at this ⊢
      rw [this, if_neg hne]
  · intro c1 b h
    unfold LayeredCache.Delete at h
    simp only [layeredBucket_delete_snd] at h
    cases hb : (c.buckets (c.bucket p)).get p s with
    | none =>
      simp only [hb, Option.some.injEq, Prod.mk.injEq] at h
      simp [← h.2]
    | some it =>
      simp only [hb, Option.map_eq_some'] at h
      obtain ⟨_, _, h2⟩ := h
      simp [← (Prod.mk.inj h2).2]

/-- C13: on the flat and on the layered cache, `Delete` of an absent key returns
false and leaves the cache as it was (on the layered cache: every lookup, the items
and the queues are as before); `Delete` of a present key, when the deletion channel
has room, returns true, appends exactly the removed item to the deletion queue,
leaves the promotion queue and the items unchanged, makes `Get` of the key absent
and leaves every other key mapped to the same item; whenever `Delete` returns, it
returns true exactly when the key had an entry. -/
theorem delete_removes_entry (c : Cache) (lc : LayeredCache) (k p s : String) :
    (((c.buckets (c.bucket k)).get k = none → c.Delete k = some (c, false)) ∧
      (∀ item, (c.buckets (c.bucket k)).get k = some item →
        c.deletables.length < c.config.deleteBuffer →
        ∃ c1, c.Delete k = some (c1, true) ∧ c1.deletables = c.deletables ++ [item] ∧
          c1.promotables = c.promotables ∧ c1.items = c.items ∧
          (∀ t, c1.Get k t = some (c1, none)) ∧
          (∀ k2, k2 ≠ k →
            (c1.buckets (c1.bucket k2)).get k2 = (c.buckets (c.bucket k2)).get k2)) ∧
      (∀ c1 b, c.Delete k = some (c1, b) →
        (b = true ↔ ((c.buckets (c.bucket k)).get k).isSome = true))) ∧
    (((lc.buckets (lc.bucket p)).get p s = none →
        ∃ c1, lc.Delete p s = some (c1, false) ∧ c1.deletables = lc.deletables ∧
          c1.promotables = lc.promotables ∧ c1.items = lc.items ∧ c1.list = lc.list ∧
          c1.size = lc.size ∧
          (∀ p2 s2, (c1.buckets (c1.bucket p2)).get p2 s2 =
            (lc.buckets (lc.bucket p2)).get p2 s2)) ∧
      (∀ item, (lc.buckets (lc.bucket p)).get p s = some item →
        lc.deletables.length < lc.config.deleteBuffer →
        ∃ c1, lc.Delete p s = some (c1, true) ∧ c1.deletables = lc.deletables ++ [item] ∧
          c1.promotables = lc.promotables ∧ c1.items = lc.items ∧
          (∀ t, c1.Get p s t = some (c1, none)) ∧
          (∀ p2 s2, ¬ (p2 = p ∧ s2 = s) →
            (c1.buckets (c1.bucket p2)).get p2 s2 =
              (lc.buckets (lc.bucket p2)).get p2 s2)) ∧
      (∀ c1 b, lc.Delete p s = some (c1, b) →
        (b = true ↔ ((lc.buckets (lc.bucket p)).get p s).isSome = true))) :=
  ⟨c.Delete_spec k, lc.layered_Delete_spec p s⟩
/-- The statement of C13 on caches holding one entry. -/
theorem delete_removes_entry_witness :
    (∃ c1, heldFlat.Delete "x" = some (c1, true) ∧
      c1.deletables = heldFlat.deletables ++ [0]) ∧
    (∃ c1, heldLayered.Delete "p" "x" = some (c1, true) ∧
      c1.deletables = heldLayered.deletables ++ [0]) :=
  have h := delete_removes_entry heldFlat heldLayered "x" "p" "x"
  ⟨let ⟨c1, h1, h2, _⟩ := h.1.2.1 0 (by decide) (by decide); ⟨c1, h1, h2⟩,
    let ⟨c1, h1, h2, _⟩ := h.2.2.1 0 (by decide) (by decide); ⟨c1, h1, h2⟩⟩

/-! ## `DeleteAll` -/

theorem deleteAllLoop_eq (cap : Nat) (entries : List (String × ItemId)) (bkt : bucket)
    (q : List ItemId) (h : q.length + entries.length ≤ cap) :
    deleteAllLoop cap entries bkt q =
      some ({ lookup := bkt.lookup.filter (fun e => decide (e.1 ∉ entries.map Prod.fst)) },
        q ++ entries.map Prod.snd) := by
  induction entries generalizing bkt q with
  | nil => simp [deleteAllLoop]
  | cons a rest ih =>
    obtain ⟨key, item⟩ := a
    have hq : q.length < cap := by simp only [List.length_cons] at h; omega
    simp only [deleteAllLoop, send, hq, if_true, Option.some_bind]
    rw [ih]
    · simp only [bucket.delete, List.filter_filter, List.map_cons, List.append_assoc,
        List.singleton_append, Option.some.injEq, Prod.mk.injEq, bucket.mk.injEq, and_true]
      congr 1
      funext e
      by_cases h1 : e.1 = key <;> simp [h1]
    · simp only [List.length_append, List.length_cons, List.length_nil] at h ⊢; omega

theorem deleteAllLoop_all (cap : Nat) (bkt : bucket) (q : List ItemId)
    (h : q.length + bkt.lookup.length ≤ cap) :
    deleteAllLoop cap bkt.lookup bkt q = some ({ lookup := [] }, q ++ bkt.lookup.map Prod.snd) := by
  rw [deleteAllLoop_eq cap bkt.lookup bkt q h]
  have : bkt.lookup.filter (fun e => decide (e.1 ∉ bkt.lookup.map Prod.fst)) = [] := by
    apply List.filter_eq_nil_iff.mpr
    intro a ha
    simp only [decide_eq_true_eq, not_not]
    exact List.mem_map_of_mem _ ha
  rw [this]

theorem bucket_get_empty (key : String) : ({ lookup := [] } : bucket).get key = none := rfl

theorem LayeredCache.layered_DeleteAll_spec (c : LayeredCache) (p : String)
    (h : c.deletables.length + (c.entriesOf p).length ≤ c.config.deleteBuffer) :
    ∃ c1, c.DeleteAll p = some (c1, decide (c.entriesOf p ≠ [])) ∧
      c1.deletables = c.deletables ++ (c.entriesOf p).map Prod.snd ∧
      c1.promotables = c.promotables ∧ c1.items = c.items ∧
      (∀ s t, c1.Get p s t = some (c1, none)) ∧
      (∀ p2 s2, p2 ≠ p →
        (c1.buckets (c1.bucket p2)).get p2 s2 = (c.buckets (c.bucket p2)).get p2 s2) ∧
      (c.entriesOf p = [] → c1 = c) := by
  unfold LayeredCache.entriesOf at h ⊢
  cases hb : (c.buckets (c.bucket p)).getSecondaryBucket p with
  | none =>
    refine ⟨c, ?_, by simp, rfl, rfl, ?_, fun _ _ _ => rfl, fun _ => rfl⟩
    · simp [LayeredCache.DeleteAll, layeredBucket.deleteAll, hb]
    · intro s t
      apply LayeredCache.layered_Get_of_absent
      simp [layeredBucket.get, hb]
  | some bkt =>
    simp only [hb] at h
    by_cases hl : bkt.lookup = []
    · refine ⟨c, ?_, by simp [hl], rfl, rfl, ?_, fun _ _ _ => rfl, fun _ => rfl⟩
      · simp [LayeredCache.DeleteAll, layeredBucket.deleteAll, hb, hl]
      · intro s t
        apply LayeredCache.layered_Get_of_absent
        simp [layeredBucket.get, hb, bucket.get, hl]
    · have hlen : ¬ bkt.lookup.length = 0 := fun h0 => hl (List.length_eq_zero.mp h0)
      refine ⟨{ c with
        buckets := Function.update c.buckets (c.bucket p)
            ((c.buckets (c.bucket p)).store p { lookup := [] })
        deletables := c.deletables ++ bkt.lookup.map Prod.snd }, ?_, rfl, rfl, rfl, ?_, ?_, ?_⟩
      · simp [LayeredCache.DeleteAll, layeredBucket.deleteAll, hb, hlen,
          deleteAllLoop_all _ bkt c.deletables h, hl]
      · intro s t
        apply LayeredCache.layered_Get_of_absent
        simp only [LayeredCache.bucket, Function.update_same, layeredBucket_get_store_same]
        rfl
      · intro p2 s2 hp
        simp only [LayeredCache.bucket]
        by_cases hidx : Nat.land (fnv32a p2) c.bucketMask = Nat.land (fnv32a p) c.bucketMask
        · rw [hidx, Function.update_same, layeredBucket_get_store_other _ _ _ _ _ hp]
        · rw [Function.update_noteq hidx]
      · intro h0
        exact absurd h0 hl

/-- C14: on every layered cache whose deletion channel has room for the entries
stored under the primary key `p`, `DeleteAll(p)` returns, and it returns true
exactly when `p` had at least one entry; afterwards `Get(p, s)` is absent for every
secondary key `s`, the deletion queue holds in addition the items that were stored
under `p`, one event per entry, the promotion queue and the items are unchanged and
every entry under another primary key is unchanged; when `p` had no entry the whole
cache is unchanged. -/
theorem delete_all_under_primary (c : LayeredCache) (p : String)
    (h : c.deletables.length + (c.entriesOf p).length ≤ c.config.deleteBuffer) :
    ∃ c1, c.DeleteAll p = some (c1, decide (c.entriesOf p ≠ [])) ∧
      c1.deletables = c.deletables ++ (c.entriesOf p).map Prod.snd ∧
      c1.promotables = c.promotables ∧ c1.items = c.items ∧
      (∀ s t, c1.Get p s t = some (c1, none)) ∧
      (∀ p2 s2, p2 ≠ p →
        (c1.buckets (c1.bucket p2)).get p2 s2 = (c.buckets (c.bucket p2)).get p2 s2) ∧
      (c.entriesOf p = [] → c1 = c) :=
  c.layered_DeleteAll_spec p h

/-- The statement of C14 on a layered cache holding three entries under "p". -/
theorem delete_all_under_primary_witness :
    layeredThreeKeys.deletables.length + (layeredThreeKeys.entriesOf "p").length ≤
        layeredThreeKeys.config.deleteBuffer ∧
    (layeredThreeKeys.entriesOf "p").map Prod.snd = [2, 1, 0] ∧
    decide (layeredThreeKeys.entriesOf "p" ≠ []) = true ∧
    ∃ c1, layeredThreeKeys.DeleteAll "p" =
        some (c1, decide (layeredThreeKeys.entriesOf "p" ≠ [])) ∧
      c1.deletables =
        layeredThreeKeys.deletables ++ (layeredThreeKeys.entriesOf "p").map Prod.snd ∧
      ∀ s t, c1.Get "p" s t = some (c1, none) :=
  ⟨by decide, by decide, by decide,
    let ⟨c1, h1, h2, _, _, h3, _⟩ := delete_all_under_primary layeredThreeKeys "p" (by decide)
    ⟨c1, h1, h2, h3⟩⟩

/-! ## The request header of the RPC server -/

namespace Rpc

theorem lastIndexDot_append (s m : List Char) (hm : '.' ∉ m) :
    lastIndexDot (s ++ '.' :: m) = some s.length := by
  have hm2 : lastIndexDot m = none := by
    induction m with
    | nil => rfl
    | cons x xs ih =>
      have hx : ¬ x = '.' := fun h => hm (by simp [h])
      have hxs : '.' ∉ xs := fun h => hm (List.mem_cons_of_mem _ h)
      simp [lastIndexDot, ih hxs, hx]
  induction s with
  | nil => simp [lastIndexDot, hm2]
  | cons x xs ih => simp [lastIndexDot, ih]

/-- What `readRequestHeader` does with a request for the method `M` of a registered
service `S`: the service name is the text before the last dot, but the method name
it looks up is the text from the last dot on, dot included; no method name starts
with a dot, so the lookup fails. -/
theorem Server.readRequestHeader_dotted (server : Server) (S M : String) (seq : Nat)
    (svc : service) (hM : '.' ∉ M.data) (hsvc : server.load S = some svc)
    (hkeys : svc.lookup ("." ++ M) = none) :
    server.readRequestHeader (Except.ok ⟨S ++ "." ++ M, seq⟩) =
      { svc := some svc, mtype := none, req := some ⟨S ++ "." ++ M, seq⟩, keepReading := true,
        err := some (Sum.inr ("rpc: can\x27t find method " ++ (S ++ "." ++ M))) } := by
  have hdata : (S ++ "." ++ M).data = S.data ++ '.' :: M.data := by
    simp [String.data_append]
  have htake : String.mk ((S ++ "." ++ M).data.take S.data.length) = S := by
    rw [hdata, List.take_left']
    rfl
  have hdrop : String.mk ((S ++ "." ++ M).data.drop S.data.length) = "." ++ M := by
    rw [hdata, List.drop_left']
    · apply String.ext
      simp [String.data_append]
    · rfl
  simp only [Server.readRequestHeader, hdata, lastIndexDot_append _ _ hM]
  rw [← hdata, htake, hdrop, hsvc]
  simp only [hkeys]

/-- C15, the code at the failing input: on a server where the service "Arith" is
registered with the method "Add", `readRequestHeader` of a request whose
ServiceMethod is "Arith.Add" finds the service but returns no methodType and the
error "can't find method": it looks the method up under the name ".Add". -/
theorem request_method_not_found :
    arithServer.load "Arith" =
        some { name := "Arith", method := [("Add", ⟨"Add"⟩), ("Mul", ⟨"Mul"⟩)] } ∧
    (arithServer.load "Arith").bind (fun svc => svc.lookup "Add") = some ⟨"Add"⟩ ∧
    arithServer.readRequestHeader (Except.ok ⟨"Arith.Add", 1⟩) =
      { svc := some { name := "Arith", method := [("Add", ⟨"Add"⟩), ("Mul", ⟨"Mul"⟩)] },
        mtype := none, req := some ⟨"Arith.Add", 1⟩, keepReading := true,
        err := some (Sum.inr "rpc: can\x27t find method Arith.Add") } := by
  decide

end Rpc

/-! ## The bucket count -/

theorem land_complement (n y : Nat) (hy : y < 2 ^ n) : y &&& (2 ^ n - (y + 1)) = 0 := by
  apply Nat.eq_of_testBit_eq
  intro i
  simp only [Nat.testBit_and, Nat.testBit_two_pow_sub_succ hy, Nat.zero_testBit]
  cases y.testBit i <;> simp

theorem land_double (y z : Nat) : (2 * y) &&& (2 * z) = 2 * (y &&& z) := by
  have := Nat.land_bit false y false z
  simpa [Nat.bit_val] using this

theorem land_double_succ (y z : Nat) : (2 * y + 1) &&& (2 * z + 1) = 2 * (y &&& z) + 1 := by
  have := Nat.land_bit true y true z
  simpa [Nat.bit_val] using this

theorem pow_two_of_land_neg (n x : Nat) (h0 : 0 < x) (hx : x < 2 ^ n)
    (h : x &&& (2 ^ n - x) = x) : ∃ k, x = 2 ^ k := by
  induction n generalizing x with
  | zero => simp at hx; omega
  | succ n ih =>
    have hpow : 2 ^ (n + 1) = 2 * 2 ^ n := by rw [pow_succ]; omega
    rcases Nat.mod_two_eq_zero_or_one x with hpar | hpar
    · obtain ⟨y, rfl⟩ : ∃ y, x = 2 * y := ⟨x / 2, by omega⟩
      have hz : 2 ^ (n + 1) - 2 * y = 2 * (2 ^ n - y) := by omega
      rw [hz, land_double] at h
      have h2 : y &&& (2 ^ n - y) = y := by omega
      obtain ⟨k, hk⟩ := ih y (by omega) (by omega) h2
      exact ⟨k + 1, by rw [hk, pow_succ]; omega⟩
    · obtain ⟨y, rfl⟩ : ∃ y, x = 2 * y + 1 := ⟨x / 2, by omega⟩
      have hz : 2 ^ (n + 1) - (2 * y + 1) = 2 * (2 ^ n - (y + 1)) + 1 := by omega
      rw [hz, land_double_succ, land_complement n y (by omega)] at h
      exact ⟨0, by omega⟩

theorem land_neg_of_pow_two (k : Nat) (hk : k < 32) : 2 ^ k &&& (2 ^ 32 - 2 ^ k) = 2 ^ k := by
  interval_cases k <;> rfl

/-- C16: for every `uint32` count, `Buckets(count)` sets the bucket count to `count`
when `count` is a power of two and to 16 in every other case (0 included); hence
the configured bucket count is always a power of two. -/
theorem buckets_power_of_two (c : Configuration) (count : Nat) (h : count < 2 ^ 32) :
    ((∃ k, count = 2 ^ k) → (c.Buckets count).buckets = count) ∧
    ((¬ ∃ k, count = 2 ^ k) → (c.Buckets count).buckets = 16) ∧
    (∃ k, (c.Buckets count).buckets = 2 ^ k) := by
  have hmod : count % 2 ^ 32 = count := Nat.mod_eq_of_lt h
  by_cases h0 : count = 0
  · subst h0
    refine ⟨fun ⟨k, hk⟩ => ?_, fun _ => by simp [Configuration.Buckets], ⟨4, by
      simp [Configuration.Buckets]⟩⟩
    exact absurd hk.symm (by positivity)
  · have hneg : (2 ^ 32 - 1 - count + 1) % 2 ^ 32 = 2 ^ 32 - count := by omega
    by_cases hl : Nat.land count (2 ^ 32 - count) = count
    · have hb : (c.Buckets count).buckets = count := by
        simp only [Configuration.Buckets, hmod, hneg, h0, hl, false_or, not_true_eq_false,
          if_false]
      obtain ⟨k, hk⟩ := pow_two_of_land_neg 32 count (by omega) h hl
      exact ⟨fun _ => hb, fun hn => absurd ⟨k, hk⟩ hn, ⟨k, by rw [hb, hk]⟩⟩
    · have hb : (c.Buckets count).buckets = 16 := by
        simp only [Configuration.Buckets, hmod, hneg, h0, hl, false_or, not_false_eq_true,
          if_true]
      refine ⟨fun ⟨k, hk⟩ => ?_, fun _ => hb, ⟨4, by rw [hb]; rfl⟩⟩
      have hk32 : k < 32 := by
        rw [hk] at h
        exact (Nat.pow_lt_pow_iff_right (by decide)).mp h
      exact absurd (by rw [hk]; exact land_neg_of_pow_two k hk32) hl

/-- The statement of C16 for the counts 8 and 12. -/
theorem buckets_power_of_two_witness :
    (8 < 2 ^ 32 ∧ 12 < 2 ^ 32) ∧ (Configure.Buckets 8).buckets = 8 ∧
      (Configure.Buckets 12).buckets = 16 :=
  ⟨by decide, (buckets_power_of_two Configure 8 (by decide)).1 ⟨3, rfl⟩,
    (buckets_power_of_two Configure 12 (by decide)).2.1 (by
      rintro ⟨k, hk⟩
      have hk4 : k < 4 := by
        by_contra hge
        have : 2 ^ 4 ≤ 2 ^ k := Nat.pow_le_pow_right (by decide) (by omega)
        omega
      interval_cases k <;> omega)⟩

/-! ## The sentinel -/

theorem Cache.doPromote_sentinel (c : Cache) (x : ItemId) (h : (c.items x).promotions = -2) :
    c.doPromote x = (c, false) := by
  simp [Cache.doPromote, h]

theorem Cache.doPromote_items_other (c : Cache) (y x : ItemId) (hne : x ≠ y) :
    ((c.doPromote y).1).items x = c.items x := by
  unfold Cache.doPromote
  dsimp only
  split_ifs <;> simp [Function.update_noteq hne]

theorem Cache.doPromote_keeps_sentinel (c : Cache) (x y : ItemId)
    (h : (c.items x).promotions = -2) : (((c.doPromote y).1).items x).promotions = -2 := by
  by_cases hxy : y = x
  · subst hxy
    rw [Cache.doPromote_sentinel c y h]
    exact h
  · have hne : x ≠ y := fun h2 => hxy h2.symm
    rw [Cache.doPromote_items_other c y x hne]
    exact h

theorem Cache.doDelete_keeps_sentinel (c : Cache) (x y : ItemId)
    (h : (c.items x).promotions = -2) : ((c.doDelete y).items x).promotions = -2 := by
  unfold Cache.doDelete
  split
  · by_cases hxy : x = y
    · subst hxy; simp
    · simp only [Function.update_noteq hxy]; exact h
  · exact h

theorem Cache.gc_keeps_sentinel (c : Cache) (x : ItemId) (h : (c.items x).promotions = -2) :
    (c.gc.items x).promotions = -2 := by
  rw [Cache.gc_items]
  split
  · rfl
  · exact h

theorem Cache.workerStep_keeps_sentinel (c c1 : Cache) (x : ItemId) (e : WorkerEvent)
    (h : (c.items x).promotions = -2) (hs : c.workerStep e = some c1) :
    (c1.items x).promotions = -2 := by
  cases e with
  | promotion =>
    simp only [Cache.workerStep, Cache.workerPromote] at hs
    cases hq : c.promotables with
    | nil => simp [hq] at hs
    | cons y rest =>
      simp only [hq] at hs
      have hk := Cache.doPromote_keeps_sentinel { c with promotables := rest } x y h
      split at hs
      · rw [← Option.some.inj hs]
        exact Cache.gc_keeps_sentinel _ x hk
      · rw [← Option.some.inj hs]
        exact hk
  | deletion =>
    simp only [Cache.workerStep, Cache.workerDelete] at hs
    cases hq : c.deletables with
    | nil => simp [hq] at hs
    | cons y rest =>
      simp only [hq] at hs
      rw [← Option.some.inj hs]
      exact Cache.doDelete_keeps_sentinel { c with deletables := rest } x y h

theorem Cache.workerRun_keeps_sentinel (es : List WorkerEvent) (c c1 : Cache) (x : ItemId)
    (h : (c.items x).promotions = -2) (hs : c.workerRun es = some c1) :
    (c1.items x).promotions = -2 := by
  induction es generalizing c with
  | nil =>
    simp only [Cache.workerRun] at hs
    rw [← Option.some.inj hs]; exact h
  | cons e es ih =>
    simp only [Cache.workerRun] at hs
    cases hstep : c.workerStep e with
    | none => simp [hstep] at hs
    | some c2 =>
      simp only [hstep, Option.some_bind] at hs
      exact ih c2 (Cache.workerStep_keeps_sentinel c c2 x e h hstep) hs

theorem Cache.workerDelete_sentinel (c : Cache) (x : ItemId) (rest : List ItemId)
    (hq : c.deletables = x :: rest) (he : (c.items x).element = false) :
    ∃ c1, c.workerDelete = some c1 ∧ (c1.items x).promotions = -2 ∧ c1.list = c.list ∧
      c1.size = c.size ∧ c1.buckets = c.buckets ∧ c1.onDeleteCalls = c.onDeleteCalls ∧
      c1.deletables = rest ∧
      c1.doPromote x = (c1, false) ∧
      ∀ es c2, c1.workerRun es = some c2 → c2.doPromote x = (c2, false) := by
  refine ⟨_, c.workerDelete_unlinked x rest hq he, ?_, rfl, rfl, rfl, rfl, rfl, ?_, ?_⟩
  · simp
  · apply Cache.doPromote_sentinel; simp
  · intro es c2 hrun
    apply Cache.doPromote_sentinel
    exact Cache.workerRun_keeps_sentinel es _ c2 x (by simp) hrun

theorem LayeredCache.layered_doPromote_sentinel (c : LayeredCache) (x : ItemId)
    (h : (c.items x).promotions = -2) : c.doPromote x = (c, false) := by
  simp [LayeredCache.doPromote, h]

theorem LayeredCache.layered_doPromote_items_other (c : LayeredCache) (y x : ItemId) (hne : x ≠ y) :
    ((c.doPromote y).1).items x = c.items x := by
  unfold LayeredCache.doPromote
  dsimp only
  split_ifs <;> simp [Function.update_noteq hne]

theorem LayeredCache.layered_doPromote_keeps_sentinel (c : LayeredCache) (x y : ItemId)
    (h : (c.items x).promotions = -2) : (((c.doPromote y).1).items x).promotions = -2 := by
  by_cases hxy : y = x
  · subst hxy
    rw [LayeredCache.layered_doPromote_sentinel c y h]
    exact h
  · have hne : x ≠ y := fun h2 => hxy h2.symm
    rw [LayeredCache.layered_doPromote_items_other c y x hne]
    exact h

theorem LayeredCache.layered_gc_keeps_sentinel (c : LayeredCache) (x : ItemId)
    (h : (c.items x).promotions = -2) : (c.gc.items x).promotions = -2 := by
  rw [LayeredCache.layered_gc_items]
  split
  · rfl
  · exact h

theorem LayeredCache.layered_workerStep_keeps_sentinel (c c1 : LayeredCache) (x : ItemId)
    (e : WorkerEvent) (h : (c.items x).promotions = -2) (hs : c.workerStep e = some c1) :
    (c1.items x).promotions = -2 := by
  cases e with
  | promotion =>
    simp only [LayeredCache.workerStep, LayeredCache.workerPromote] at hs
    cases hq : c.promotables with
    | nil => simp [hq] at hs
    | cons y rest =>
      simp only [hq] at hs
      have hk := LayeredCache.layered_doPromote_keeps_sentinel { c with promotables := rest } x y h
      split at hs
      · rw [← Option.some.inj hs]
        exact LayeredCache.layered_gc_keeps_sentinel _ x hk
      · rw [← Option.some.inj hs]
        exact hk
  | deletion =>
    simp only [LayeredCache.workerStep, LayeredCache.workerDelete] at hs
    cases hq : c.deletables with
    | nil => simp [hq] at hs
    | cons y rest =>
      simp only [hq] at hs
      split at hs
      · rw [← Option.some.inj hs]
        by_cases hxy : x = y
        · subst hxy; simp
        · simp only [Function.update_noteq hxy]; exact h
      · rw [← Option.some.inj hs]
        exact h

theorem LayeredCache.layered_workerRun_keeps_sentinel (es : List WorkerEvent)
    (c c1 : LayeredCache) (x : ItemId)
    (h : (c.items x).promotions = -2) (hs : c.workerRun es = some c1) :
    (c1.items x).promotions = -2 := by
  induction es generalizing c with
  | nil =>
    simp only [LayeredCache.workerRun] at hs
    rw [← Option.some.inj hs]; exact h
  | cons e es ih =>
    simp only [LayeredCache.workerRun] at hs
    cases hstep : c.workerStep e with
    | none => simp [hstep] at hs
    | some c2 =>
      simp only [hstep, Option.some_bind] at hs
      exact ih c2 (LayeredCache.layered_workerStep_keeps_sentinel c c2 x e h hstep) hs

theorem LayeredCache.layered_workerDelete_sentinel (c : LayeredCache) (x : ItemId)
    (rest : List ItemId) (hq : c.deletables = x :: rest) (he : (c.items x).element = false) :
    ∃ c1, c.workerDelete = some c1 ∧ (c1.items x).promotions = -2 ∧ c1.list = c.list ∧
      c1.size = c.size ∧ c1.buckets = c.buckets ∧ c1.onDeleteCalls = c.onDeleteCalls ∧
      c1.deletables = rest ∧
      c1.doPromote x = (c1, false) ∧
      ∀ es c2, c1.workerRun es = some c2 → c2.doPromote x = (c2, false) := by
  have hw : c.workerDelete = some
      { c with
        deletables := rest
        items := Function.update c.items x { c.items x with promotions := -2 } } := by
    simp [LayeredCache.workerDelete, hq, he]
  refine ⟨_, hw, ?_, rfl, rfl, rfl, rfl, rfl, ?_, ?_⟩
  · simp
  · apply LayeredCache.layered_doPromote_sentinel; simp
  · intro es c2 hrun
    apply LayeredCache.layered_doPromote_sentinel
    exact LayeredCache.layered_workerRun_keeps_sentinel es _ c2 x (by simp) hrun

/-- C17: on the flat and on the layered cache, when the worker receives the deletion
of an item that has no list position, the item is marked with the sentinel -2 and
the list, the total size, the shard maps and the callback log are unchanged; from
then on, after any further events processed by the worker, `doPromote` of that item
returns false and leaves the whole cache unchanged. -/
theorem deleted_before_promotion_is_inert (c : Cache) (lc : LayeredCache) (x y : ItemId)
    (rest lrest : List ItemId)
    (hq : c.deletables = x :: rest) (he : (c.items x).element = false)
    (hlq : lc.deletables = y :: lrest) (hle : (lc.items y).element = false) :
    (∃ c1, c.workerDelete = some c1 ∧ (c1.items x).promotions = -2 ∧ c1.list = c.list ∧
      c1.size = c.size ∧ c1.buckets = c.buckets ∧ c1.onDeleteCalls = c.onDeleteCalls ∧
      c1.deletables = rest ∧
      c1.doPromote x = (c1, false) ∧
      ∀ es c2, c1.workerRun es = some c2 → c2.doPromote x = (c2, false)) ∧
    (∃ c1, lc.workerDelete = some c1 ∧ (c1.items y).promotions = -2 ∧ c1.list = lc.list ∧
      c1.size = lc.size ∧ c1.buckets = lc.buckets ∧ c1.onDeleteCalls = lc.onDeleteCalls ∧
      c1.deletables = lrest ∧
      c1.doPromote y = (c1, false) ∧
      ∀ es c2, c1.workerRun es = some c2 → c2.doPromote y = (c2, false)) :=
  ⟨c.workerDelete_sentinel x rest hq he, lc.layered_workerDelete_sentinel y lrest hlq hle⟩
/-- The statement of C17 on caches where a key was set and deleted before the worker
processed anything. -/
theorem deleted_before_promotion_is_inert_witness :
    (deletedFlat.deletables = 0 :: [] ∧ (deletedFlat.items 0).element = false ∧
      deletedLayered.deletables = 0 :: [] ∧ (deletedLayered.items 0).element = false) ∧
    (∃ c1, deletedFlat.workerDelete = some c1 ∧ (c1.items 0).promotions = -2 ∧
      c1.list = deletedFlat.list) ∧
    (∃ c1, deletedLayered.workerDelete = some c1 ∧ (c1.items 0).promotions = -2 ∧
      c1.list = deletedLayered.list) :=
  have h := deleted_before_promotion_is_inert deletedFlat deletedLayered 0 0 [] []
    (by decide) (by decide) (by decide) (by decide)
  ⟨by decide, let ⟨c1, h1, h2, h3, _⟩ := h.1; ⟨c1, h1, h2, h3⟩,
    let ⟨c1, h1, h2, h3, _⟩ := h.2; ⟨c1, h1, h2, h3⟩⟩

/-! ## The list position of a deleted item -/

/-- C18, the code at the failing input: a key is set, the worker processes its
promotion (the item is linked, its size counted), the key is deleted and the worker
processes the deletion: the item is unlinked and its size is no longer counted, but
its `element` field is still non-nil.  The same holds on the layered cache. -/
theorem deleted_item_keeps_element :
    unlinkedFlat.map (fun c => ((c.items 0).element, c.list, c.size, c.deletables)) =
      some (true, [], 0, []) ∧
    unlinkedLayered.map (fun c => ((c.items 0).element, c.list, c.size, c.deletables)) =
      some (true, [], 0, []) :=
  ⟨by decide, by decide⟩

/-! ## The invariant of the executions of the flat cache -/

theorem bucket_get_mem (b : bucket) (key : String) (item : ItemId) (h : b.get key = some item) :
    ∃ e ∈ b.lookup, e.2 = item := by
  simp only [bucket.get, Option.map_eq_some'] at h
  obtain ⟨e, he, h2⟩ := h
  exact ⟨e, List.mem_of_find?_eq_some he, h2⟩

theorem Cache.set_some_eq (c : Cache) (k : String) (v : Value) (d now : Int)
    (r : Cache × ItemId) (h : c.set k v d now = some r) :
    r = (c.afterSet k v d now, c.nextItem) := by
  unfold Cache.set at h
  unfold Cache.afterSet
  cases hb : (c.buckets (c.bucket k)).get k with
  | none =>
    simp only [bucket.set, hb, Option.some_bind, Cache.promote, send, Option.map_eq_some'] at h
    obtain ⟨c4, ⟨q, hq, hc4⟩, h2⟩ := h
    split at hq
    · rw [← h2, ← hc4, ← Option.some.inj hq]
      simp [bucket.set]
    · exact absurd hq (by simp)
  | some e =>
    simp only [bucket.set, hb, send, Option.bind_eq_some, Option.map_eq_some',
      Cache.promote] at h
    obtain ⟨c3, ⟨q, hq, hc3⟩, c4, ⟨q2, hq2, hc4⟩, h2⟩ := h
    split at hq
    · split at hq2
      · rw [← h2, ← hc4, ← Option.some.inj hq2, ← hc3, ← Option.some.inj hq]
        simp [bucket.set]
      · exact absurd hq2 (by simp)
    · exact absurd hq (by simp)

theorem Cache.Linked_afterSet (c : Cache) (k : String) (v : Value) (d now : Int)
    (h : c.Linked) : (c.afterSet k v d now).Linked := by
  obtain ⟨h1, h2, h3, h4⟩ := h
  have hn : (c.afterSet k v d now).nextItem = c.nextItem + 1 := rfl
  refine ⟨h1, ?_, ?_, ?_⟩
  · intro x hx
    have hx2 := h2 x hx
    have hne : x ≠ c.nextItem := Nat.ne_of_lt hx2.2
    rw [hn]
    simp only [Cache.afterSet, Function.update_noteq hne]
    exact ⟨hx2.1, Nat.lt_succ_of_lt hx2.2⟩
  · intro x hx
    rw [hn]
    simp only [Cache.afterSet, List.mem_append, List.mem_singleton] at hx
    rcases hx with hx | hx
    · exact Nat.lt_succ_of_lt (h3 x hx)
    · rw [hx]; exact Nat.lt_succ_self _
  · intro i e he
    rw [hn]
    simp only [Cache.afterSet] at he
    by_cases hi : i = c.bucket k
    · subst hi
      simp only [Function.update_same, bucket.set, List.mem_cons] at he
      rcases he with he | he
      · rw [he]; exact Nat.lt_succ_self _
      · exact Nat.lt_succ_of_lt (h4 _ e (List.mem_of_mem_filter he))
    · rw [Function.update_noteq hi] at he
      exact Nat.lt_succ_of_lt (h4 i e he)

theorem Cache.Linked_Set (c c1 : Cache) (k : String) (v : Value) (d now : Int)
    (h : c.Linked) (hs : c.Set k v d now = some c1) : c1.Linked := by
  simp only [Cache.Set, Option.map_eq_some'] at hs
  obtain ⟨r, hr, h2⟩ := hs
  rw [← h2, Cache.set_some_eq c k v d now r hr]
  exact Cache.Linked_afterSet c k v d now h

theorem Cache.Linked_Get (c c1 : Cache) (k : String) (now : Int) (r : Option ItemId)
    (h : c.Linked) (hs : c.Get k now = some (c1, r)) : c1.Linked := by
  obtain ⟨hr, hc⟩ := Cache.Get_cases c c1 k now r hs
  rcases hc with rfl | ⟨item, hit, _, rfl⟩
  · exact h
  · obtain ⟨h1, h2, h3, h4⟩ := h
    refine ⟨h1, h2, ?_, h4⟩
    intro x hx
    simp only [List.mem_append, List.mem_singleton] at hx
    rcases hx with hx | hx
    · exact h3 x hx
    · rw [hit] at hr
      obtain ⟨e, he, h5⟩ := bucket_get_mem _ _ _ hr.symm
      have := h4 _ e he
      rw [hx, ← h5]; exact this

theorem Cache.Linked_TrackingGet (c c1 : Cache) (k : String) (now : Int) (r : Option ItemId)
    (h : c.Linked) (hs : c.TrackingGet k now = some (c1, r)) : c1.Linked := by
  simp only [Cache.TrackingGet, Option.map_eq_some'] at hs
  obtain ⟨⟨cg, og⟩, hg, h2⟩ := hs
  have hl := Cache.Linked_Get c cg k now og h hg
  cases og with
  | none =>
    simp only [Prod.mk.injEq] at h2
    rw [← h2.1]; exact hl
  | some item =>
    simp only [Prod.mk.injEq] at h2
    rw [← h2.1]
    obtain ⟨h1, h3, h4, h5⟩ := hl
    refine ⟨h1, ?_, h4, h5⟩
    intro x hx
    have := h3 x hx
    by_cases hxi : x = item
    · subst hxi
      simp only [Function.update_same, Item.track]
      exact this
    · simp only [Function.update_noteq hxi]
      exact this

theorem Cache.Linked_Replace (c c1 : Cache) (k : String) (v : Value) (now now2 : Int) (b : Bool)
    (h : c.Linked) (hs : c.Replace k v now now2 = some (c1, b)) : c1.Linked := by
  unfold Cache.Replace at hs
  cases hb : (c.buckets (c.bucket k)).get k with
  | none =>
    simp only [hb, Option.some.injEq, Prod.mk.injEq] at hs
    rw [← hs.1]; exact h
  | some item =>
    simp only [hb, Option.map_eq_some'] at hs
    obtain ⟨c2, hset, h2⟩ := hs
    rw [← (Prod.mk.inj h2).1]
    exact Cache.Linked_Set c c2 k v _ now2 h hset

theorem Cache.Linked_Delete (c c1 : Cache) (k : String) (b : Bool)
    (h : c.Linked) (hs : c.Delete k = some (c1, b)) : c1.Linked := by
  obtain ⟨h1, h2, h3, h4⟩ := h
  have hb : ∀ i, ∀ e ∈ (Function.update c.buckets (c.bucket k)
      ((c.buckets (c.bucket k)).delete k).1 i).lookup, e.2 < c.nextItem := by
    intro i e he
    by_cases hi : i = c.bucket k
    · subst hi
      simp only [Function.update_same, bucket.delete] at he
      exact h4 _ e (List.mem_of_mem_filter he)
    · rw [Function.update_noteq hi] at he
      exact h4 i e he
  unfold Cache.Delete at hs
  cases hg : ((c.buckets (c.bucket k)).delete k).2 with
  | none =>
    simp only [hg, Option.some.injEq, Prod.mk.injEq] at hs
    rw [← hs.1]
    exact ⟨h1, h2, h3, hb⟩
  | some item =>
    simp only [hg, Option.map_eq_some'] at hs
    obtain ⟨q, _, h5⟩ := hs
    rw [← (Prod.mk.inj h5).1]
    exact ⟨h1, h2, h3, hb⟩

theorem Cache.Linked_doPromote (c : Cache) (y : ItemId) (h : c.Linked) (hy : y < c.nextItem) :
    ((c.doPromote y).1).Linked := by
  obtain ⟨h1, h2, h3, h4⟩ := h
  unfold Cache.doPromote
  dsimp only
  split_ifs with hs he hp
  · exact ⟨h1, h2, h3, h4⟩
  · refine ⟨?_, ?_, h3, h4⟩
    · simp only [listMoveToFront]
      split_ifs with hm
      · exact List.nodup_cons.mpr ⟨fun hmem => ((List.Nodup.mem_erase_iff h1).mp hmem).1 rfl,
          h1.erase y⟩
      · exact h1
    · intro x hx
      have hx2 : x ∈ c.list := by
        simp only [listMoveToFront] at hx
        split_ifs at hx with hm
        · rcases List.mem_cons.mp hx with rfl | hx
          · exact hm
          · exact List.mem_of_mem_erase hx
        · exact hx
      have := h2 x hx2
      by_cases hxy : x = y
      · subst hxy
        simp only [Function.update_same, Item.shouldPromote]
        exact this
      · simp only [Function.update_noteq hxy]
        exact this
  · refine ⟨h1, ?_, h3, h4⟩
    intro x hx
    have := h2 x hx
    by_cases hxy : x = y
    · subst hxy
      simp only [Function.update_same, Item.shouldPromote]
      exact this
    · simp only [Function.update_noteq hxy]
      exact this
  · have hny : y ∉ c.list := fun hm => he (h2 y hm).1
    refine ⟨?_, ?_, h3, h4⟩
    · simp only [listPushFront]
      exact List.nodup_cons.mpr ⟨hny, h1⟩
    · intro x hx
      simp only [listPushFront, List.mem_cons] at hx
      rcases hx with rfl | hx
      · simp only [Function.update_same]
        exact ⟨trivial, hy⟩
      · have := h2 x hx
        have hxy : x ≠ y := fun hxy => hny (hxy ▸ hx)
        simp only [Function.update_noteq hxy]
        exact this

theorem Cache.Linked_doDelete (c : Cache) (y : ItemId) (h : c.Linked) : (c.doDelete y).Linked := by
  obtain ⟨h1, h2, h3, h4⟩ := h
  unfold Cache.doDelete
  by_cases he : (c.items y).element = false
  · rw [if_pos he]
    refine ⟨h1, ?_, h3, h4⟩
    intro x hx
    have := h2 x hx
    by_cases hxy : x = y
    · subst hxy
      simp only [Function.update_same]
      exact this
    · simp only [Function.update_noteq hxy]
      exact this
  · rw [if_neg he]
    refine ⟨h1.erase y, ?_, h3, h4⟩
    intro x hx
    exact h2 x (List.mem_of_mem_erase hx)

theorem Cache.gcLoop_nextItem (n : Nat) (p k : List ItemId) (c : Cache) :
    (Cache.gcLoop n p k c).nextItem = c.nextItem := by
  induction n generalizing p k c with
  | zero => rfl
  | succ n ih =>
    cases p with
    | nil => rfl
    | cons e prev =>
      unfold Cache.gcLoop
      split
      · rw [ih]; rfl
      · rw [ih]

theorem Cache.gcLoop_promotables (n : Nat) (p k : List ItemId) (c : Cache) :
    (Cache.gcLoop n p k c).promotables = c.promotables := by
  induction n generalizing p k c with
  | zero => rfl
  | succ n ih =>
    cases p with
    | nil => rfl
    | cons e prev =>
      unfold Cache.gcLoop
      split
      · rw [ih]; rfl
      · rw [ih]

theorem Cache.gcLoop_lookup_sub (n : Nat) (p k : List ItemId) (c : Cache) (i : Nat)
    (e : String × ItemId) (he : e ∈ ((Cache.gcLoop n p k c).buckets i).lookup) :
    e ∈ (c.buckets i).lookup := by
  induction n generalizing p k c with
  | zero => exact he
  | succ n ih =>
    cases p with
    | nil => exact he
    | cons x prev =>
      unfold Cache.gcLoop at he
      split at he
      · have h2 := ih _ _ _ he
        simp only [Cache.evict] at h2
        by_cases hi : i = c.bucket (c.items x).key
        · subst hi
          simp only [Function.update_same, bucket.delete] at h2
          exact List.mem_of_mem_filter h2
        · rw [Function.update_noteq hi] at h2
          exact h2
      · exact ih _ _ _ he

theorem Cache.Linked_gc (c : Cache) (h : c.Linked) : c.gc.Linked := by
  obtain ⟨h1, h2, h3, h4⟩ := h
  have hsub : c.gc.list.Sublist c.list := by
    rw [Cache.gc_list]
    conv => rhs; rw [← List.take_append_drop (c.list.length - c.config.itemsToPrune) c.list]
    exact List.Sublist.append (List.Sublist.refl _) (List.filter_sublist _)
  refine ⟨h1.sublist hsub, ?_, ?_, ?_⟩
  · intro x hx
    have := h2 x (hsub.subset hx)
    refine ⟨?_, by rw [Cache.gc, Cache.gcLoop_nextItem]; exact this.2⟩
    rw [Cache.gc_items]
    split
    · exact this.1
    · exact this.1
  · intro x hx
    rw [Cache.gc, Cache.gcLoop_promotables] at hx
    rw [Cache.gc, Cache.gcLoop_nextItem]
    exact h3 x hx
  · intro i e he
    rw [Cache.gc, Cache.gcLoop_nextItem]
    exact h4 i e (Cache.gcLoop_lookup_sub _ _ _ c i e he)

theorem Cache.Linked_Clear (c : Cache) (h : c.Linked) : c.Clear.Linked := by
  obtain ⟨_, _, h3, _⟩ := h
  refine ⟨List.nodup_nil, ?_, h3, ?_⟩
  · intro x hx
    simp [Cache.Clear] at hx
  · intro i e he
    simp [Cache.Clear, bucket.clear] at he

theorem Cache.Linked_workerStep (c c1 : Cache) (e : WorkerEvent) (h : c.Linked)
    (hs : c.workerStep e = some c1) : c1.Linked := by
  cases e with
  | promotion =>
    simp only [Cache.workerStep, Cache.workerPromote] at hs
    cases hq : c.promotables with
    | nil => simp [hq] at hs
    | cons y rest =>
      simp only [hq] at hs
      obtain ⟨h1, h2, h3, h4⟩ := h
      have hy : y < c.nextItem := h3 y (by rw [hq]; exact List.mem_cons_self _ _)
      have hl : Cache.Linked { c with promotables := rest } :=
        ⟨h1, h2, fun x hx => h3 x (by rw [hq]; exact List.mem_cons_of_mem _ hx), h4⟩
      have hk := Cache.Linked_doPromote { c with promotables := rest } y hl hy
      split at hs
      · rw [← Option.some.inj hs]
        exact Cache.Linked_gc _ hk
      · rw [← Option.some.inj hs]
        exact hk
  | deletion =>
    simp only [Cache.workerStep, Cache.workerDelete] at hs
    cases hq : c.deletables with
    | nil => simp [hq] at hs
    | cons y rest =>
      simp only [hq] at hs
      rw [← Option.some.inj hs]
      obtain ⟨h1, h2, h3, h4⟩ := h
      exact Cache.Linked_doDelete { c with deletables := rest } y ⟨h1, h2, h3, h4⟩

theorem Cache.Linked_step (c c1 : Cache) (op : CacheOp) (h : c.Linked)
    (hs : c.step op = some c1) : c1.Linked := by
  cases op with
  | set key value duration now => exact Cache.Linked_Set c c1 key value duration now h hs
  | get key now =>
    simp only [Cache.step, Option.map_eq_some'] at hs
    obtain ⟨⟨c2, r⟩, hg, h2⟩ := hs
    rw [← h2]
    exact Cache.Linked_Get c c2 key now r h hg
  | trackingGet key now =>
    simp only [Cache.step, Option.map_eq_some'] at hs
    obtain ⟨⟨c2, r⟩, hg, h2⟩ := hs
    rw [← h2]
    exact Cache.Linked_TrackingGet c c2 key now r h hg
  | replace key value now now2 =>
    simp only [Cache.step, Option.map_eq_some'] at hs
    obtain ⟨⟨c2, b⟩, hg, h2⟩ := hs
    rw [← h2]
    exact Cache.Linked_Replace c c2 key value now now2 b h hg
  | delete key =>
    simp only [Cache.step, Option.map_eq_some'] at hs
    obtain ⟨⟨c2, b⟩, hg, h2⟩ := hs
    rw [← h2]
    exact Cache.Linked_Delete c c2 key b h hg
  | worker e => exact Cache.Linked_workerStep c c1 e h hs
  | gc =>
    simp only [Cache.step] at hs
    rw [← Option.some.inj hs]
    exact Cache.Linked_gc c h
  | clear =>
    simp only [Cache.step] at hs
    rw [← Option.some.inj hs]
    exact Cache.Linked_Clear c h

theorem Cache.Linked_run (ops : List CacheOp) (c c1 : Cache) (h : c.Linked)
    (hs : c.run ops = some c1) : c1.Linked := by
  induction ops generalizing c with
  | nil =>
    simp only [Cache.run] at hs
    rw [← Option.some.inj hs]; exact h
  | cons op ops ih =>
    simp only [Cache.run] at hs
    cases hstep : c.step op with
    | none => simp [hstep] at hs
    | some c2 =>
      simp only [hstep, Option.some_bind] at hs
      exact ih c2 (Cache.Linked_step c c2 op h hstep) hs

theorem Cache.Linked_New (config : Configuration) : (New config).Linked := by
  refine ⟨List.nodup_nil, ?_, ?_, ?_⟩
  · intro x hx; simp [New, Cache.restart] at hx
  · intro x hx; simp [New, Cache.restart] at hx
  · intro i e he; simp [New, Cache.restart] at he

/-- A promotion of an item that is marked with the sentinel, or that has a list
position but is not linked, does not link it. -/
theorem Cache.doPromote_not_linked (c : Cache) (x : ItemId)
    (h : (c.items x).promotions = -2 ∨ (c.items x).element = true) (hx : x ∉ c.list) :
    ((c.doPromote x).1).list = c.list := by
  unfold Cache.doPromote
  dsimp only
  split_ifs with hs he hp
  · rfl
  · simp only [listMoveToFront, hx, if_false]
  · rfl
  · rcases h with h | h
    · exact absurd h hs
    · exact absurd h he

/-! ## The invariant of the executions of the layered cache -/

theorem layeredBucket_Below_mono (b : layeredBucket) (n m : Nat) (h : n ≤ m) (hb : b.Below n) :
    b.Below m :=
  fun pb hpb e he => Nat.lt_of_lt_of_le (hb pb hpb e he) h

theorem layeredBucket_secondary_below (b : layeredBucket) (p : String) (bkt : bucket) (n : Nat)
    (hb : b.Below n) (h : b.getSecondaryBucket p = some bkt) : ∀ e ∈ bkt.lookup, e.2 < n := by
  simp only [layeredBucket.getSecondaryBucket, Option.map_eq_some'] at h
  obtain ⟨pb, hpb, h2⟩ := h
  intro e he
  rw [← h2] at he
  exact hb pb (List.mem_of_find?_eq_some hpb) e he

theorem layeredBucket_store_below (b : layeredBucket) (p : String) (bkt : bucket) (n : Nat)
    (hb : b.Below n) (h : ∀ e ∈ bkt.lookup, e.2 < n) : (b.store p bkt).Below n := by
  intro pb hpb e he
  simp only [layeredBucket.store, List.mem_cons] at hpb
  rcases hpb with hpb | hpb
  · rw [hpb] at he
    exact h e he
  · exact hb pb (List.mem_of_mem_filter hpb) e he

theorem layeredBucket_get_below (b : layeredBucket) (p s : String) (item : ItemId) (n : Nat)
    (hb : b.Below n) (h : b.get p s = some item) : item < n := by
  unfold layeredBucket.get at h
  cases hs : b.getSecondaryBucket p with
  | none => simp [hs] at h
  | some bkt =>
    simp only [hs] at h
    obtain ⟨e, he, h2⟩ := bucket_get_mem bkt s item h
    rw [← h2]
    exact layeredBucket_secondary_below b p bkt n hb hs e he

theorem layeredBucket_set_below (b : layeredBucket) (p s : String) (item : ItemId) (n : Nat)
    (hb : b.Below n) (hi : item < n) : (b.set p s item).1.Below n := by
  unfold layeredBucket.set
  dsimp only
  apply layeredBucket_store_below b p _ n hb
  intro e he
  simp only [bucket.set, List.mem_cons] at he
  rcases he with he | he
  · rw [he]; exact hi
  · have he2 := List.mem_of_mem_filter he
    cases hs : b.getSecondaryBucket p with
    | none => simp [hs] at he2
    | some bkt =>
      simp only [hs] at he2
      exact layeredBucket_secondary_below b p bkt n hb hs e he2

theorem layeredBucket_delete_below (b : layeredBucket) (p s : String) (n : Nat)
    (hb : b.Below n) : (b.delete p s).1.Below n := by
  unfold layeredBucket.delete
  cases hs : b.getSecondaryBucket p with
  | none => exact hb
  | some bkt =>
    dsimp only
    apply layeredBucket_store_below b p _ n hb
    intro e he
    simp only [bucket.delete] at he
    exact layeredBucket_secondary_below b p bkt n hb hs e (List.mem_of_mem_filter he)

theorem deleteAllLoop_sub (cap : Nat) (entries : List (String × ItemId)) (bkt : bucket)
    (q : List ItemId) (r : bucket × List ItemId) (h : deleteAllLoop cap entries bkt q = some r) :
    ∀ e ∈ r.1.lookup, e ∈ bkt.lookup := by
  induction entries generalizing bkt q with
  | nil =>
    simp only [deleteAllLoop, Option.some.injEq] at h
    rw [← h]
    exact fun e he => he
  | cons x rest ih =>
    obtain ⟨key, item⟩ := x
    simp only [deleteAllLoop, Option.bind_eq_some] at h
    obtain ⟨q1, _, h2⟩ := h
    intro e he
    have := ih _ _ h2 e he
    simp only [bucket.delete] at this
    exact List.mem_of_mem_filter this

theorem layeredBucket_deleteAll_below (b : layeredBucket) (p : String) (cap : Nat)
    (q : List ItemId) (r : layeredBucket × List ItemId × Bool) (n : Nat)
    (hb : b.Below n) (h : b.deleteAll p cap q = some r) : r.1.Below n := by
  unfold layeredBucket.deleteAll at h
  cases hs : b.getSecondaryBucket p with
  | none =>
    simp only [hs, Option.some.injEq] at h
    rw [← h]; exact hb
  | some bkt =>
    simp only [hs] at h
    split at h
    · simp only [Option.some.injEq] at h
      rw [← h]; exact hb
    · simp only [Option.map_eq_some'] at h
      obtain ⟨r2, hr2, h3⟩ := h
      rw [← h3]
      apply layeredBucket_store_below b p _ n hb
      intro e he
      exact layeredBucket_secondary_below b p bkt n hb hs e
        (deleteAllLoop_sub cap bkt.lookup bkt q r2 hr2 e he)

theorem LayeredCache.layered_set_some_eq (c : LayeredCache) (p s : String) (v : Value)
    (d now : Int) (r : LayeredCache × ItemId) (h : c.set p s v d now = some r) :
    r = (c.afterSet p s v d now, c.nextItem) := by
  unfold LayeredCache.set at h
  unfold LayeredCache.afterSet
  simp only [layeredBucket_set_snd] at h
  cases hb : (c.buckets (c.bucket p)).get p s with
  | none =>
    simp only [hb, Option.some_bind, LayeredCache.promote, send, Option.map_eq_some'] at h
    obtain ⟨c4, ⟨q, hq, hc4⟩, h2⟩ := h
    split at hq
    · rw [← h2, ← hc4, ← Option.some.inj hq]
    · exact absurd hq (by simp)
  | some e =>
    simp only [hb, send, Option.bind_eq_some, Option.map_eq_some',
      LayeredCache.promote] at h
    obtain ⟨c3, ⟨q, hq, hc3⟩, c4, ⟨q2, hq2, hc4⟩, h2⟩ := h
    split at hq
    · split at hq2
      · rw [← h2, ← hc4, ← Option.some.inj hq2, ← hc3, ← Option.some.inj hq]
      · exact absurd hq2 (by simp)
    · exact absurd hq (by simp)

theorem LayeredCache.layered_Linked_afterSet (c : LayeredCache) (p s : String) (v : Value)
    (d now : Int) (h : c.Linked) : (c.afterSet p s v d now).Linked := by
  obtain ⟨h1, h2, h3, h4⟩ := h
  have hn : (c.afterSet p s v d now).nextItem = c.nextItem + 1 := rfl
  refine ⟨h1, ?_, ?_, ?_⟩
  · intro x hx
    have hx2 := h2 x hx
    have hne : x ≠ c.nextItem := Nat.ne_of_lt hx2.2
    rw [hn]
    simp only [LayeredCache.afterSet, Function.update_noteq hne]
    exact ⟨hx2.1, Nat.lt_succ_of_lt hx2.2⟩
  · intro x hx
    rw [hn]
    simp only [LayeredCache.afterSet, List.mem_append, List.mem_singleton] at hx
    rcases hx with hx | hx
    · exact Nat.lt_succ_of_lt (h3 x hx)
    · rw [hx]; exact Nat.lt_succ_self _
  · intro i
    rw [hn]
    show ((c.afterSet p s v d now).buckets i).Below (c.nextItem + 1)
    simp only [LayeredCache.afterSet]
    by_cases hi : i = c.bucket p
    · subst hi
      simp only [Function.update_same]
      exact layeredBucket_set_below _ p s _ _
        (layeredBucket_Below_mono _ _ _ (Nat.le_succ _) (h4 _)) (Nat.lt_succ_self _)
    · rw [Function.update_noteq hi]
      exact layeredBucket_Below_mono _ _ _ (Nat.le_succ _) (h4 i)

theorem LayeredCache.layered_Linked_Set (c c1 : LayeredCache) (p s : String) (v : Value)
    (d now : Int) (h : c.Linked) (hs : c.Set p s v d now = some c1) : c1.Linked := by
  simp only [LayeredCache.Set, Option.map_eq_some'] at hs
  obtain ⟨r, hr, h2⟩ := hs
  rw [← h2, LayeredCache.layered_set_some_eq c p s v d now r hr]
  exact LayeredCache.layered_Linked_afterSet c p s v d now h

theorem LayeredCache.layered_Get_cases (c c1 : LayeredCache) (p s : String) (now : Int)
    (r : Option ItemId) (h : c.Get p s now = some (c1, r)) :
    r = (c.buckets (c.bucket p)).get p s ∧
      (c1 = c ∨ ∃ item, r = some item ∧ (c.items item).expires > now ∧
        c1 = { c with promotables := c.promotables ++ [item] }) := by
  unfold LayeredCache.Get at h
  cases hb : (c.buckets (c.bucket p)).get p s with
  | none =>
    simp only [hb, Option.some.injEq, Prod.mk.injEq] at h
    exact ⟨h.2.symm, Or.inl h.1.symm⟩
  | some it =>
    simp only [hb] at h
    split at h
    · rename_i hexp
      simp only [LayeredCache.promote, send, Option.map_eq_some'] at h
      obtain ⟨c2, ⟨q, hq, hc2⟩, h2⟩ := h
      have h3 := Prod.mk.inj h2
      split at hq
      · have hq2 := Option.some.inj hq
        refine ⟨h3.2.symm, Or.inr ⟨it, h3.2.symm, hexp, ?_⟩⟩
        rw [← h3.1, ← hc2, ← hq2]
      · exact absurd hq (by simp)
    · have h3 := Prod.mk.inj (Option.some.inj h)
      exact ⟨h3.2.symm, Or.inl h3.1.symm⟩

theorem LayeredCache.layered_Linked_Get (c c1 : LayeredCache) (p s : String) (now : Int)
    (r : Option ItemId) (h : c.Linked) (hs : c.Get p s now = some (c1, r)) : c1.Linked := by
  obtain ⟨hr, hc⟩ := LayeredCache.layered_Get_cases c c1 p s now r hs
  rcases hc with rfl | ⟨item, hit, _, rfl⟩
  · exact h
  · obtain ⟨h1, h2, h3, h4⟩ := h
    refine ⟨h1, h2, ?_, h4⟩
    intro x hx
    simp only [List.mem_append, List.mem_singleton] at hx
    rcases hx with hx | hx
    · exact h3 x hx
    · rw [hit] at hr
      rw [hx]
      exact layeredBucket_get_below _ p s item _ (h4 _) hr.symm

theorem LayeredCache.layered_Linked_TrackingGet (c c1 : LayeredCache) (p s : String) (now : Int)
    (r : Option ItemId) (h : c.Linked) (hs : c.TrackingGet p s now = some (c1, r)) :
    c1.Linked := by
  simp only [LayeredCache.TrackingGet, Option.map_eq_some'] at hs
  obtain ⟨⟨cg, og⟩, hg, h2⟩ := hs
  have hl := LayeredCache.layered_Linked_Get c cg p s now og h hg
  cases og with
  | none =>
    simp only [Prod.mk.injEq] at h2
    rw [← h2.1]; exact hl
  | some item =>
    simp only [Prod.mk.injEq] at h2
    rw [← h2.1]
    obtain ⟨h1, h3, h4, h5⟩ := hl
    refine ⟨h1, ?_, h4, h5⟩
    intro x hx
    have := h3 x hx
    by_cases hxi : x = item
    · subst hxi
      simp only [Function.update_same, Item.track]
      exact this
    · simp only [Function.update_noteq hxi]
      exact this

theorem LayeredCache.layered_Linked_Replace (c c1 : LayeredCache) (p s : String) (v : Value)
    (now now2 : Int) (b : Bool) (h : c.Linked)
    (hs : c.Replace p s v now now2 = some (c1, b)) : c1.Linked := by
  unfold LayeredCache.Replace at hs
  cases hb : (c.buckets (c.bucket p)).get p s with
  | none =>
    simp only [hb, Option.some.injEq, Prod.mk.injEq] at hs
    rw [← hs.1]; exact h
  | some item =>
    simp only [hb, Option.map_eq_some'] at hs
    obtain ⟨c2, hset, h2⟩ := hs
    rw [← (Prod.mk.inj h2).1]
    exact LayeredCache.layered_Linked_Set c c2 p s v _ now2 h hset

theorem LayeredCache.layered_Linked_Delete (c c1 : LayeredCache) (p s : String) (b : Bool)
    (h : c.Linked) (hs : c.Delete p s = some (c1, b)) : c1.Linked := by
  obtain ⟨h1, h2, h3, h4⟩ := h
  have hb : ∀ i, (Function.update c.buckets (c.bucket p)
      ((c.buckets (c.bucket p)).delete p s).1 i).Below c.nextItem := by
    intro i
    by_cases hi : i = c.bucket p
    · subst hi
      simp only [Function.update_same]
      exact layeredBucket_delete_below _ p s _ (h4 _)
    · rw [Function.update_noteq hi]
      exact h4 i
  unfold LayeredCache.Delete at hs
  cases hg : ((c.buckets (c.bucket p)).delete p s).2 with
  | none =>
    simp only [hg, Option.some.injEq, Prod.mk.injEq] at hs
    rw [← hs.1]
    exact ⟨h1, h2, h3, hb⟩
  | some item =>
    simp only [hg, Option.map_eq_some'] at hs
    obtain ⟨q, _, h5⟩ := hs
    rw [← (Prod.mk.inj h5).1]
    exact ⟨h1, h2, h3, hb⟩

theorem LayeredCache.layered_Linked_DeleteAll (c c1 : LayeredCache) (p : String) (b : Bool)
    (h : c.Linked) (hs : c.DeleteAll p = some (c1, b)) : c1.Linked := by
  obtain ⟨h1, h2, h3, h4⟩ := h
  simp only [LayeredCache.DeleteAll, Option.map_eq_some'] at hs
  obtain ⟨r, hr, h5⟩ := hs
  rw [← (Prod.mk.inj h5).1]
  refine ⟨h1, h2, h3, ?_⟩
  intro i
  show (Function.update c.buckets (c.bucket p) r.1 i).Below c.nextItem
  by_cases hi : i = c.bucket p
  · subst hi
    simp only [Function.update_same]
    exact layeredBucket_deleteAll_below _ p _ _ r _ (h4 _) hr
  · rw [Function.update_noteq hi]
    exact h4 i

theorem LayeredCache.layered_Linked_doPromote (c : LayeredCache) (y : ItemId) (h : c.Linked)
    (hy : y < c.nextItem) : ((c.doPromote y).1).Linked := by
  obtain ⟨h1, h2, h3, h4⟩ := h
  unfold LayeredCache.doPromote
  dsimp only
  split_ifs with hs he hp
  · exact ⟨h1, h2, h3, h4⟩
  · refine ⟨?_, ?_, h3, h4⟩
    · simp only [listMoveToFront]
      split_ifs with hm
      · exact List.nodup_cons.mpr ⟨fun hmem => ((List.Nodup.mem_erase_iff h1).mp hmem).1 rfl,
          h1.erase y⟩
      · exact h1
    · intro x hx
      have hx2 : x ∈ c.list := by
        simp only [listMoveToFront] at hx
        split_ifs at hx with hm
        · rcases List.mem_cons.mp hx with rfl | hx
          · exact hm
          · exact List.mem_of_mem_erase hx
        · exact hx
      have := h2 x hx2
      by_cases hxy : x = y
      · subst hxy
        simp only [Function.update_same, Item.shouldPromote]
        exact this
      · simp only [Function.update_noteq hxy]
        exact this
  · refine ⟨h1, ?_, h3, h4⟩
    intro x hx
    have := h2 x hx
    by_cases hxy : x = y
    · subst hxy
      simp only [Function.update_same, Item.shouldPromote]
      exact this
    · simp only [Function.update_noteq hxy]
      exact this
  · have hny : y ∉ c.list := fun hm => he (h2 y hm).1
    refine ⟨?_, ?_, h3, h4⟩
    · simp only [listPushFront]
      exact List.nodup_cons.mpr ⟨hny, h1⟩
    · intro x hx
      simp only [listPushFront, List.mem_cons] at hx
      rcases hx with rfl | hx
      · simp only [Function.update_same]
        exact ⟨trivial, hy⟩
      · have := h2 x hx
        have hxy : x ≠ y := fun hxy => hny (hxy ▸ hx)
        simp only [Function.update_noteq hxy]
        exact this

theorem LayeredCache.layered_gcLoop_nextItem (n : Nat) (p k : List ItemId) (c : LayeredCache) :
    (LayeredCache.gcLoop n p k c).nextItem = c.nextItem := by
  induction n generalizing p k c with
  | zero => rfl
  | succ n ih =>
    cases p with
    | nil => rfl
    | cons e prev =>
      unfold LayeredCache.gcLoop
      split
      · rw [ih]; rfl
      · rw [ih]

theorem LayeredCache.layered_gcLoop_promotables (n : Nat) (p k : List ItemId)
    (c : LayeredCache) : (LayeredCache.gcLoop n p k c).promotables = c.promotables := by
  induction n generalizing p k c with
  | zero => rfl
  | succ n ih =>
    cases p with
    | nil => rfl
    | cons e prev =>
      unfold LayeredCache.gcLoop
      split
      · rw [ih]; rfl
      · rw [ih]

theorem LayeredCache.layered_gcLoop_below (n : Nat) (p k : List ItemId) (c : LayeredCache)
    (m : Nat) (h : ∀ i, (c.buckets i).Below m) :
    ∀ i, ((LayeredCache.gcLoop n p k c).buckets i).Below m := by
  induction n generalizing p k c with
  | zero => exact h
  | succ n ih =>
    cases p with
    | nil => exact h
    | cons x prev =>
      unfold LayeredCache.gcLoop
      split
      · apply ih
        intro i
        simp only [LayeredCache.evict]
        by_cases hi : i = c.bucket (c.items x).group
        · subst hi
          simp only [Function.update_same]
          exact layeredBucket_delete_below _ _ _ _ (h _)
        · rw [Function.update_noteq hi]
          exact h i
      · exact ih _ _ _ h

theorem LayeredCache.layered_Linked_gc (c : LayeredCache) (h : c.Linked) : c.gc.Linked := by
  obtain ⟨h1, h2, h3, h4⟩ := h
  have hsub : c.gc.list.Sublist c.list := by
    rw [LayeredCache.layered_gc_list]
    conv => rhs; rw [← List.take_append_drop (c.list.length - c.config.itemsToPrune) c.list]
    exact List.Sublist.append (List.Sublist.refl _) (List.filter_sublist _)
  refine ⟨h1.sublist hsub, ?_, ?_, ?_⟩
  · intro x hx
    have := h2 x (hsub.subset hx)
    refine ⟨?_, by rw [LayeredCache.gc, LayeredCache.layered_gcLoop_nextItem]; exact this.2⟩
    rw [LayeredCache.layered_gc_items]
    split
    · exact this.1
    · exact this.1
  · intro x hx
    rw [LayeredCache.gc, LayeredCache.layered_gcLoop_promotables] at hx
    rw [LayeredCache.gc, LayeredCache.layered_gcLoop_nextItem]
    exact h3 x hx
  · intro i
    rw [LayeredCache.gc, LayeredCache.layered_gcLoop_nextItem]
    exact LayeredCache.layered_gcLoop_below _ _ _ c _ h4 i

theorem LayeredCache.layered_Linked_Clear (c : LayeredCache) (h : c.Linked) : c.Clear.Linked := by
  obtain ⟨_, _, h3, _⟩ := h
  refine ⟨List.nodup_nil, ?_, h3, ?_⟩
  · intro x hx
    simp [LayeredCache.Clear] at hx
  · intro i pb hpb
    simp [LayeredCache.Clear, layeredBucket.clear] at hpb

theorem LayeredCache.layered_Linked_workerDelete (c c1 : LayeredCache) (h : c.Linked)
    (hs : c.workerDelete = some c1) : c1.Linked := by
  simp only [LayeredCache.workerDelete] at hs
  cases hq : c.deletables with
  | nil => simp [hq] at hs
  | cons y rest =>
    simp only [hq] at hs
    obtain ⟨h1, h2, h3, h4⟩ := h
    by_cases he : (c.items y).element = false
    · rw [if_pos he] at hs
      rw [← Option.some.inj hs]
      refine ⟨h1, ?_, h3, h4⟩
      intro x hx
      have := h2 x hx
      by_cases hxy : x = y
      · subst hxy
        simp only [Function.update_same]
        exact this
      · simp only [Function.update_noteq hxy]
        exact this
    · rw [if_neg he] at hs
      rw [← Option.some.inj hs]
      refine ⟨h1.erase y, ?_, h3, h4⟩
      intro x hx
      exact h2 x (List.mem_of_mem_erase hx)

theorem LayeredCache.layered_Linked_workerStep (c c1 : LayeredCache) (e : WorkerEvent)
    (h : c.Linked) (hs : c.workerStep e = some c1) : c1.Linked := by
  cases e with
  | promotion =>
    simp only [LayeredCache.workerStep, LayeredCache.workerPromote] at hs
    cases hq : c.promotables with
    | nil => simp [hq] at hs
    | cons y rest =>
      simp only [hq] at hs
      obtain ⟨h1, h2, h3, h4⟩ := h
      have hy : y < c.nextItem := h3 y (by rw [hq]; exact List.mem_cons_self _ _)
      have hl : LayeredCache.Linked { c with promotables := rest } :=
        ⟨h1, h2, fun x hx => h3 x (by rw [hq]; exact List.mem_cons_of_mem _ hx), h4⟩
      have hk := LayeredCache.layered_Linked_doPromote { c with promotables := rest } y hl hy
      split at hs
      · rw [← Option.some.inj hs]
        exact LayeredCache.layered_Linked_gc _ hk
      · rw [← Option.some.inj hs]
        exact hk
  | deletion => exact LayeredCache.layered_Linked_workerDelete c c1 h hs

theorem LayeredCache.layered_Linked_step (c c1 : LayeredCache) (op : LayeredOp) (h : c.Linked)
    (hs : c.step op = some c1) : c1.Linked := by
  cases op with
  | set p s value duration now => exact LayeredCache.layered_Linked_Set c c1 p s value duration now h hs
  | get p s now =>
    simp only [LayeredCache.step, Option.map_eq_some'] at hs
    obtain ⟨⟨c2, r⟩, hg, h2⟩ := hs
    rw [← h2]
    exact LayeredCache.layered_Linked_Get c c2 p s now r h hg
  | trackingGet p s now =>
    simp only [LayeredCache.step, Option.map_eq_some'] at hs
    obtain ⟨⟨c2, r⟩, hg, h2⟩ := hs
    rw [← h2]
    exact LayeredCache.layered_Linked_TrackingGet c c2 p s now r h hg
  | replace p s value now now2 =>
    simp only [LayeredCache.step, Option.map_eq_some'] at hs
    obtain ⟨⟨c2, b⟩, hg, h2⟩ := hs
    rw [← h2]
    exact LayeredCache.layered_Linked_Replace c c2 p s value now now2 b h hg
  | delete p s =>
    simp only [LayeredCache.step, Option.map_eq_some'] at hs
    obtain ⟨⟨c2, b⟩, hg, h2⟩ := hs
    rw [← h2]
    exact LayeredCache.layered_Linked_Delete c c2 p s b h hg
  | deleteAll p =>
    simp only [LayeredCache.step, Option.map_eq_some'] at hs
    obtain ⟨⟨c2, b⟩, hg, h2⟩ := hs
    rw [← h2]
    exact LayeredCache.layered_Linked_DeleteAll c c2 p b h hg
  | worker e => exact LayeredCache.layered_Linked_workerStep c c1 e h hs
  | gc =>
    simp only [LayeredCache.step] at hs
    rw [← Option.some.inj hs]
    exact LayeredCache.layered_Linked_gc c h
  | clear =>
    simp only [LayeredCache.step] at hs
    rw [← Option.some.inj hs]
    exact LayeredCache.layered_Linked_Clear c h

theorem LayeredCache.layered_Linked_run (ops : List LayeredOp) (c c1 : LayeredCache)
    (h : c.Linked) (hs : c.run ops = some c1) : c1.Linked := by
  induction ops generalizing c with
  | nil =>
    simp only [LayeredCache.run] at hs
    rw [← Option.some.inj hs]; exact h
  | cons op ops ih =>
    simp only [LayeredCache.run] at hs
    cases hstep : c.step op with
    | none => simp [hstep] at hs
    | some c2 =>
      simp only [hstep, Option.some_bind] at hs
      exact ih c2 (LayeredCache.layered_Linked_step c c2 op h hstep) hs

theorem LayeredCache.layered_Linked_Layered (config : Configuration) :
    (Layered config).Linked := by
  refine ⟨List.nodup_nil, ?_, ?_, ?_⟩
  · intro x hx; simp [Layered, LayeredCache.restart] at hx
  · intro x hx; simp [Layered, LayeredCache.restart] at hx
  · intro i pb hpb; simp [Layered, LayeredCache.restart] at hpb

/-! ## Items that are gone stay unlinked -/

theorem Cache.Gone_doPromote (c : Cache) (x y : ItemId) (h : c.Gone x) :
    ((c.doPromote y).1).Gone x := by
  obtain ⟨h1, h2, h3⟩ := h
  unfold Cache.doPromote
  dsimp only
  split_ifs with hs he hp
  · exact ⟨h1, h2, h3⟩
  · refine ⟨?_, h2, ?_⟩
    · simp only [listMoveToFront]
      split_ifs with hm
      · intro hx
        rcases List.mem_cons.mp hx with rfl | hx
        · exact h1 hm
        · exact h1 (List.mem_of_mem_erase hx)
      · exact h1
    · by_cases hxy : x = y
      · subst hxy
        right
        simp only [Function.update_same, Item.shouldPromote]
        exact he
      · simp only [Function.update_noteq hxy]
        exact h3
  · refine ⟨h1, h2, ?_⟩
    by_cases hxy : x = y
    · subst hxy
      right
      simp only [Function.update_same, Item.shouldPromote]
      exact he
    · simp only [Function.update_noteq hxy]
      exact h3
  · have hxy : x ≠ y := by
      intro hxy
      subst hxy
      rcases h3 with h3 | h3
      · exact hs h3
      · exact he h3
    refine ⟨?_, h2, ?_⟩
    · simp only [listPushFront, List.mem_cons]
      intro hx
      rcases hx with hx | hx
      · exact hxy hx
      · exact h1 hx
    · simp only [Function.update_noteq hxy]
      exact h3

theorem Cache.Gone_doDelete (c : Cache) (x y : ItemId) (h : c.Gone x) :
    (c.doDelete y).Gone x := by
  obtain ⟨h1, h2, h3⟩ := h
  unfold Cache.doDelete
  by_cases he : (c.items y).element = false
  · rw [if_pos he]
    refine ⟨h1, h2, ?_⟩
    by_cases hxy : x = y
    · subst hxy
      left
      simp only [Function.update_same]
    · simp only [Function.update_noteq hxy]
      exact h3
  · rw [if_neg he]
    exact ⟨fun hx => h1 (List.mem_of_mem_erase hx), h2, h3⟩

theorem Cache.gc_sublist (c : Cache) : c.gc.list.Sublist c.list := by
  rw [Cache.gc_list]
  conv => rhs; rw [← List.take_append_drop (c.list.length - c.config.itemsToPrune) c.list]
  exact List.Sublist.append (List.Sublist.refl _) (List.filter_sublist _)

theorem Cache.Gone_gc (c : Cache) (x : ItemId) (h : c.Gone x) : c.gc.Gone x := by
  obtain ⟨h1, h2, h3⟩ := h
  refine ⟨fun hx => h1 (c.gc_sublist.subset hx), ?_, ?_⟩
  · rw [Cache.gc, Cache.gcLoop_nextItem]; exact h2
  · rw [Cache.gc_items]
    split
    · left; rfl
    · exact h3

theorem Cache.Gone_afterSet (c : Cache) (k : String) (v : Value) (d now : Int) (x : ItemId)
    (h : c.Gone x) : (c.afterSet k v d now).Gone x := by
  obtain ⟨h1, h2, h3⟩ := h
  have hne : x ≠ c.nextItem := Nat.ne_of_lt h2
  refine ⟨h1, Nat.lt_succ_of_lt h2, ?_⟩
  simp only [Cache.afterSet, Function.update_noteq hne]
  exact h3

theorem Cache.Gone_Set (c c1 : Cache) (k : String) (v : Value) (d now : Int) (x : ItemId)
    (h : c.Gone x) (hs : c.Set k v d now = some c1) : c1.Gone x := by
  simp only [Cache.Set, Option.map_eq_some'] at hs
  obtain ⟨r, hr, h2⟩ := hs
  rw [← h2, Cache.set_some_eq c k v d now r hr]
  exact Cache.Gone_afterSet c k v d now x h

theorem Cache.Gone_Get (c c1 : Cache) (k : String) (now : Int) (r : Option ItemId) (x : ItemId)
    (h : c.Gone x) (hs : c.Get k now = some (c1, r)) : c1.Gone x := by
  obtain ⟨_, hc⟩ := Cache.Get_cases c c1 k now r hs
  rcases hc with rfl | ⟨item, _, _, rfl⟩
  · exact h
  · exact h

theorem Cache.Gone_TrackingGet (c c1 : Cache) (k : String) (now : Int) (r : Option ItemId)
    (x : ItemId) (h : c.Gone x) (hs : c.TrackingGet k now = some (c1, r)) : c1.Gone x := by
  simp only [Cache.TrackingGet, Option.map_eq_some'] at hs
  obtain ⟨⟨cg, og⟩, hg, h2⟩ := hs
  have hl := Cache.Gone_Get c cg k now og x h hg
  cases og with
  | none =>
    simp only [Prod.mk.injEq] at h2
    rw [← h2.1]; exact hl
  | some item =>
    simp only [Prod.mk.injEq] at h2
    rw [← h2.1]
    obtain ⟨h1, h3, h4⟩ := hl
    refine ⟨h1, h3, ?_⟩
    by_cases hxi : x = item
    · subst hxi
      simp only [Function.update_same, Item.track]
      exact h4
    · simp only [Function.update_noteq hxi]
      exact h4

theorem Cache.Gone_Replace (c c1 : Cache) (k : String) (v : Value) (now now2 : Int) (b : Bool)
    (x : ItemId) (h : c.Gone x) (hs : c.Replace k v now now2 = some (c1, b)) : c1.Gone x := by
  unfold Cache.Replace at hs
  cases hb : (c.buckets (c.bucket k)).get k with
  | none =>
    simp only [hb, Option.some.injEq, Prod.mk.injEq] at hs
    rw [← hs.1]; exact h
  | some item =>
    simp only [hb, Option.map_eq_some'] at hs
    obtain ⟨c2, hset, h2⟩ := hs
    rw [← (Prod.mk.inj h2).1]
    exact Cache.Gone_Set c c2 k v _ now2 x h hset

theorem Cache.Gone_Delete (c c1 : Cache) (k : String) (b : Bool) (x : ItemId)
    (h : c.Gone x) (hs : c.Delete k = some (c1, b)) : c1.Gone x := by
  unfold Cache.Delete at hs
  cases hg : ((c.buckets (c.bucket k)).delete k).2 with
  | none =>
    simp only [hg, Option.some.injEq, Prod.mk.injEq] at hs
    rw [← hs.1]
    exact h
  | some item =>
    simp only [hg, Option.map_eq_some'] at hs
    obtain ⟨q, _, h5⟩ := hs
    rw [← (Prod.mk.inj h5).1]
    exact h

theorem Cache.Gone_Clear (c : Cache) (x : ItemId) (h : c.Gone x) : c.Clear.Gone x := by
  obtain ⟨_, h2, h3⟩ := h
  exact ⟨by simp [Cache.Clear], h2, h3⟩

theorem Cache.Gone_workerStep (c c1 : Cache) (e : WorkerEvent) (x : ItemId) (h : c.Gone x)
    (hs : c.workerStep e = some c1) : c1.Gone x := by
  cases e with
  | promotion =>
    simp only [Cache.workerStep, Cache.workerPromote] at hs
    cases hq : c.promotables with
    | nil => simp [hq] at hs
    | cons y rest =>
      simp only [hq] at hs
      have hl : Cache.Gone { c with promotables := rest } x := h
      have hk := Cache.Gone_doPromote { c with promotables := rest } x y hl
      split at hs
      · rw [← Option.some.inj hs]
        exact Cache.Gone_gc _ x hk
      · rw [← Option.some.inj hs]
        exact hk
  | deletion =>
    simp only [Cache.workerStep, Cache.workerDelete] at hs
    cases hq : c.deletables with
    | nil => simp [hq] at hs
    | cons y rest =>
      simp only [hq] at hs
      rw [← Option.some.inj hs]
      have hl : Cache.Gone { c with deletables := rest } x := h
      exact Cache.Gone_doDelete { c with deletables := rest } x y hl

theorem Cache.Gone_step (c c1 : Cache) (op : CacheOp) (x : ItemId) (h : c.Gone x)
    (hs : c.step op = some c1) : c1.Gone x := by
  cases op with
  | set key value duration now => exact Cache.Gone_Set c c1 key value duration now x h hs
  | get key now =>
    simp only [Cache.step, Option.map_eq_some'] at hs
    obtain ⟨⟨c2, r⟩, hg, h2⟩ := hs
    rw [← h2]
    exact Cache.Gone_Get c c2 key now r x h hg
  | trackingGet key now =>
    simp only [Cache.step, Option.map_eq_some'] at hs
    obtain ⟨⟨c2, r⟩, hg, h2⟩ := hs
    rw [← h2]
    exact Cache.Gone_TrackingGet c c2 key now r x h hg
  | replace key value now now2 =>
    simp only [Cache.step, Option.map_eq_some'] at hs
    obtain ⟨⟨c2, b⟩, hg, h2⟩ := hs
    rw [← h2]
    exact Cache.Gone_Replace c c2 key value now now2 b x h hg
  | delete key =>
    simp only [Cache.step, Option.map_eq_some'] at hs
    obtain ⟨⟨c2, b⟩, hg, h2⟩ := hs
    rw [← h2]
    exact Cache.Gone_Delete c c2 key b x h hg
  | worker e => exact Cache.Gone_workerStep c c1 e x h hs
  | gc =>
    simp only [Cache.step] at hs
    rw [← Option.some.inj hs]
    exact Cache.Gone_gc c x h
  | clear =>
    simp only [Cache.step] at hs
    rw [← Option.some.inj hs]
    exact Cache.Gone_Clear c x h

theorem Cache.Gone_run (ops : List CacheOp) (c c1 : Cache) (x : ItemId) (h : c.Gone x)
    (hs : c.run ops = some c1) : c1.Gone x := by
  induction ops generalizing c with
  | nil =>
    simp only [Cache.run] at hs
    rw [← Option.some.inj hs]; exact h
  | cons op ops ih =>
    simp only [Cache.run] at hs
    cases hstep : c.step op with
    | none => simp [hstep] at hs
    | some c2 =>
      simp only [hstep, Option.some_bind] at hs
      exact ih c2 (Cache.Gone_step c c2 op x h hstep) hs

theorem Cache.Gone_of_doDelete (c : Cache) (x : ItemId) (h : c.Linked) (hx : x < c.nextItem) :
    (c.doDelete x).Gone x := by
  obtain ⟨h1, h2, _, _⟩ := h
  unfold Cache.doDelete
  by_cases he : (c.items x).element = false
  · rw [if_pos he]
    refine ⟨fun hm => ?_, hx, ?_⟩
    · have := (h2 x hm).1
      rw [he] at this
      exact absurd this (by simp)
    · left
      simp only [Function.update_same]
  · rw [if_neg he]
    refine ⟨fun hm => ((List.Nodup.mem_erase_iff h1).mp hm).1 rfl, hx, ?_⟩
    right
    simpa using he

theorem Cache.Gone_of_gc (c : Cache) (x : ItemId) (h : c.Linked) (hx : x ∈ c.list)
    (hg : x ∉ c.gc.list) : c.gc.Gone x ∧ (c.gc.items x).promotions = -2 := by
  obtain ⟨_, h2, _, _⟩ := h
  have hp : (c.gc.items x).promotions = -2 := by
    rw [Cache.gc_items, Cache.gcEvictions_ids]
    rw [Cache.gc_list] at hg
    have hx2 : x ∈ c.list.take (c.list.length - c.config.itemsToPrune) ++
        c.list.drop (c.list.length - c.config.itemsToPrune) := by
      rw [List.take_append_drop]; exact hx
    simp only [List.mem_append, List.mem_filter, not_or, not_and] at hg
    rcases List.mem_append.mp hx2 with hx3 | hx3
    · exact absurd hx3 hg.1
    · have hce : c.canEvict x = true := by
        have := hg.2 hx3
        simpa using this
      have hv : x ∈ c.gcVisited.filter c.canEvict := by
        simp only [List.mem_filter, Cache.gcVisited, List.take_reverse, List.mem_reverse]
        exact ⟨hx3, hce⟩
      rw [if_pos hv]
  refine ⟨⟨hg, ?_, Or.inl hp⟩, hp⟩
  rw [Cache.gc, Cache.gcLoop_nextItem]
  exact (h2 x hx).2

/-! ## Items that are gone stay unlinked, on the layered cache -/

theorem LayeredCache.layered_Gone_doPromote (c : LayeredCache) (x y : ItemId) (h : c.Gone x) :
    ((c.doPromote y).1).Gone x := by
  obtain ⟨h1, h2, h3⟩ := h
  unfold LayeredCache.doPromote
  dsimp only
  split_ifs with hs he hp
  · exact ⟨h1, h2, h3⟩
  · refine ⟨?_, h2, ?_⟩
    · simp only [listMoveToFront]
      split_ifs with hm
      · intro hx
        rcases List.mem_cons.mp hx with rfl | hx
        · exact h1 hm
        · exact h1 (List.mem_of_mem_erase hx)
      · exact h1
    · by_cases hxy : x = y
      · subst hxy
        right
        simp only [Function.update_same, Item.shouldPromote]
        exact he
      · simp only [Function.update_noteq hxy]
        exact h3
  · refine ⟨h1, h2, ?_⟩
    by_cases hxy : x = y
    · subst hxy
      right
      simp only [Function.update_same, Item.shouldPromote]
      exact he
    · simp only [Function.update_noteq hxy]
      exact h3
  · have hxy : x ≠ y := by
      intro hxy
      subst hxy
      rcases h3 with h3 | h3
      · exact hs h3
      · exact he h3
    refine ⟨?_, h2, ?_⟩
    · simp only [listPushFront, List.mem_cons]
      intro hx
      rcases hx with hx | hx
      · exact hxy hx
      · exact h1 hx
    · simp only [Function.update_noteq hxy]
      exact h3

theorem LayeredCache.layered_Gone_workerDelete (c c1 : LayeredCache) (x : ItemId)
    (h : c.Gone x) (hs : c.workerDelete = some c1) : c1.Gone x := by
  simp only [LayeredCache.workerDelete] at hs
  cases hq : c.deletables with
  | nil => simp [hq] at hs
  | cons y rest =>
    simp only [hq] at hs
    obtain ⟨h1, h2, h3⟩ := h
    by_cases he : (c.items y).element = false
    · rw [if_pos he] at hs
      rw [← Option.some.inj hs]
      refine ⟨h1, h2, ?_⟩
      by_cases hxy : x = y
      · subst hxy
        left
        simp only [Function.update_same]
      · simp only [Function.update_noteq hxy]
        exact h3
    · rw [if_neg he] at hs
      rw [← Option.some.inj hs]
      exact ⟨fun hx => h1 (List.mem_of_mem_erase hx), h2, h3⟩

theorem LayeredCache.layered_gc_sublist (c : LayeredCache) : c.gc.list.Sublist c.list := by
  rw [LayeredCache.layered_gc_list]
  conv => rhs; rw [← List.take_append_drop (c.list.length - c.config.itemsToPrune) c.list]
  exact List.Sublist.append (List.Sublist.refl _) (List.filter_sublist _)

theorem LayeredCache.layered_Gone_gc (c : LayeredCache) (x : ItemId) (h : c.Gone x) :
    c.gc.Gone x := by
  obtain ⟨h1, h2, h3⟩ := h
  refine ⟨fun hx => h1 (c.layered_gc_sublist.subset hx), ?_, ?_⟩
  · rw [LayeredCache.gc, LayeredCache.layered_gcLoop_nextItem]; exact h2
  · rw [LayeredCache.layered_gc_items]
    split
    · left; rfl
    · exact h3

theorem LayeredCache.layered_Gone_afterSet (c : LayeredCache) (p s : String) (v : Value)
    (d now : Int) (x : ItemId) (h : c.Gone x) : (c.afterSet p s v d now).Gone x := by
  obtain ⟨h1, h2, h3⟩ := h
  have hne : x ≠ c.nextItem := Nat.ne_of_lt h2
  refine ⟨h1, Nat.lt_succ_of_lt h2, ?_⟩
  simp only [LayeredCache.afterSet, Function.update_noteq hne]
  exact h3

theorem LayeredCache.layered_Gone_Set (c c1 : LayeredCache) (p s : String) (v : Value)
    (d now : Int) (x : ItemId) (h : c.Gone x) (hs : c.Set p s v d now = some c1) :
    c1.Gone x := by
  simp only [LayeredCache.Set, Option.map_eq_some'] at hs
  obtain ⟨r, hr, h2⟩ := hs
  rw [← h2, LayeredCache.layered_set_some_eq c p s v d now r hr]
  exact LayeredCache.layered_Gone_afterSet c p s v d now x h

theorem LayeredCache.layered_Gone_Get (c c1 : LayeredCache) (p s : String) (now : Int)
    (r : Option ItemId) (x : ItemId) (h : c.Gone x) (hs : c.Get p s now = some (c1, r)) :
    c1.Gone x := by
  obtain ⟨_, hc⟩ := LayeredCache.layered_Get_cases c c1 p s now r hs
  rcases hc with rfl | ⟨item, _, _, rfl⟩
  · exact h
  · exact h

theorem LayeredCache.layered_Gone_TrackingGet (c c1 : LayeredCache) (p s : String) (now : Int)
    (r : Option ItemId) (x : ItemId) (h : c.Gone x)
    (hs : c.TrackingGet p s now = some (c1, r)) : c1.Gone x := by
  simp only [LayeredCache.TrackingGet, Option.map_eq_some'] at hs
  obtain ⟨⟨cg, og⟩, hg, h2⟩ := hs
  have hl := LayeredCache.layered_Gone_Get c cg p s now og x h hg
  cases og with
  | none =>
    simp only [Prod.mk.injEq] at h2
    rw [← h2.1]; exact hl
  | some item =>
    simp only [Prod.mk.injEq] at h2
    rw [← h2.1]
    obtain ⟨h1, h3, h4⟩ := hl
    refine ⟨h1, h3, ?_⟩
    by_cases hxi : x = item
    · subst hxi
      simp only [Function.update_same, Item.track]
      exact h4
    · simp only [Function.update_noteq hxi]
      exact h4

theorem LayeredCache.layered_Gone_Replace (c c1 : LayeredCache) (p s : String) (v : Value)
    (now now2 : Int) (b : Bool) (x : ItemId) (h : c.Gone x)
    (hs : c.Replace p s v now now2 = some (c1, b)) : c1.Gone x := by
  unfold LayeredCache.Replace at hs
  cases hb : (c.buckets (c.bucket p)).get p s with
  | none =>
    simp only [hb, Option.some.injEq, Prod.mk.injEq] at hs
    rw [← hs.1]; exact h
  | some item =>
    simp only [hb, Option.map_eq_some'] at hs
    obtain ⟨c2, hset, h2⟩ := hs
    rw [← (Prod.mk.inj h2).1]
    exact LayeredCache.layered_Gone_Set c c2 p s v _ now2 x h hset

theorem LayeredCache.layered_Gone_Delete (c c1 : LayeredCache) (p s : String) (b : Bool)
    (x : ItemId) (h : c.Gone x) (hs : c.Delete p s = some (c1, b)) : c1.Gone x := by
  unfold LayeredCache.Delete at hs
  cases hg : ((c.buckets (c.bucket p)).delete p s).2 with
  | none =>
    simp only [hg, Option.some.injEq, Prod.mk.injEq] at hs
    rw [← hs.1]
    exact h
  | some item =>
    simp only [hg, Option.map_eq_some'] at hs
    obtain ⟨q, _, h5⟩ := hs
    rw [← (Prod.mk.inj h5).1]
    exact h

theorem LayeredCache.layered_Gone_DeleteAll (c c1 : LayeredCache) (p : String) (b : Bool)
    (x : ItemId) (h : c.Gone x) (hs : c.DeleteAll p = some (c1, b)) : c1.Gone x := by
  simp only [LayeredCache.DeleteAll, Option.map_eq_some'] at hs
  obtain ⟨r, _, h5⟩ := hs
  rw [← (Prod.mk.inj h5).1]
  exact h

theorem LayeredCache.layered_Gone_Clear (c : LayeredCache) (x : ItemId) (h : c.Gone x) :
    c.Clear.Gone x := by
  obtain ⟨_, h2, h3⟩ := h
  exact ⟨by simp [LayeredCache.Clear], h2, h3⟩

theorem LayeredCache.layered_Gone_workerStep (c c1 : LayeredCache) (e : WorkerEvent)
    (x : ItemId) (h : c.Gone x) (hs : c.workerStep e = some c1) : c1.Gone x := by
  cases e with
  | promotion =>
    simp only [LayeredCache.workerStep, LayeredCache.workerPromote] at hs
    cases hq : c.promotables with
    | nil => simp [hq] at hs
    | cons y rest =>
      simp only [hq] at hs
      have hl : LayeredCache.Gone { c with promotables := rest } x := h
      have hk := LayeredCache.layered_Gone_doPromote { c with promotables := rest } x y hl
      split at hs
      · rw [← Option.some.inj hs]
        exact LayeredCache.layered_Gone_gc _ x hk
      · rw [← Option.some.inj hs]
        exact hk
  | deletion => exact LayeredCache.layered_Gone_workerDelete c c1 x h hs

theorem LayeredCache.layered_Gone_step (c c1 : LayeredCache) (op : LayeredOp) (x : ItemId)
    (h : c.Gone x) (hs : c.step op = some c1) : c1.Gone x := by
  cases op with
  | set p s value duration now =>
    exact LayeredCache.layered_Gone_Set c c1 p s value duration now x h hs
  | get p s now =>
    simp only [LayeredCache.step, Option.map_eq_some'] at hs
    obtain ⟨⟨c2, r⟩, hg, h2⟩ := hs
    rw [← h2]
    exact LayeredCache.layered_Gone_Get c c2 p s now r x h hg
  | trackingGet p s now =>
    simp only [LayeredCache.step, Option.map_eq_some'] at hs
    obtain ⟨⟨c2, r⟩, hg, h2⟩ := hs
    rw [← h2]
    exact LayeredCache.layered_Gone_TrackingGet c c2 p s now r x h hg
  | replace p s value now now2 =>
    simp only [LayeredCache.step, Option.map_eq_some'] at hs
    obtain ⟨⟨c2, b⟩, hg, h2⟩ := hs
    rw [← h2]
    exact LayeredCache.layered_Gone_Replace c c2 p s value now now2 b x h hg
  | delete p s =>
    simp only [LayeredCache.step, Option.map_eq_some'] at hs
    obtain ⟨⟨c2, b⟩, hg, h2⟩ := hs
    rw [← h2]
    exact LayeredCache.layered_Gone_Delete c c2 p s b x h hg
  | deleteAll p =>
    simp only [LayeredCache.step, Option.map_eq_some'] at hs
    obtain ⟨⟨c2, b⟩, hg, h2⟩ := hs
    rw [← h2]
    exact LayeredCache.layered_Gone_DeleteAll c c2 p b x h hg
  | worker e => exact LayeredCache.layered_Gone_workerStep c c1 e x h hs
  | gc =>
    simp only [LayeredCache.step] at hs
    rw [← Option.some.inj hs]
    exact LayeredCache.layered_Gone_gc c x h
  | clear =>
    simp only [LayeredCache.step] at hs
    rw [← Option.some.inj hs]
    exact LayeredCache.layered_Gone_Clear c x h

theorem LayeredCache.layered_Gone_run (ops : List LayeredOp) (c c1 : LayeredCache) (x : ItemId)
    (h : c.Gone x) (hs : c.run ops = some c1) : c1.Gone x := by
  induction ops generalizing c with
  | nil =>
    simp only [LayeredCache.run] at hs
    rw [← Option.some.inj hs]; exact h
  | cons op ops ih =>
    simp only [LayeredCache.run] at hs
    cases hstep : c.step op with
    | none => simp [hstep] at hs
    | some c2 =>
      simp only [hstep, Option.some_bind] at hs
      exact ih c2 (LayeredCache.layered_Gone_step c c2 op x h hstep) hs

theorem LayeredCache.layered_Gone_of_workerDelete (c c1 : LayeredCache) (x : ItemId)
    (rest : List ItemId) (h : c.Linked) (hx : x < c.nextItem) (hq : c.deletables = x :: rest)
    (hs : c.workerDelete = some c1) : c1.Gone x := by
  obtain ⟨h1, h2, _, _⟩ := h
  simp only [LayeredCache.workerDelete, hq] at hs
  by_cases he : (c.items x).element = false
  · rw [if_pos he] at hs
    rw [← Option.some.inj hs]
    refine ⟨fun hm => ?_, hx, ?_⟩
    · have := (h2 x hm).1
      rw [he] at this
      exact absurd this (by simp)
    · left
      simp only [Function.update_same]
  · rw [if_neg he] at hs
    rw [← Option.some.inj hs]
    refine ⟨fun hm => ((List.Nodup.mem_erase_iff h1).mp hm).1 rfl, hx, ?_⟩
    right
    simpa using he

theorem LayeredCache.layered_Gone_of_gc (c : LayeredCache) (x : ItemId) (h : c.Linked)
    (hx : x ∈ c.list) (hg : x ∉ c.gc.list) :
    c.gc.Gone x ∧ (c.gc.items x).promotions = -2 := by
  obtain ⟨_, h2, _, _⟩ := h
  have hp : (c.gc.items x).promotions = -2 := by
    rw [LayeredCache.layered_gc_items, LayeredCache.layered_gcEvictions_ids]
    rw [LayeredCache.layered_gc_list] at hg
    have hx2 : x ∈ c.list.take (c.list.length - c.config.itemsToPrune) ++
        c.list.drop (c.list.length - c.config.itemsToPrune) := by
      rw [List.take_append_drop]; exact hx
    simp only [List.mem_append, List.mem_filter, not_or, not_and] at hg
    rcases List.mem_append.mp hx2 with hx3 | hx3
    · exact absurd hx3 hg.1
    · have hce : c.canEvict x = true := by
        have := hg.2 hx3
        simpa using this
      have hv : x ∈ c.gcVisited.filter c.canEvict := by
        simp only [List.mem_filter, LayeredCache.gcVisited, List.take_reverse, List.mem_reverse]
        exact ⟨hx3, hce⟩
      rw [if_pos hv]
  refine ⟨⟨hg, ?_, Or.inl hp⟩, hp⟩
  rw [LayeredCache.gc, LayeredCache.layered_gcLoop_nextItem]
  exact (h2 x hx).2

theorem LayeredCache.layered_doPromote_not_linked (c : LayeredCache) (x : ItemId)
    (h : (c.items x).promotions = -2 ∨ (c.items x).element = true) (hx : x ∉ c.list) :
    ((c.doPromote x).1).list = c.list := by
  unfold LayeredCache.doPromote
  dsimp only
  split_ifs with hs he hp
  · rfl
  · simp only [listMoveToFront, hx, if_false]
  · rfl
  · rcases h with h | h
    · exact absurd h hs
    · exact absurd h he

/-! ## Each item is linked at most once -/

/-- C19: in every state `c` of the flat cache and `lc` of the layered cache reached
from a fresh cache by calls of the API and steps of the worker (promotion events,
deletion events, `gc` passes, `Clear`), no item occurs twice in the recency list.
Moreover an allocated item whose deletion the worker has processed, and an item that
`gc` has evicted, is in the list of no later state, and `doPromote` of it leaves the
list as it is. -/
theorem each_item_linked_once (config : Configuration) (ops : List CacheOp) (c : Cache)
    (lops : List LayeredOp) (lc : LayeredCache)
    (h : (New config).run ops = some c) (hl : (Layered config).run lops = some lc) :
    (c.list.Nodup ∧
      (∀ x, x < c.nextItem → ∀ ops2 c2, (c.doDelete x).run ops2 = some c2 →
        x ∉ c2.list ∧ ((c2.doPromote x).1).list = c2.list) ∧
      (∀ x ∈ c.list, x ∉ c.gc.list → ∀ ops2 c2, c.gc.run ops2 = some c2 →
        x ∉ c2.list ∧ ((c2.doPromote x).1).list = c2.list)) ∧
    (lc.list.Nodup ∧
      (∀ x rest c1, x < lc.nextItem → lc.deletables = x :: rest → lc.workerDelete = some c1 →
        ∀ ops2 c2, c1.run ops2 = some c2 →
          x ∉ c2.list ∧ ((c2.doPromote x).1).list = c2.list) ∧
      (∀ x ∈ lc.list, x ∉ lc.gc.list → ∀ ops2 c2, lc.gc.run ops2 = some c2 →
        x ∉ c2.list ∧ ((c2.doPromote x).1).list = c2.list)) := by
  have hc : c.Linked := Cache.Linked_run ops _ c (Cache.Linked_New config) h
  have hlc : lc.Linked :=
    LayeredCache.layered_Linked_run lops _ lc (LayeredCache.layered_Linked_Layered config) hl
  refine ⟨⟨hc.1, ?_, ?_⟩, ⟨hlc.1, ?_, ?_⟩⟩
  · intro x hx ops2 c2 h2
    have hg := Cache.Gone_run ops2 _ c2 x (Cache.Gone_of_doDelete c x hc hx) h2
    exact ⟨hg.1, Cache.doPromote_not_linked c2 x hg.2.2 hg.1⟩
  · intro x hx hgc ops2 c2 h2
    have hg := Cache.Gone_run ops2 _ c2 x (Cache.Gone_of_gc c x hc hx hgc).1 h2
    exact ⟨hg.1, Cache.doPromote_not_linked c2 x hg.2.2 hg.1⟩
  · intro x rest c1 hx hq hw ops2 c2 h2
    have hg := LayeredCache.layered_Gone_run ops2 _ c2 x
      (LayeredCache.layered_Gone_of_workerDelete lc c1 x rest hlc hx hq hw) h2
    exact ⟨hg.1, LayeredCache.layered_doPromote_not_linked c2 x hg.2.2 hg.1⟩
  · intro x hx hgc ops2 c2 h2
    have hg := LayeredCache.layered_Gone_run ops2 _ c2 x
      (LayeredCache.layered_Gone_of_gc lc x hlc hx hgc).1 h2
    exact ⟨hg.1, LayeredCache.layered_doPromote_not_linked c2 x hg.2.2 hg.1⟩

/-- The statement of C19 on caches where "a" and "b" are linked and the promotion and
the deletion of the item of "a" are queued: after the worker has processed the
deletion and then the promotion, that item is not linked. -/
theorem each_item_linked_once_witness :
    ((New Configure).run linkedOps = some linkedFlat ∧
      (Layered Configure).run linkedLayeredOps = some linkedLayered) ∧
    (linkedFlat.list = [1, 0] ∧ linkedFlat.promotables = [0] ∧ linkedFlat.list.Nodup ∧
      0 ∉ relinkedFlat.list) ∧
    (linkedLayered.list = [1, 0] ∧ linkedLayered.promotables = [0] ∧
      linkedLayered.list.Nodup ∧ 0 ∉ relinkedLayered.list) :=
  have h := each_item_linked_once Configure linkedOps linkedFlat linkedLayeredOps linkedLayered
    rfl rfl
  ⟨⟨rfl, rfl⟩,
    ⟨by decide, by decide, h.1.1,
      (h.1.2.1 0 (by decide) [CacheOp.worker WorkerEvent.promotion] relinkedFlat rfl).1⟩,
    ⟨by decide, by decide, h.2.1,
      (h.2.2.1 0 [] unlinkedAgain (by decide) (by decide) rfl
        [LayeredOp.worker WorkerEvent.promotion] relinkedLayered rfl).1⟩⟩

/-! ## The termination of the worker -/

theorem Cache.doDelete_deletables (c : Cache) (x : ItemId) :
    (c.doDelete x).deletables = c.deletables := by
  unfold Cache.doDelete
  split <;> rfl

theorem Cache.drainLoop_deletables (q : List ItemId) (c : Cache) (h : c.deletables = q) :
    (Cache.drainLoop q c).deletables = [] := by
  induction q generalizing c with
  | nil => exact h
  | cons item rest ih =>
    unfold Cache.drainLoop
    apply ih
    rw [Cache.doDelete_deletables]

/-- The worker of the flat cache is done only with an empty deletion channel. -/
theorem Cache.workerExit_drained (c c1 : Cache) (h : c.workerExit = some c1) :
    c1.deletables = [] ∧ c1.deletablesClosed = true ∧ c1.donec = true := by
  unfold Cache.workerExit at h
  split at h
  · rw [← Option.some.inj h]
    exact ⟨Cache.drainLoop_deletables _ c rfl, rfl, rfl⟩
  · exact absurd h (by simp)

/-- The worker of the layered cache leaves the deletion channel as it finds it. -/
theorem LayeredCache.layered_workerExit_undrained (c c1 : LayeredCache)
    (h : c.workerExit = some c1) :
    c1.deletables = c.deletables ∧ c1.list = c.list ∧ c1.size = c.size ∧ c1.donec = true := by
  unfold LayeredCache.workerExit at h
  split at h
  · rw [← Option.some.inj h]
    exact ⟨rfl, rfl, rfl, rfl⟩
  · exact absurd h (by simp)

/-- C20, the code at the failing input: on a layered cache a key is set, the worker
processes its promotion, the key is deleted, which queues the deletion of its item,
and `Stop` closes the promotion channel; the worker then receives `ok == false` and
terminates: `donec` is closed while the deletion of item 0 is still queued, the item
is still linked and its size still counted.  On the flat cache the same steps leave
the deletion channel empty and closed, the list empty and the size 0. -/
theorem layered_worker_exits_undrained :
    stoppedLayered.map (fun c => (c.donec, c.deletables, c.list, c.size)) =
      some (true, [0], [0], 1) ∧
    stoppedFlat.map (fun c => (c.donec, c.deletablesClosed, c.deletables, c.list, c.size)) =
      some (true, true, [], [], 0) :=
  ⟨by decide, by decide⟩

/-! ## `Get` with a full promotion channel -/

theorem Cache.promote_full (c : Cache) (item : ItemId)
    (hfull : c.config.promoteBuffer ≤ c.promotables.length) : c.promote item = none := by
  simp [Cache.promote, send, Nat.not_lt.mpr hfull]

/-- `Get` of a present, unexpired key blocks when the promotion channel is full. -/
theorem Cache.Get_full (c : Cache) (key : String) (now : Int) (item : ItemId)
    (hfull : c.config.promoteBuffer ≤ c.promotables.length)
    (hget : (c.buckets (c.bucket key)).get key = some item)
    (hexp : (c.items item).expires > now) : c.Get key now = none := by
  simp [Cache.Get, hget, hexp, Cache.promote_full c item hfull]

theorem LayeredCache.layered_promote_full (c : LayeredCache) (item : ItemId)
    (hfull : c.config.promoteBuffer ≤ c.promotables.length) : c.promote item = none := by
  simp [LayeredCache.promote, send, Nat.not_lt.mpr hfull]

/-- `Get` of a present, unexpired key blocks when the promotion channel is full, on
the layered cache. -/
theorem LayeredCache.layered_Get_full (c : LayeredCache) (p s : String) (now : Int)
    (item : ItemId) (hfull : c.config.promoteBuffer ≤ c.promotables.length)
    (hget : (c.buckets (c.bucket p)).get p s = some item)
    (hexp : (c.items item).expires > now) : c.Get p s now = none := by
  simp [LayeredCache.Get, hget, hexp, LayeredCache.layered_promote_full c item hfull]

/-- C21, the code at the failing input: on a cache whose promotion channel has
capacity 1, `Set("a")` at clock reading 0 with a ttl of 60 queues the promotion of
item 0, so the channel is full; the key is present and unexpired.  `Get("a")` then
does not return: `promote` is a plain send on the full channel and blocks.  The same
holds on the layered cache. -/
theorem get_blocks_on_full_promotions :
    (fullFlat.map (fun c => (c.promotables, c.config.promoteBuffer,
        (c.buckets (c.bucket "a")).get "a", decide ((c.items 0).expires > 0))) =
      some ([0], 1, some 0, true) ∧
      (fullFlat.bind (fun c => c.Get "a" 0)).isNone = true) ∧
    (fullLayered.map (fun c => (c.promotables, c.config.promoteBuffer,
        (c.buckets (c.bucket "p")).get "p" "a", decide ((c.items 0).expires > 0))) =
      some ([0], 1, some 0, true) ∧
      (fullLayered.bind (fun c => c.Get "p" "a" 0)).isNone = true) :=
  ⟨⟨by decide, by decide⟩, ⟨by decide, by decide⟩⟩

/-! ## The worker of a fresh cache -/

/-- C22, the code on every configuration: `Layered` starts one worker, and `Stop` on
the fresh layered cache closes the promotion channel and returns with `donec` closed.
`New` starts no worker (the statement `go c.worker()` of `restart` is commented out),
so `Stop` on the fresh flat cache closes the promotion channel and then never
returns, whatever events are queued: nothing closes `donec`. -/
theorem flat_cache_has_no_worker (config : Configuration) (es : List WorkerEvent) :
    ((New config).workers = 0 ∧ (New config).Stop es = none) ∧
    ((Layered config).workers = 1 ∧
      ((Layered config).Stop []).map (fun c => (c.promotablesClosed, c.donec, c.workers)) =
        some (true, true, 1)) := by
  refine ⟨⟨rfl, ?_⟩, ⟨rfl, ?_⟩⟩
  · simp [Cache.Stop, New, Cache.restart, Cache.closePromotables]
  · simp [LayeredCache.Stop, Layered, LayeredCache.restart, LayeredCache.closePromotables,
      LayeredCache.workerRun, LayeredCache.workerExit]

/-! ## `GetOrCreateSecondaryCache` -/

theorem layeredBucket_filter_of_none (b : layeredBucket) (p : String)
    (h : b.getSecondaryBucket p = none) : b.buckets.filter (fun e => e.1 ≠ p) = b.buckets := by
  simp only [layeredBucket.getSecondaryBucket, Option.map_eq_none', List.find?_eq_none] at h
  rw [List.filter_eq_self]
  intro e he
  simpa using h e he

theorem layeredBucket_itemCount_store_empty (b : layeredBucket) (p : String)
    (h : b.getSecondaryBucket p = none) :
    (b.store p { lookup := [] }).itemCount = b.itemCount := by
  unfold layeredBucket.store layeredBucket.itemCount
  simp only [layeredBucket_filter_of_none b p h, List.map_cons, List.sum_cons, bucket.itemCount,
    List.length_nil, Nat.zero_add]

theorem layeredBucket_get_store_empty (b : layeredBucket) (p p2 s2 : String)
    (h : b.getSecondaryBucket p = none) :
    (b.store p { lookup := [] }).get p2 s2 = b.get p2 s2 := by
  by_cases hp : p2 = p
  · subst hp
    rw [layeredBucket_get_store_same]
    simp [layeredBucket.get, h, bucket.get]
  · exact layeredBucket_get_store_other b p p2 s2 _ hp

theorem LayeredCache.layered_secondary_existing (c : LayeredCache) (p : String) (bkt : CCache.bucket)
    (h : (c.buckets (c.bucket p)).getSecondaryBucket p = some bkt) :
    c.GetOrCreateSecondaryCache p = (c, { bucket := bkt }) := by
  simp [LayeredCache.GetOrCreateSecondaryCache, h]

theorem LayeredCache.layered_secondary_created (c : LayeredCache) (p : String)
    (h : (c.buckets (c.bucket p)).getSecondaryBucket p = none) :
    c.GetOrCreateSecondaryCache p =
      ({ c with
          buckets := Function.update c.buckets (c.bucket p)
            ((c.buckets (c.bucket p)).store p { lookup := [] }) },
        { bucket := { lookup := [] } }) := by
  simp [LayeredCache.GetOrCreateSecondaryCache, h]

theorem LayeredCache.layered_secondary_bound (c : LayeredCache) (p : String) :
    (((c.GetOrCreateSecondaryCache p).1).buckets (c.bucket p)).getSecondaryBucket p =
      some (c.GetOrCreateSecondaryCache p).2.bucket := by
  cases h : (c.buckets (c.bucket p)).getSecondaryBucket p with
  | some bkt =>
    rw [LayeredCache.layered_secondary_existing c p bkt h]
    exact h
  | none =>
    rw [LayeredCache.layered_secondary_created c p h]
    simp only [Function.update_same]
    exact layeredBucket_store_same _ p _

theorem LayeredCache.layered_secondary_lookup (c : LayeredCache) (p : String) (i : Nat)
    (p2 s2 : String) :
    (((c.GetOrCreateSecondaryCache p).1).buckets i).get p2 s2 = (c.buckets i).get p2 s2 := by
  cases h : (c.buckets (c.bucket p)).getSecondaryBucket p with
  | some bkt => rw [LayeredCache.layered_secondary_existing c p bkt h]
  | none =>
    rw [LayeredCache.layered_secondary_created c p h]
    by_cases hi : i = c.bucket p
    · subst hi
      simp only [Function.update_same]
      exact layeredBucket_get_store_empty _ p p2 s2 h
    · simp only [Function.update_noteq hi]

theorem LayeredCache.layered_secondary_count (c : LayeredCache) (p : String) :
    ((c.GetOrCreateSecondaryCache p).1).ItemCount = c.ItemCount := by
  cases h : (c.buckets (c.bucket p)).getSecondaryBucket p with
  | some bkt => rw [LayeredCache.layered_secondary_existing c p bkt h]
  | none =>
    rw [LayeredCache.layered_secondary_created c p h]
    simp only [LayeredCache.ItemCount]
    congr 1
    apply List.map_congr_left
    intro i _
    by_cases hi : i = c.bucket p
    · subst hi
      simp only [Function.update_same]
      exact layeredBucket_itemCount_store_empty _ p h
    · simp only [Function.update_noteq hi]

/-- C23: on every layered cache and primary key `p`, `GetOrCreateSecondaryCache(p)`
returns a secondary cache bound to the bucket that is stored under `p` afterwards.
When `p` already had a bucket, that bucket is returned and the cache is unchanged;
when `p` had none, an empty bucket is registered under `p` and returned.  In both
cases `ItemCount()`, the item found under every pair of keys, the items, the list,
the size and the channels are unchanged. -/
theorem secondary_cache_bound_to_bucket (c : LayeredCache) (p : String) :
    (((c.GetOrCreateSecondaryCache p).1).buckets
        ((c.GetOrCreateSecondaryCache p).1.bucket p)).getSecondaryBucket p =
      some (c.GetOrCreateSecondaryCache p).2.bucket ∧
    (∀ bkt, (c.buckets (c.bucket p)).getSecondaryBucket p = some bkt →
      c.GetOrCreateSecondaryCache p = (c, { bucket := bkt })) ∧
    ((c.buckets (c.bucket p)).getSecondaryBucket p = none →
      (c.GetOrCreateSecondaryCache p).2.bucket = { lookup := [] } ∧
      (c.GetOrCreateSecondaryCache p).2.bucket.itemCount = 0) ∧
    ((c.GetOrCreateSecondaryCache p).1).ItemCount = c.ItemCount ∧
    (∀ i p2 s2, (((c.GetOrCreateSecondaryCache p).1).buckets i).get p2 s2 =
      (c.buckets i).get p2 s2) ∧
    ((c.GetOrCreateSecondaryCache p).1).items = c.items ∧
    ((c.GetOrCreateSecondaryCache p).1).list = c.list ∧
    ((c.GetOrCreateSecondaryCache p).1).size = c.size ∧
    ((c.GetOrCreateSecondaryCache p).1).promotables = c.promotables ∧
    ((c.GetOrCreateSecondaryCache p).1).deletables = c.deletables := by
  have hframe : ((c.GetOrCreateSecondaryCache p).1).bucketMask = c.bucketMask ∧
      ((c.GetOrCreateSecondaryCache p).1).items = c.items ∧
      ((c.GetOrCreateSecondaryCache p).1).list = c.list ∧
      ((c.GetOrCreateSecondaryCache p).1).size = c.size ∧
      ((c.GetOrCreateSecondaryCache p).1).promotables = c.promotables ∧
      ((c.GetOrCreateSecondaryCache p).1).deletables = c.deletables := by
    cases h : (c.buckets (c.bucket p)).getSecondaryBucket p with
    | some bkt =>
      rw [LayeredCache.layered_secondary_existing c p bkt h]
      exact ⟨rfl, rfl, rfl, rfl, rfl, rfl⟩
    | none =>
      rw [LayeredCache.layered_secondary_created c p h]
      exact ⟨rfl, rfl, rfl, rfl, rfl, rfl⟩
  have hidx : (c.GetOrCreateSecondaryCache p).1.bucket p = c.bucket p := by
    simp only [LayeredCache.bucket, hframe.1]
  refine ⟨?_, ?_, ?_, LayeredCache.layered_secondary_count c p,
    fun i p2 s2 => LayeredCache.layered_secondary_lookup c p i p2 s2, hframe.2⟩
  · rw [hidx]
    exact LayeredCache.layered_secondary_bound c p
  · intro bkt h
    exact LayeredCache.layered_secondary_existing c p bkt h
  · intro h
    rw [LayeredCache.layered_secondary_created c p h]
    exact ⟨rfl, rfl⟩

/-- The statement of C23 on the layered cache that holds ("p", "x"), for the primary
key "p", which has a bucket, and for "q", which has none. -/
theorem secondary_cache_bound_to_bucket_witness :
    ((heldLayered.buckets (heldLayered.bucket "p")).getSecondaryBucket "p" =
        some { lookup := [("x", 0)] } ∧
      (heldLayered.buckets (heldLayered.bucket "q")).getSecondaryBucket "q" = none) ∧
    (heldLayered.GetOrCreateSecondaryCache "p").2 = { bucket := { lookup := [("x", 0)] } } ∧
    (heldLayered.GetOrCreateSecondaryCache "q").2.bucket = { lookup := [] } ∧
    ((heldLayered.GetOrCreateSecondaryCache "q").1).ItemCount = 1 :=
  ⟨⟨by decide, by decide⟩,
    congrArg Prod.snd
      ((secondary_cache_bound_to_bucket heldLayered "p").2.1 { lookup := [("x", 0)] }
        (by decide)),
    ((secondary_cache_bound_to_bucket heldLayered "q").2.2.1 (by decide)).1,
    ((secondary_cache_bound_to_bucket heldLayered "q").2.2.2.1).trans (by decide)⟩

/-! ## The methods a service registers -/

namespace Rpc

/-- The first rune decides, and an upper case letter outside ASCII counts as well. -/
theorem isExported_examples :
    isExported "Args" = true ∧ isExported "args" = false ∧ isExported "Ärgs" = true ∧
    isExported "ärgs" = false ∧ isExported "Ωmega" = true ∧ isExported "_x" = false ∧
    isExported "" = false := by
  decide

/-- What the loop of `suitableMethods` tests: the reply type only has to be a
pointer. -/
theorem suitableMethod_isSome (method : Method) :
    (suitableMethod method).isSome = true ↔
      method.PkgPath = "" ∧ ∃ recv argType replyType,
        method.ins = [recv, argType, replyType] ∧ isExportedOrBuiltinType argType = true ∧
        replyType.isPtr = true ∧ method.outs = [typeOfError] := by
  unfold suitableMethod
  by_cases hpkg : method.PkgPath = ""
  · rcases hi : method.ins with _ | ⟨recv, _ | ⟨argType, _ | ⟨replyType, _ | ⟨x, rest⟩⟩⟩⟩
    · simp [hpkg]
    · simp [hpkg]
    · simp [hpkg]
    · rcases ho : method.outs with _ | ⟨ret, _ | ⟨y, r⟩⟩
      · simp [hpkg]
      · by_cases harg : isExportedOrBuiltinType argType = true
        · by_cases hptr : replyType.isPtr = true
          · by_cases hret : ret = typeOfError
            · simp only [hpkg, harg, hptr, hret, ne_eq, not_true_eq_false, if_false, Bool.not_true,
                Bool.false_eq_true, Option.isSome_some, true_and, true_iff]
              exact ⟨recv, argType, replyType, rfl, harg, hptr, trivial⟩
            · simp [hpkg, harg, hptr, hret]
          · simp [hpkg, harg, hptr]
        · simp [hpkg, harg]
      · simp [hpkg]
    · simp [hpkg]
  · simp [hpkg]

/-- C24, the code at the failing input: the method `Add` of the receiver `*Arith` is
exported, takes an argument of the exported type `Args` and a reply of type
`*result`, a pointer to an unexported type that is not builtin, and returns `error`.
`suitableMethods` registers it: the reply type is never tested for being exported,
the test of the argument type is made twice.  The method `Mul`, whose argument type
is unexported, is not registered. -/
theorem unexported_reply_type_registered :
    isExportedOrBuiltinType (RType.ptr (RType.named "result" "main")) = false ∧
    isExportedOrBuiltinType (RType.named "Args" "main") = true ∧
    suitableMethods [addMethod] = [("Add", { name := "Add" })] ∧
    suitableMethods [mulMethod] = [] ∧
    suitableMethods [addMethod, mulMethod] = [("Add", { name := "Add" })] := by
  decide

end Rpc

/-! ## What `doPromote` returns -/

theorem Cache.doPromote_spec (c : Cache) (item : ItemId) :
    ((c.doPromote item).2 = true ↔
        (c.items item).promotions ≠ -2 ∧ (c.items item).element = false) ∧
      ((c.doPromote item).2 = true →
        ((c.doPromote item).1).list = item :: c.list ∧
        ((c.doPromote item).1).size = wrap64 (c.size + (c.items item).size) ∧
        (isInt64 (c.size + (c.items item).size) →
          ((c.doPromote item).1).size = c.size + (c.items item).size)) ∧
      ((c.doPromote item).2 = false → ((c.doPromote item).1).size = c.size) := by
  unfold Cache.doPromote
  dsimp only
  split_ifs with hs he hp
  · simp [hs]
  · simp [he]
  · simp [he]
  · simp only [true_iff, forall_true_left, listPushFront, true_and]
    refine ⟨⟨hs, by simpa using he⟩, fun h => isInt64_wrap _ h, by simp⟩

theorem Cache.workerPromote_old (c : Cache) (item : ItemId) (rest : List ItemId)
    (hq : c.promotables = item :: rest)
    (h : (Cache.doPromote { c with promotables := rest } item).2 = false) :
    c.workerPromote = some (Cache.doPromote { c with promotables := rest } item).1 := by
  simp [Cache.workerPromote, hq, h]

theorem LayeredCache.layered_doPromote_spec (c : LayeredCache) (item : ItemId) :
    ((c.doPromote item).2 = true ↔
        (c.items item).promotions ≠ -2 ∧ (c.items item).element = false) ∧
      ((c.doPromote item).2 = true →
        ((c.doPromote item).1).list = item :: c.list ∧
        ((c.doPromote item).1).size = wrap64 (c.size + (c.items item).size) ∧
        (isInt64 (c.size + (c.items item).size) →
          ((c.doPromote item).1).size = c.size + (c.items item).size)) ∧
      ((c.doPromote item).2 = false → ((c.doPromote item).1).size = c.size) := by
  unfold LayeredCache.doPromote
  dsimp only
  split_ifs with hs he hp
  · simp [hs]
  · simp [he]
  · simp [he]
  · simp only [true_iff, forall_true_left, listPushFront, true_and]
    refine ⟨⟨hs, by simpa using he⟩, fun h => isInt64_wrap _ h, by simp⟩

theorem LayeredCache.layered_workerPromote_old (c : LayeredCache) (item : ItemId)
    (rest : List ItemId) (hq : c.promotables = item :: rest)
    (h : (LayeredCache.doPromote { c with promotables := rest } item).2 = false) :
    c.workerPromote = some (LayeredCache.doPromote { c with promotables := rest } item).1 := by
  simp [LayeredCache.workerPromote, hq, h]

/-- C25: on every state of the flat cache `c` and of the layered cache `lc` and for
every item, `doPromote` returns true exactly when the item is not marked with the
sentinel -2 and has no list position.  In that case the list afterwards is the item
followed by the old list, and the total size is the old one plus the size of the item
(in int64 arithmetic; exactly that sum when it is an int64 value).  When `doPromote`
returns false the total size is unchanged, and the iteration of the worker that
processes such a promotion ends without a `gc` pass. -/
theorem promote_links_only_new_items (c : Cache) (lc : LayeredCache) (item : ItemId) :
    (((c.doPromote item).2 = true ↔
        (c.items item).promotions ≠ -2 ∧ (c.items item).element = false) ∧
      ((c.doPromote item).2 = true →
        ((c.doPromote item).1).list = item :: c.list ∧
        ((c.doPromote item).1).size = wrap64 (c.size + (c.items item).size) ∧
        (isInt64 (c.size + (c.items item).size) →
          ((c.doPromote item).1).size = c.size + (c.items item).size)) ∧
      ((c.doPromote item).2 = false → ((c.doPromote item).1).size = c.size) ∧
      (∀ rest, c.promotables = item :: rest →
        (Cache.doPromote { c with promotables := rest } item).2 = false →
        c.workerPromote = some (Cache.doPromote { c with promotables := rest } item).1)) ∧
    (((lc.doPromote item).2 = true ↔
        (lc.items item).promotions ≠ -2 ∧ (lc.items item).element = false) ∧
      ((lc.doPromote item).2 = true →
        ((lc.doPromote item).1).list = item :: lc.list ∧
        ((lc.doPromote item).1).size = wrap64 (lc.size + (lc.items item).size) ∧
        (isInt64 (lc.size + (lc.items item).size) →
          ((lc.doPromote item).1).size = lc.size + (lc.items item).size)) ∧
      ((lc.doPromote item).2 = false → ((lc.doPromote item).1).size = lc.size) ∧
      (∀ rest, lc.promotables = item :: rest →
        (LayeredCache.doPromote { lc with promotables := rest } item).2 = false →
        lc.workerPromote =
          some (LayeredCache.doPromote { lc with promotables := rest } item).1)) :=
  ⟨⟨(c.doPromote_spec item).1, (c.doPromote_spec item).2.1, (c.doPromote_spec item).2.2,
      fun rest hq h => c.workerPromote_old item rest hq h⟩,
    ⟨(lc.layered_doPromote_spec item).1, (lc.layered_doPromote_spec item).2.1,
      (lc.layered_doPromote_spec item).2.2,
      fun rest hq h => lc.layered_workerPromote_old item rest hq h⟩⟩

/-- The statement of C25 for item 0 on caches where it is new (the promotion links it
and the size grows from 0 to 1) and on the flat cache where it has been deleted after
it was linked (the promotion returns false and the size stays 1). -/
theorem promote_links_only_new_items_witness :
    ((promotedNew.doPromote 0).2 = true ∧ (layeredPromotedNew.doPromote 0).2 = true ∧
      isInt64 (promotedNew.size + (promotedNew.items 0).size) ∧
      isInt64 (layeredPromotedNew.size + (layeredPromotedNew.items 0).size) ∧
      (promotedOld.doPromote 0).2 = false) ∧
    (((promotedNew.doPromote 0).1).list = [0] ∧ ((promotedNew.doPromote 0).1).size = 1) ∧
    (((layeredPromotedNew.doPromote 0).1).list = [0] ∧
      ((layeredPromotedNew.doPromote 0).1).size = 1) ∧
    ((promotedOld.doPromote 0).1).size = 1 :=
  have h := promote_links_only_new_items promotedNew layeredPromotedNew 0
  have h2 := promote_links_only_new_items promotedOld layeredPromotedNew 0
  ⟨⟨by decide, by decide, by decide, by decide, by decide⟩,
    ⟨(h.1.2.1 (by decide)).1, ((h.1.2.1 (by decide)).2.2 (by decide)).trans (by decide)⟩,
    ⟨(h.2.2.1 (by decide)).1, ((h.2.2.1 (by decide)).2.2 (by decide)).trans (by decide)⟩,
    (h2.1.2.2.1 (by decide)).trans (by decide)⟩

/-! ## The total size is the sum of the sizes of the linked items -/

theorem sum_filter_split (l : List ItemId) (p : ItemId → Bool) (f : ItemId → Int) :
    (l.map f).sum = ((l.filter p).map f).sum + ((l.filter (fun x => !p x)).map f).sum := by
  induction l with
  | nil => rfl
  | cons a l ih =>
    by_cases h : p a = true
    · simp only [List.map_cons, List.sum_cons, List.filter_cons, h, if_true, Bool.not_true,
        Bool.false_eq_true, if_false, ih]
      omega
    · have h2 : p a = false := by simpa using h
      simp only [List.map_cons, List.sum_cons, List.filter_cons, h2, Bool.false_eq_true, if_false,
        Bool.not_false, if_true, ih]
      omega

theorem sum_erase_mem (l : List ItemId) (x : ItemId) (f : ItemId → Int) (h : x ∈ l) :
    f x + ((l.erase x).map f).sum = (l.map f).sum := by
  induction l with
  | nil => simp at h
  | cons a l ih =>
    by_cases hxa : a = x
    · subst hxa
      simp
    · have hx : x ∈ l := by
        rcases List.mem_cons.mp h with h1 | h1
        · exact absurd h1.symm hxa
        · exact h1
      have hne : (a == x) = false := by simpa using hxa
      simp only [List.erase_cons, hne, Bool.false_eq_true, if_false, List.map_cons, List.sum_cons]
      have := ih hx
      omega

theorem Cache.Sized_doPromote (c : Cache) (item : ItemId) (h : c.Sized) :
    ((c.doPromote item).1).Sized := by
  obtain ⟨h1, h2⟩ := h
  unfold Cache.doPromote
  dsimp only
  split_ifs with hs he hp
  · exact ⟨h1, h2⟩
  · have hsize : ∀ x, (Function.update c.items item
        { ((c.items item).shouldPromote c.config.getsPerPromote).1 with promotions := 0 } x).size =
        (c.items x).size := by
      intro x
      by_cases hx : x = item
      · subst hx; simp [Item.shouldPromote]
      · simp [Function.update_noteq hx]
    have helem : ∀ x, (Function.update c.items item
        { ((c.items item).shouldPromote c.config.getsPerPromote).1 with promotions := 0 } x).element =
        (c.items x).element := by
      intro x
      by_cases hx : x = item
      · subst hx; simp [Item.shouldPromote]
      · simp [Function.update_noteq hx]
    refine ⟨?_, ?_⟩
    · simp only [hsize, listMoveToFront]
      split_ifs with hm
      · have hsum := sum_erase_mem c.list item (fun x => (c.items x).size) hm
        dsimp only at hsum
        rw [List.map_cons, List.sum_cons, hsum]
        exact h1
      · exact h1
    · intro x hx
      rw [helem]
      apply h2
      simp only [listMoveToFront] at hx
      split_ifs at hx with hm
      · rcases List.mem_cons.mp hx with rfl | hx
        · exact hm
        · exact List.mem_of_mem_erase hx
      · exact hx
  · have hsize : ∀ x, (Function.update c.items item
        ((c.items item).shouldPromote c.config.getsPerPromote).1 x).size = (c.items x).size := by
      intro x
      by_cases hx : x = item
      · subst hx; simp [Item.shouldPromote]
      · simp [Function.update_noteq hx]
    have helem : ∀ x, (Function.update c.items item
        ((c.items item).shouldPromote c.config.getsPerPromote).1 x).element =
        (c.items x).element := by
      intro x
      by_cases hx : x = item
      · subst hx; simp [Item.shouldPromote]
      · simp [Function.update_noteq hx]
    refine ⟨?_, ?_⟩
    · simp only [hsize]
      exact h1
    · intro x hx
      rw [helem]
      exact h2 x hx
  · have hsize : ∀ x, (Function.update c.items item
        { c.items item with element := true } x).size = (c.items x).size := by
      intro x
      by_cases hx : x = item
      · subst hx; simp
      · simp [Function.update_noteq hx]
    refine ⟨?_, ?_⟩
    · simp only [hsize, listPushFront, List.map_cons, List.sum_cons]
      rw [h1, wrap64_add_wrap, Int.add_comm]
    · intro x hx
      simp only [listPushFront, List.mem_cons] at hx
      by_cases hxi : x = item
      · subst hxi; simp
      · rcases hx with hx | hx
        · exact absurd hx hxi
        · simp only [Function.update_noteq hxi]
          exact h2 x hx

theorem Cache.Sized_gc (c : Cache) (h : c.Sized) : c.gc.Sized := by
  obtain ⟨h1, h2⟩ := h
  have hsize : ∀ x, (c.gc.items x).size = (c.items x).size := by
    intro x
    rw [Cache.gc_items]
    split <;> rfl
  have helem : ∀ x, (c.gc.items x).element = (c.items x).element := by
    intro x
    rw [Cache.gc_items]
    split <;> rfl
  refine ⟨?_, ?_⟩
  · simp only [hsize]
    rw [Cache.gc_size, Cache.gcEvictions_ids, h1, debit_wrap, Cache.gc_list, Cache.gcVisited_eq]
    congr 1
    have hsplit := sum_filter_split (c.list.drop (c.list.length - c.config.itemsToPrune))
      c.canEvict (fun x => (c.items x).size)
    have htd : (c.list.map (fun x => (c.items x).size)).sum =
        ((c.list.take (c.list.length - c.config.itemsToPrune)).map
          (fun x => (c.items x).size)).sum +
        ((c.list.drop (c.list.length - c.config.itemsToPrune)).map
          (fun x => (c.items x).size)).sum := by
      rw [← List.sum_append, ← List.map_append, List.take_append_drop]
    rw [List.map_append, List.sum_append, htd, hsplit, List.filter_reverse, List.map_reverse,
      List.sum_reverse]
    omega
  · intro x hx
    rw [helem]
    exact h2 x (c.gc_sublist.subset hx)

theorem Cache.Sized_workerPromote (c : Cache) (item : ItemId) (rest : List ItemId)
    (h : c.Sized) (hq : c.promotables = item :: rest) :
    ∃ c1, c.workerPromote = some c1 ∧ c1.Sized := by
  have hl : Cache.Sized { c with promotables := rest } := h
  have hk := Cache.Sized_doPromote { c with promotables := rest } item hl
  simp only [Cache.workerPromote, hq]
  split
  · exact ⟨_, rfl, Cache.Sized_gc _ hk⟩
  · exact ⟨_, rfl, hk⟩

/-! ## The same on the layered cache -/

theorem LayeredCache.layered_Sized_doPromote (c : LayeredCache) (item : ItemId) (h : c.Sized) :
    ((c.doPromote item).1).Sized := by
  obtain ⟨h1, h2⟩ := h
  unfold LayeredCache.doPromote
  dsimp only
  split_ifs with hs he hp
  · exact ⟨h1, h2⟩
  · have hsize : ∀ x, (Function.update c.items item
        { ((c.items item).shouldPromote c.config.getsPerPromote).1 with promotions := 0 } x).size =
        (c.items x).size := by
      intro x
      by_cases hx : x = item
      · subst hx; simp [Item.shouldPromote]
      · simp [Function.update_noteq hx]
    have helem : ∀ x, (Function.update c.items item
        { ((c.items item).shouldPromote c.config.getsPerPromote).1 with promotions := 0 } x).element =
        (c.items x).element := by
      intro x
      by_cases hx : x = item
      · subst hx; simp [Item.shouldPromote]
      · simp [Function.update_noteq hx]
    refine ⟨?_, ?_⟩
    · simp only [hsize, listMoveToFront]
      split_ifs with hm
      · have hsum := sum_erase_mem c.list item (fun x => (c.items x).size) hm
        dsimp only at hsum
        rw [List.map_cons, List.sum_cons, hsum]
        exact h1
      · exact h1
    · intro x hx
      rw [helem]
      apply h2
      simp only [listMoveToFront] at hx
      split_ifs at hx with hm
      · rcases List.mem_cons.mp hx with rfl | hx
        · exact hm
        · exact List.mem_of_mem_erase hx
      · exact hx
  · have hsize : ∀ x, (Function.update c.items item
        ((c.items item).shouldPromote c.config.getsPerPromote).1 x).size = (c.items x).size := by
      intro x
      by_cases hx : x = item
      · subst hx; simp [Item.shouldPromote]
      · simp [Function.update_noteq hx]
    have helem : ∀ x, (Function.update c.items item
        ((c.items item).shouldPromote c.config.getsPerPromote).1 x).element =
        (c.items x).element := by
      intro x
      by_cases hx : x = item
      · subst hx; simp [Item.shouldPromote]
      · simp [Function.update_noteq hx]
    refine ⟨?_, ?_⟩
    · simp only [hsize]
      exact h1
    · intro x hx
      rw [helem]
      exact h2 x hx
  · have hsize : ∀ x, (Function.update c.items item
        { c.items item with element := true } x).size = (c.items x).size := by
      intro x
      by_cases hx : x = item
      · subst hx; simp
      · simp [Function.update_noteq hx]
    refine ⟨?_, ?_⟩
    · simp only [hsize, listPushFront, List.map_cons, List.sum_cons]
      rw [h1, wrap64_add_wrap, Int.add_comm]
    · intro x hx
      simp only [listPushFront, List.mem_cons] at hx
      by_cases hxi : x = item
      · subst hxi; simp
      · rcases hx with hx | hx
        · exact absurd hx hxi
        · simp only [Function.update_noteq hxi]
          exact h2 x hx

theorem LayeredCache.layered_Sized_gc (c : LayeredCache) (h : c.Sized) : c.gc.Sized := by
  obtain ⟨h1, h2⟩ := h
  have hsize : ∀ x, (c.gc.items x).size = (c.items x).size := by
    intro x
    rw [LayeredCache.layered_gc_items]
    split <;> rfl
  have helem : ∀ x, (c.gc.items x).element = (c.items x).element := by
    intro x
    rw [LayeredCache.layered_gc_items]
    split <;> rfl
  refine ⟨?_, ?_⟩
  · simp only [hsize]
    rw [LayeredCache.layered_gc_size, LayeredCache.layered_gcEvictions_ids, h1, debit_wrap, LayeredCache.layered_gc_list, LayeredCache.layered_gcVisited_eq]
    congr 1
    have hsplit := sum_filter_split (c.list.drop (c.list.length - c.config.itemsToPrune))
      c.canEvict (fun x => (c.items x).size)
    have htd : (c.list.map (fun x => (c.items x).size)).sum =
        ((c.list.take (c.list.length - c.config.itemsToPrune)).map
          (fun x => (c.items x).size)).sum +
        ((c.list.drop (c.list.length - c.config.itemsToPrune)).map
          (fun x => (c.items x).size)).sum := by
      rw [← List.sum_append, ← List.map_append, List.take_append_drop]
    rw [List.map_append, List.sum_append, htd, hsplit, List.filter_reverse, List.map_reverse,
      List.sum_reverse]
    omega
  · intro x hx
    rw [helem]
    exact h2 x (c.layered_gc_sublist.subset hx)

theorem LayeredCache.layered_Sized_workerPromote (c : LayeredCache) (item : ItemId) (rest : List ItemId)
    (h : c.Sized) (hq : c.promotables = item :: rest) :
    ∃ c1, c.workerPromote = some c1 ∧ c1.Sized := by
  have hl : LayeredCache.Sized { c with promotables := rest } := h
  have hk := LayeredCache.layered_Sized_doPromote { c with promotables := rest } item hl
  simp only [LayeredCache.workerPromote, hq]
  split
  · exact ⟨_, rfl, LayeredCache.layered_Sized_gc _ hk⟩
  · exact ⟨_, rfl, hk⟩

/-- C26: the predicate "the total size is the sum of the sizes of the items linked in
the recency list (in int64 arithmetic) and every item on the list has a list
position" is preserved, on the flat and on the layered cache, by `doPromote` of any
item and by `gc`; and from a state satisfying it, the worker's processing of a queued
promotion event, with the `gc` pass it may trigger, ends in a state satisfying it. -/
theorem size_matches_linked_items (c : Cache) (lc : LayeredCache)
    (h : c.Sized) (hl : lc.Sized) :
    ((∀ item, ((c.doPromote item).1).Sized) ∧ c.gc.Sized ∧
      (∀ item rest, c.promotables = item :: rest →
        ∃ c1, c.workerPromote = some c1 ∧ c1.Sized)) ∧
    ((∀ item, ((lc.doPromote item).1).Sized) ∧ lc.gc.Sized ∧
      (∀ item rest, lc.promotables = item :: rest →
        ∃ c1, lc.workerPromote = some c1 ∧ c1.Sized)) :=
  ⟨⟨fun item => Cache.Sized_doPromote c item h, Cache.Sized_gc c h,
      fun item rest hq => Cache.Sized_workerPromote c item rest h hq⟩,
    ⟨fun item => LayeredCache.layered_Sized_doPromote lc item hl,
      LayeredCache.layered_Sized_gc lc hl,
      fun item rest hq => LayeredCache.layered_Sized_workerPromote lc item rest hl hq⟩⟩

/-- The statement of C26 on the caches of the scenario, on which the worker has linked
four items of size 1 and then calls `gc` at size 4. -/
theorem size_matches_linked_items_witness :
    (scenarioOver.Sized ∧ layeredOver.Sized) ∧
    (scenarioOver.list.length = 4 ∧ scenarioOver.size = 4 ∧ scenarioOver.gc.Sized) ∧
    (layeredOver.list.length = 4 ∧ layeredOver.size = 4 ∧ layeredOver.gc.Sized) :=
  have h := size_matches_linked_items scenarioOver layeredOver (by decide) (by decide)
  ⟨⟨by decide, by decide⟩, ⟨by decide, by decide, h.1.2.1⟩, ⟨by decide, by decide, h.2.2.1⟩⟩

/-! ## The shard entries a `gc` pass removes -/

/-- C27, the code at the failing input: "a" was set, its item 0 linked, and "a" was
set again, so the shard maps "a" to item 1 while item 0 is still on the list behind
item 1.  The `gc` pass (max size 1, one item to prune) evicts item 0 only, yet
afterwards "a" is mapped to nothing: the entry of item 1, which was not evicted and
is still on the list, has been removed.  The same holds on the layered cache. -/
theorem gc_unmaps_newer_item :
    (replacedOver.list = [1, 0] ∧ replacedOver.size = 2 ∧
      (replacedOver.buckets (replacedOver.bucket "a")).get "a" = some 1 ∧
      replacedOver.gcEvictions.map Prod.fst = [0] ∧
      replacedOver.gc.list = [1] ∧
      (replacedOver.gc.buckets (replacedOver.gc.bucket "a")).get "a" = none ∧
      replacedOver.gc.ItemCount = 0) ∧
    (layeredReplacedOver.list = [1, 0] ∧ layeredReplacedOver.size = 2 ∧
      (layeredReplacedOver.buckets (layeredReplacedOver.bucket "p")).get "p" "a" = some 1 ∧
      layeredReplacedOver.gcEvictions.map Prod.fst = [0] ∧
      layeredReplacedOver.gc.list = [1] ∧
      (layeredReplacedOver.gc.buckets (layeredReplacedOver.gc.bucket "p")).get "p" "a" = none ∧
      layeredReplacedOver.gc.ItemCount = 0) :=
  ⟨⟨by decide, by decide, by decide, by decide, by decide, by decide, by decide⟩,
    ⟨by decide, by decide, by decide, by decide, by decide, by decide, by decide⟩⟩

/-! ## The shard index is in range -/

theorem Buckets_pow (c : Configuration) (count : Nat) :
    ∃ k, k < 32 ∧ (c.Buckets count).buckets = 2 ^ k := by
  unfold Configuration.Buckets
  dsimp only
  split_ifs with h
  · exact ⟨4, by decide, rfl⟩
  · have hlt : count % 2 ^ 32 < 2 ^ 32 := Nat.mod_lt _ (by decide)
    have h0 : count % 2 ^ 32 ≠ 0 := fun h0 => h (Or.inl h0)
    have hl : Nat.land (count % 2 ^ 32) ((2 ^ 32 - 1 - count % 2 ^ 32 + 1) % 2 ^ 32) =
        count % 2 ^ 32 := by
      by_contra hl
      exact h (Or.inr hl)
    have hneg : (2 ^ 32 - 1 - count % 2 ^ 32 + 1) % 2 ^ 32 = 2 ^ 32 - count % 2 ^ 32 := by
      omega
    rw [hneg] at hl
    obtain ⟨k, hk⟩ := pow_two_of_land_neg 32 (count % 2 ^ 32) (by omega) hlt hl
    refine ⟨k, ?_, hk⟩
    rw [hk] at hlt
    exact (Nat.pow_lt_pow_iff_right (by decide)).mp hlt

theorem configured_pow (counts : List Nat) :
    ∃ k, k < 32 ∧ (configured counts).buckets = 2 ^ k := by
  unfold configured
  induction counts using List.reverseRecOn with
  | nil => exact ⟨4, by decide, rfl⟩
  | append_singleton l a _ =>
    rw [List.foldl_append]
    exact Buckets_pow _ a

theorem mask_of_pow (k : Nat) (hk : k < 32) :
    (2 ^ k % 2 ^ 32 + (2 ^ 32 - 1)) % 2 ^ 32 = 2 ^ k - 1 := by
  interval_cases k <;> rfl

theorem land_mask_lt (h k : Nat) : Nat.land h (2 ^ k - 1) < 2 ^ k := by
  show h &&& (2 ^ k - 1) < 2 ^ k
  rw [Nat.and_pow_two_sub_one_eq_mod]
  exact Nat.mod_lt _ (Nat.pos_pow_of_pos k (by decide))

theorem land_mask_self (i k : Nat) (hi : i < 2 ^ k) : Nat.land i (2 ^ k - 1) = i := by
  show i &&& (2 ^ k - 1) = i
  rw [Nat.and_pow_two_sub_one_eq_mod]
  exact Nat.mod_eq_of_lt hi

/-- C28: for every configuration obtained from `Configure()` by calls of `Buckets`
and every key, the shard index computed by `Cache.bucket` and by
`LayeredCache.bucket` on a cache built from it is below the number of buckets; and
every index below the number of buckets is `h & bucketMask` for some 32 bit value
`h`. -/
theorem shard_index_in_range (counts : List Nat) (key : String) :
    (New (configured counts)).bucket key < (configured counts).buckets ∧
    (Layered (configured counts)).bucket key < (configured counts).buckets ∧
    ∀ i, i < (configured counts).buckets →
      ∃ h, h < 2 ^ 32 ∧ Nat.land h (New (configured counts)).bucketMask = i ∧
        Nat.land h (Layered (configured counts)).bucketMask = i := by
  obtain ⟨k, hk, hb⟩ := configured_pow counts
  have hm : (New (configured counts)).bucketMask = 2 ^ k - 1 := by
    simp only [New, Cache.restart, hb]
    exact mask_of_pow k hk
  have hlm : (Layered (configured counts)).bucketMask = 2 ^ k - 1 := by
    simp only [Layered, LayeredCache.restart, hb]
    exact mask_of_pow k hk
  refine ⟨?_, ?_, ?_⟩
  · rw [Cache.bucket, hm, hb]
    exact land_mask_lt _ k
  · rw [LayeredCache.bucket, hlm, hb]
    exact land_mask_lt _ k
  · intro i hi
    rw [hb] at hi
    refine ⟨i, ?_, ?_, ?_⟩
    · exact Nat.lt_trans hi (Nat.pow_lt_pow_right (by decide) hk)
    · rw [hm]; exact land_mask_self i k hi
    · rw [hlm]; exact land_mask_self i k hi

/-- The statement of C28 for `Configure().Buckets(12).Buckets(8)`, the key "a" and
the index 5. -/
theorem shard_index_in_range_witness :
    (configured [12, 8]).buckets = 8 ∧ 5 < (configured [12, 8]).buckets ∧
    (New (configured [12, 8])).bucket "a" < 8 ∧
    ∃ h, h < 2 ^ 32 ∧ Nat.land h (New (configured [12, 8])).bucketMask = 5 ∧
      Nat.land h (Layered (configured [12, 8])).bucketMask = 5 :=
  ⟨by decide, by decide, (shard_index_in_range [12, 8] "a").1,
    (shard_index_in_range [12, 8] "a").2.2 5 (by decide)⟩

/-! ## Calls that find the promotion channel full -/

theorem Cache.Set_then_Get_full (c : Cache) (k : String) (v : Value) (ttl now : Int)
    (httl : 0 < ttl) (hd : c.deletables.length < c.config.deleteBuffer)
    (hp : c.promotables.length + 1 = c.config.promoteBuffer) :
    c.Set k v ttl now = some (c.afterSet k v ttl now) ∧
      (c.afterSet k v ttl now).Get k now = none := by
  refine ⟨?_, Cache.Get_full _ k now c.nextItem ?_ (Cache.afterSet_lookup c k v ttl now) ?_⟩
  · rw [Cache.Set, Cache.set_eq_some c k v ttl now hd (by omega)]; rfl
  · simp [Cache.afterSet]; omega
  · simp [Cache.afterSet, newItem, httl]

theorem LayeredCache.layered_Set_then_Get_full (c : LayeredCache) (p s : String) (v : Value)
    (ttl now : Int) (httl : 0 < ttl) (hd : c.deletables.length < c.config.deleteBuffer)
    (hp : c.promotables.length + 1 = c.config.promoteBuffer) :
    c.Set p s v ttl now = some (c.afterSet p s v ttl now) ∧
      (c.afterSet p s v ttl now).Get p s now = none := by
  refine ⟨?_, LayeredCache.layered_Get_full _ p s now c.nextItem ?_
    (LayeredCache.layered_afterSet_lookup c p s v ttl now) ?_⟩
  · rw [LayeredCache.Set, LayeredCache.layered_set_eq_some c p s v ttl now hd (by omega)]; rfl
  · simp [LayeredCache.afterSet]; omega
  · simp [LayeredCache.afterSet, newItem, httl]

/-- C1, the code at the failing input: on a fresh cache whose promotion channel has
capacity 1, for every key and value, `Set(k, v, 60)` at clock reading 0 returns, and
the key is then mapped to an item with value `v` and expiry 60; but the promotion
that `Set` has queued fills the channel, and the `Get(k)` issued right after, at the
same clock reading, does not return: it blocks in `promote`.  The same holds on the
layered cache. -/
theorem set_then_get_blocks (k p s : String) (v : Value) :
    (((New (Configure.PromoteBuffer 1)).Set k v 60 0).map
        (fun c => ((c.buckets (c.bucket k)).get k).map
          (fun item => ((c.items item).value, (c.items item).expires))) = some (some (v, 60)) ∧
      ((New (Configure.PromoteBuffer 1)).Set k v 60 0).bind (fun c => c.Get k 0) = none) ∧
    (((Layered (Configure.PromoteBuffer 1)).Set p s v 60 0).map
        (fun c => ((c.buckets (c.bucket p)).get p s).map
          (fun item => ((c.items item).value, (c.items item).expires))) = some (some (v, 60)) ∧
      ((Layered (Configure.PromoteBuffer 1)).Set p s v 60 0).bind (fun c => c.Get p s 0) =
        none) := by
  have h := Cache.Set_then_Get_full (New (Configure.PromoteBuffer 1)) k v 60 0 (by decide)
    (by decide) (by decide)
  have hl := LayeredCache.layered_Set_then_Get_full (Layered (Configure.PromoteBuffer 1)) p s v
    60 0 (by decide) (by decide) (by decide)
  refine ⟨⟨?_, ?_⟩, ⟨?_, ?_⟩⟩
  · rw [h.1, Option.map_some', Cache.afterSet_lookup]
    simp [Cache.afterSet, newItem]
  · rw [h.1, Option.some_bind]
    exact h.2
  · rw [hl.1, Option.map_some', LayeredCache.layered_afterSet_lookup]
    simp [LayeredCache.afterSet, newItem]
  · rw [hl.1, Option.some_bind]
    exact hl.2

/-- C9, the code at the failing input: on a fresh cache whose promotion channel has
capacity 2, `Set("x", 1, 60)` at clock reading 0 queues the promotion of item 0.  A
first `Get("x")` at clock reading 0 returns item 0 and queues one more promotion of it,
which fills the channel.  A second `Get("x")` finds the key present with an expiry
strictly later than the clock reading, yet it queues nothing and returns no item: it
blocks in `promote`.  The same holds on the layered cache. -/
theorem second_get_blocks :
    (narrowFlat.map (fun c => (c.promotables, (c.buckets (c.bucket "x")).get "x",
        (c.items 0).expires)) = some ([0], some 0, 60) ∧
      (narrowFlat.bind (fun c => c.Get "x" 0)).map
          (fun r => (r.2, r.1.promotables, (r.1.buckets (r.1.bucket "x")).get "x")) =
        some (some 0, [0, 0], some 0) ∧
      ((narrowFlat.bind (fun c => c.Get "x" 0)).bind (fun r => r.1.Get "x" 0)).isNone = true) ∧
    (narrowLayered.map (fun c => (c.promotables, (c.buckets (c.bucket "p")).get "p" "x",
        (c.items 0).expires)) = some ([0], some 0, 60) ∧
      (narrowLayered.bind (fun c => c.Get "p" "x" 0)).map
          (fun r => (r.2, r.1.promotables, (r.1.buckets (r.1.bucket "p")).get "p" "x")) =
        some (some 0, [0, 0], some 0) ∧
      ((narrowLayered.bind (fun c => c.Get "p" "x" 0)).bind
        (fun r => r.1.Get "p" "x" 0)).isNone = true) :=
  ⟨⟨by decide, by decide, by decide⟩, ⟨by decide, by decide, by decide⟩⟩

/-- C12, the code at the failing input: on a fresh cache whose promotion channel has
capacity 2, `Set("x", 1, 60)` at clock reading 0 queues the promotion of item 0;
`Replace("x", 2)` returns true, maps "x" to the new item 1 with value 2 and expiry 60,
and its `Set` queues the promotion of item 1, which fills the channel; the following
`Get("x")` returns no item: it blocks in `promote`.  When the capacity is 1, `Set("a")`
fills the channel and `Replace("a", 2)` itself does not return although "a" has an
entry.  The same holds on the layered cache. -/
theorem replace_then_get_blocks :
    ((narrowFlat.bind (fun c => c.Replace "x" ⟨2, none⟩ 0 0)).map
          (fun r => (r.2, r.1.promotables, r.1.deletables)) = some (true, [0, 1], [0]) ∧
      (narrowFlat.bind (fun c => c.Replace "x" ⟨2, none⟩ 0 0)).map
          (fun r => ((r.1.buckets (r.1.bucket "x")).get "x", (r.1.items 1).value,
            (r.1.items 1).expires)) = some (some 1, ⟨2, none⟩, 60) ∧
      ((narrowFlat.bind (fun c => c.Replace "x" ⟨2, none⟩ 0 0)).bind
        (fun r => r.1.Get "x" 0)).isNone = true ∧
      fullFlat.map (fun c => (c.buckets (c.bucket "a")).get "a") = some (some 0) ∧
      (fullFlat.bind (fun c => c.Replace "a" ⟨2, none⟩ 0 0)).isNone = true) ∧
    ((narrowLayered.bind (fun c => c.Replace "p" "x" ⟨2, none⟩ 0 0)).map
          (fun r => (r.2, r.1.promotables, r.1.deletables)) = some (true, [0, 1], [0]) ∧
      (narrowLayered.bind (fun c => c.Replace "p" "x" ⟨2, none⟩ 0 0)).map
          (fun r => ((r.1.buckets (r.1.bucket "p")).get "p" "x", (r.1.items 1).value,
            (r.1.items 1).expires)) = some (some 1, ⟨2, none⟩, 60) ∧
      ((narrowLayered.bind (fun c => c.Replace "p" "x" ⟨2, none⟩ 0 0)).bind
        (fun r => r.1.Get "p" "x" 0)).isNone = true ∧
      fullLayered.map (fun c => (c.buckets (c.bucket "p")).get "p" "a") = some (some 0) ∧
      (fullLayered.bind (fun c => c.Replace "p" "a" ⟨2, none⟩ 0 0)).isNone = true) :=
  ⟨⟨by decide, by decide, by decide, by decide, by decide⟩,
    ⟨by decide, by decide, by decide, by decide, by decide⟩⟩

end CCache
